import Mathlib

/-!
# flythrough_camera.h: a verification development

The C source computes in `float`.  This development reads every `float` as an
exact real number, extended by one extra value `nan` for the result of an
undefined operation (`0/0`, `sqrtf` of a negative number, `acosf` outside
`[-1, 1]`).  Rounding is not modelled: a literal denotes the decimal number
that is written in the source, and `+ - * /`, `sqrtf`, `cosf`, `sinf`,
`acosf` are the exact operations on the reals.  `nan` propagates through
arithmetic and makes every comparison false, as in C.

`int` arguments are integers; the unary minus on an `int` wraps to 32 bits.
A failing `assert` makes the function return `none`.
-/

namespace FlythroughCamera

noncomputable section

/-! ## Floats -/

/-- A C `float` read over exact arithmetic: a real number, or `nan`. -/
inductive Flt where
  | val (r : ℝ)
  | nan

namespace Flt

/-- Addition of floats, `nan` if an operand is `nan`. -/
def add : Flt → Flt → Flt
  | val a, val b => val (a + b)
  | _, _ => nan

/-- Subtraction of floats. -/
def sub : Flt → Flt → Flt
  | val a, val b => val (a - b)
  | _, _ => nan

/-- Multiplication of floats. -/
def mul : Flt → Flt → Flt
  | val a, val b => val (a * b)
  | _, _ => nan

/-- Division of floats: a zero divisor gives no real number. -/
def div : Flt → Flt → Flt
  | val a, val b => if b = 0 then nan else val (a / b)
  | _, _ => nan

/-- Unary minus of a float. -/
def neg : Flt → Flt
  | val a => val (-a)
  | nan => nan

instance : Add Flt := ⟨add⟩
instance : Sub Flt := ⟨sub⟩
instance : Mul Flt := ⟨mul⟩
instance : Div Flt := ⟨div⟩
instance : Neg Flt := ⟨neg⟩

/-- The order of floats: a comparison with `nan` is false. -/
def lt : Flt → Flt → Prop
  | val a, val b => a < b
  | _, _ => False

instance : LT Flt := ⟨lt⟩

instance decLt (a b : Flt) : Decidable (a < b) := Classical.propDecidable _

/-- C `sqrtf`. -/
def sqrtf : Flt → Flt
  | val a => if a < 0 then nan else val (Real.sqrt a)
  | nan => nan

/-- C `fabsf`. -/
def fabsf : Flt → Flt
  | val a => val |a|
  | nan => nan

/-- C `cosf`. -/
def cosf : Flt → Flt
  | val a => val (Real.cos a)
  | nan => nan

/-- C `sinf`. -/
def sinf : Flt → Flt
  | val a => val (Real.sin a)
  | nan => nan

/-- C `acosf`: defined on `[-1, 1]` only. -/
def acosf : Flt → Flt
  | val a => if a < -1 ∨ 1 < a then nan else val (Real.arccos a)
  | nan => nan

/-- Conversion of an `int` to `float`. -/
def ofInt (n : Int) : Flt := val (n : ℝ)

end Flt

open Flt

/-- The constant `3.14159265359f` of the source. -/
def PI_F : ℝ := 3.14159265359

/-- The flag `FLYTHROUGH_CAMERA_LEFT_HANDED_BIT`. -/
def FLYTHROUGH_CAMERA_LEFT_HANDED_BIT : Nat := 1

/-- Wrap an integer to the range of a 32-bit `int`. -/
def wrap32 (n : Int) : Int := (n + 2147483648) % 4294967296 - 2147483648

/-! ## Vectors and the view buffer -/

/-- A `float[3]`: `x`, `y`, `z` are the elements `[0]`, `[1]`, `[2]`. -/
structure Vec3 where
  x : Flt
  y : Flt
  z : Flt

/-- A `float[16]`. -/
abbrev Mat16 := Fin 16 → Flt

/-- The expression `sqrtf(v[0] * v[0] + v[1] * v[1] + v[2] * v[2])`. -/
def len3 (v : Vec3) : Flt := sqrtf (v.x * v.x + v.y * v.y + v.z * v.z)

/-- Division of the three elements by a length: the statements
`v[0] /= len; v[1] /= len; v[2] /= len`, and the initialiser
`{ v[0] / len, v[1] / len, v[2] / len }`. -/
def div3 (v : Vec3) (len : Flt) : Vec3 := ⟨v.x / len, v.y / len, v.z / len⟩

/-- The initialiser
`{ a[1] * b[2] - a[2] * b[1], a[2] * b[0] - a[0] * b[2], a[0] * b[1] - a[1] * b[0] }`. -/
def cross3 (a b : Vec3) : Vec3 :=
  ⟨a.y * b.z - a.z * b.y, a.z * b.x - a.x * b.z, a.x * b.y - a.y * b.x⟩

/-- The statements `eye[i] += m[i] / len * eye_speed * delta_time_seconds`. -/
def advance (eye m : Vec3) (len eye_speed delta_time_seconds : Flt) : Vec3 :=
  ⟨eye.x + m.x / len * eye_speed * delta_time_seconds,
   eye.y + m.y / len * eye_speed * delta_time_seconds,
   eye.z + m.z / len * eye_speed * delta_time_seconds⟩

/-- An `int` used as a truth value. -/
def held (k : Int) : Prop := k ≠ 0

instance (k : Int) : Decidable (held k) := inferInstanceAs (Decidable (k ≠ 0))

/-- The expression `(k ? 1.0f : 0.0f)`. -/
def cond01 (k : Int) : Flt := if held k then val 1 else val 0

/-! ## flythrough_camera_update, lines 100 to 123: the basis -/

/-- Lines 100 to 109: `across = normalize(cross(normalize(look), normalize(up)))`. -/
def update_across (look up : Vec3) (look_len up_len : Flt) : Vec3 :=
  let across : Vec3 :=
    ⟨look.y / look_len * up.z / up_len - look.z / look_len * up.y / up_len,
     look.z / look_len * up.x / up_len - look.x / look_len * up.z / up_len,
     look.x / look_len * up.y / up_len - look.y / look_len * up.x / up_len⟩
  let across_len := len3 across
  div3 across across_len

/-- Lines 111 and 112: `forward = normalize(look)`. -/
def update_forward (look : Vec3) (look_len : Flt) : Vec3 :=
  div3 look look_len

/-- Lines 114 to 123: `upward = normalize(cross(across, forward))`. -/
def update_upward (across forward : Vec3) : Vec3 :=
  let upward := cross3 across forward
  let upward_len := len3 upward
  div3 upward upward_len

/-! ## Lines 125 to 155: translation of the eye -/

/-- Lines 125 to 143: eye movement in the xz plane. -/
def update_eye_xz (eye across forward : Vec3) (eye_speed delta_time_seconds : Flt)
    (forward_held left_held backward_held right_held : Int) : Vec3 :=
  if (held right_held ∧ ¬ held left_held) ∨ (¬ held right_held ∧ held left_held) ∨
      (held forward_held ∧ ¬ held backward_held) ∨ (¬ held forward_held ∧ held backward_held) then
    let x_multiplier := cond01 right_held - cond01 left_held
    let z_multiplier := cond01 forward_held - cond01 backward_held
    let xz_movement : Vec3 :=
      ⟨across.x * x_multiplier + forward.x * z_multiplier,
       across.y * x_multiplier + forward.y * z_multiplier,
       across.z * x_multiplier + forward.z * z_multiplier⟩
    let xz_movement_len := len3 xz_movement
    advance eye xz_movement xz_movement_len eye_speed delta_time_seconds
  else eye

/-- Lines 145 to 155: eye movement in the y direction. -/
def update_eye_y (eye up : Vec3) (eye_speed delta_time_seconds : Flt)
    (jump_held crouch_held : Int) : Vec3 :=
  if (held jump_held ∧ ¬ held crouch_held) ∨ (¬ held jump_held ∧ held crouch_held) then
    let y_multiplier := cond01 jump_held - cond01 crouch_held
    let y_movement : Vec3 := ⟨up.x * y_multiplier, up.y * y_multiplier, up.z * y_multiplier⟩
    let y_movement_len := len3 y_movement
    advance eye y_movement y_movement_len eye_speed delta_time_seconds
  else eye

/-! ## Lines 157 to 251: rotation of the look direction -/

/-- The rotation block shared by lines 164 to 193 (yaw, about `up_norm`) and
lines 223 to 250 (pitch, about `across`): the cosine and sine of the angle,
the nine entries of the rotation matrix, the product with `look`, and the
division by the length of the product. -/
def rotate_look (axis look : Vec3) (rads : Flt) : Vec3 :=
  let c := cosf rads
  let s := sinf rads
  let r0 := c + (val 1 - c) * axis.x * axis.x
  let r1 := (val 1 - c) * axis.x * axis.y + s * axis.z
  let r2 := (val 1 - c) * axis.x * axis.z - s * axis.y
  let r3 := (val 1 - c) * axis.x * axis.y - s * axis.z
  let r4 := c + (val 1 - c) * axis.y * axis.y
  let r5 := (val 1 - c) * axis.y * axis.z + s * axis.x
  let r6 := (val 1 - c) * axis.x * axis.z + s * axis.y
  let r7 := (val 1 - c) * axis.y * axis.z - s * axis.x
  let r8 := c + (val 1 - c) * axis.z * axis.z
  let newlook : Vec3 :=
    ⟨r0 * look.x + r3 * look.y + r6 * look.z,
     r1 * look.x + r4 * look.y + r7 * look.z,
     r2 * look.x + r5 * look.y + r8 * look.z⟩
  let newlook_len := len3 newlook
  div3 newlook newlook_len

/-- Lines 157 to 194: yaw rotation. -/
def update_yaw (look up : Vec3) (up_len degrees_per_cursor_move : Flt)
    (delta_cursor_x : Int) : Vec3 :=
  if delta_cursor_x ≠ 0 then
    let yaw_degrees := ofInt (wrap32 (-delta_cursor_x)) * degrees_per_cursor_move
    let yaw_radians := yaw_degrees * val PI_F / val 180
    let up_norm := div3 up up_len
    rotate_look up_norm look yaw_radians
  else look

/-- Lines 199 to 220: the clamped pitch angle in degrees; `delta_cursor_y` is
the value after the negation of line 98. -/
def pitch_degrees (look up : Vec3) (degrees_per_cursor_move max_pitch_rotation_degrees : Flt)
    (delta_cursor_y : Int) : Flt :=
  let rads_to_up := acosf (look.x * up.x + look.y * up.y + look.z * up.z)
  let rads_to_down := acosf (look.x * -up.x + look.y * -up.y + look.z * -up.z)
  let degs_to_up := rads_to_up / val PI_F * val 180
  let degs_to_down := rads_to_down / val PI_F * val 180
  let max_pitch_degrees := degs_to_up - (val 90 - max_pitch_rotation_degrees)
  let max_pitch_degrees := if max_pitch_degrees < val 0 then val 0 else max_pitch_degrees
  let min_pitch_degrees := degs_to_down - (val 90 - max_pitch_rotation_degrees)
  let min_pitch_degrees := if min_pitch_degrees < val 0 then val 0 else min_pitch_degrees
  let pitch_degrees := ofInt delta_cursor_y * degrees_per_cursor_move
  let pitch_degrees :=
    if pitch_degrees > val 0 ∧ pitch_degrees > max_pitch_degrees then max_pitch_degrees
    else pitch_degrees
  let pitch_degrees :=
    if pitch_degrees < val 0 ∧ -pitch_degrees > min_pitch_degrees then -min_pitch_degrees
    else pitch_degrees
  pitch_degrees

/-- Lines 196 to 251: pitch rotation; `delta_cursor_y` is the value after the
negation of line 98, `across` the vector of lines 100 to 109. -/
def update_pitch (look up across : Vec3)
    (degrees_per_cursor_move max_pitch_rotation_degrees : Flt) (delta_cursor_y : Int) : Vec3 :=
  if delta_cursor_y ≠ 0 then
    let pitch_degrees :=
      pitch_degrees look up degrees_per_cursor_move max_pitch_rotation_degrees delta_cursor_y
    let pitch_rads := pitch_degrees * val PI_F / val 180
    rotate_look across look pitch_rads
  else look

/-! ## flythrough_camera_look_to -/

/-- Lines 272 to 308 of `flythrough_camera_look_to`: the vectors `s`, `u` and
`f` (after the flip of lines 300 to 308). -/
def look_to_basis (look up : Vec3) (flags : Nat) : Vec3 × Vec3 × Vec3 :=
  let look_len := len3 look
  let up_len := len3 up
  let up_norm := div3 up up_len
  let f := div3 look look_len
  let s := cross3 f up_norm
  let s_len := len3 s
  let s := div3 s s_len
  let u := cross3 s f
  let u_len := len3 u
  let u := div3 u u_len
  let f : Vec3 :=
    if flags &&& FLYTHROUGH_CAMERA_LEFT_HANDED_BIT = 0 then ⟨-f.x, -f.y, -f.z⟩ else f
  (s, u, f)

/-- Lines 310 to 333: the translation `t` and the sixteen stores to `view`. -/
def look_to_store (view : Mat16) (eye s u f : Vec3) : Mat16 :=
  let t : Vec3 :=
    ⟨s.x * -eye.x + s.y * -eye.y + s.z * -eye.z,
     u.x * -eye.x + u.y * -eye.y + u.z * -eye.z,
     f.x * -eye.x + f.y * -eye.y + f.z * -eye.z⟩
  let view := Function.update view 0 s.x
  let view := Function.update view 1 u.x
  let view := Function.update view 2 f.x
  let view := Function.update view 3 (val 0)
  let view := Function.update view 4 s.y
  let view := Function.update view 5 u.y
  let view := Function.update view 6 f.y
  let view := Function.update view 7 (val 0)
  let view := Function.update view 8 s.z
  let view := Function.update view 9 u.z
  let view := Function.update view 10 f.z
  let view := Function.update view 11 (val 0)
  let view := Function.update view 12 t.x
  let view := Function.update view 13 t.y
  let view := Function.update view 14 t.z
  let view := Function.update view 15 (val 1)
  view

/-- The function `flythrough_camera_look_to`.  `view` is `none` for a null
pointer and the present contents of the buffer otherwise; the result is
`none` when an `assert` fails, and the contents of the buffer on return
otherwise. -/
def flythrough_camera_look_to (eye look up : Vec3) (view : Option Mat16) (flags : Nat) :
    Option (Option Mat16) :=
  match view with
  | none => some none
  | some view =>
    let look_len := len3 look
    let up_len := len3 up
    if fabsf (look_len - val 1) < val 0.000001 then
      if fabsf (up_len - val 1) < val 0.000001 then
        let suf := look_to_basis look up flags
        some (some (look_to_store view eye suf.1 suf.2.1 suf.2.2))
      else none
    else none

/-! ## flythrough_camera_update -/

/-- What `flythrough_camera_update` leaves in its in-out arguments. -/
structure Camera where
  eye : Vec3
  look : Vec3
  view : Option Mat16

/-- The function `flythrough_camera_update`; `none` when an `assert` fails.
The vector `upward` of lines 114 to 123 is computed and never read. -/
def flythrough_camera_update (eye look up : Vec3) (view : Option Mat16)
    (delta_time_seconds eye_speed degrees_per_cursor_move max_pitch_rotation_degrees : Flt)
    (delta_cursor_x delta_cursor_y : Int)
    (forward_held left_held backward_held right_held jump_held crouch_held : Int)
    (flags : Nat) : Option Camera :=
  let look_len := len3 look
  let up_len := len3 up
  if fabsf (look_len - val 1) < val 0.000001 then
    if fabsf (up_len - val 1) < val 0.000001 then
      let delta_cursor_y := wrap32 (-delta_cursor_y)
      let across := update_across look up look_len up_len
      let forward := update_forward look look_len
      let _upward := update_upward across forward
      let eye := update_eye_xz eye across forward eye_speed delta_time_seconds
        forward_held left_held backward_held right_held
      let eye := update_eye_y eye up eye_speed delta_time_seconds jump_held crouch_held
      let look := update_yaw look up up_len degrees_per_cursor_move delta_cursor_x
      let look := update_pitch look up across degrees_per_cursor_move
        max_pitch_rotation_degrees delta_cursor_y
      match flythrough_camera_look_to eye look up view flags with
      | some view => some ⟨eye, look, view⟩
      | none => none
    else none
  else none

/-! ## Real vectors: the values the theorems range over -/

/-- A vector of three real numbers. -/
@[ext]
structure RVec where
  x : ℝ
  y : ℝ
  z : ℝ

namespace RVec

/-- The `float[3]` holding a real vector. -/
def toF (v : RVec) : Vec3 := ⟨val v.x, val v.y, val v.z⟩

/-- The dot product. -/
def dot (a b : RVec) : ℝ := a.x * b.x + a.y * b.y + a.z * b.z

/-- The cross product. -/
def cross (a b : RVec) : RVec :=
  ⟨a.y * b.z - a.z * b.y, a.z * b.x - a.x * b.z, a.x * b.y - a.y * b.x⟩

/-- The Euclidean length. -/
def norm (a : RVec) : ℝ := Real.sqrt (a.x * a.x + a.y * a.y + a.z * a.z)

/-- The vector divided by a number. -/
def divs (a : RVec) (r : ℝ) : RVec := ⟨a.x / r, a.y / r, a.z / r⟩

/-- The opposite vector. -/
def neg (a : RVec) : RVec := ⟨-a.x, -a.y, -a.z⟩

/-- Two vectors are parallel when their cross product vanishes. -/
def Parallel (a b : RVec) : Prop := cross a b = ⟨0, 0, 0⟩

/-- The angle between two vectors, in degrees. -/
def angle_degrees (a b : RVec) : ℝ :=
  Real.arccos (dot a b / (norm a * norm b)) * 180 / Real.pi

/-- The squared length. -/
def normSq (a : RVec) : ℝ := a.x * a.x + a.y * a.y + a.z * a.z

/-- Real value of the matrix product of the rotation block (`newlook` before
the division by its length), for cosine `c` and sine `s`. -/
def rot (k v : RVec) (c s : ℝ) : RVec :=
  ⟨(c + (1 - c) * k.x * k.x) * v.x + ((1 - c) * k.x * k.y - s * k.z) * v.y +
      ((1 - c) * k.x * k.z + s * k.y) * v.z,
   ((1 - c) * k.x * k.y + s * k.z) * v.x + (c + (1 - c) * k.y * k.y) * v.y +
      ((1 - c) * k.y * k.z - s * k.x) * v.z,
   ((1 - c) * k.x * k.z - s * k.y) * v.x + ((1 - c) * k.y * k.z + s * k.x) * v.y +
      (c + (1 - c) * k.z * k.z) * v.z⟩

/-- Real value of `across` for unit `look` and `up`. -/
def across (look up : RVec) : RVec := (cross look up).divs (cross look up).norm

/-- Real value of the clamped pitch angle of lines 199 to 220, in degrees. -/
def pitchDeg (look up : RVec) (dpcm M : ℝ) (n : Int) : ℝ :=
  let max_pitch := Real.arccos (dot look up) / PI_F * 180 - (90 - M)
  let max_pitch := if max_pitch < 0 then 0 else max_pitch
  let min_pitch := Real.arccos (-dot look up) / PI_F * 180 - (90 - M)
  let min_pitch := if min_pitch < 0 then 0 else min_pitch
  let p := (n : ℝ) * dpcm
  let p := if 0 < p ∧ max_pitch < p then max_pitch else p
  if p < 0 ∧ min_pitch < -p then -min_pitch else p

/-- Real value of `look` after the yaw block, for unit `look` and `up`. -/
def yaw (look up : RVec) (dpcm : ℝ) (delta_cursor_x : Int) : RVec :=
  if delta_cursor_x ≠ 0 then
    rot up look (Real.cos (((wrap32 (-delta_cursor_x) : Int) : ℝ) * dpcm * PI_F / 180))
      (Real.sin (((wrap32 (-delta_cursor_x) : Int) : ℝ) * dpcm * PI_F / 180))
  else look

/-- Real value of `look` after the pitch block, for unit `look`, `up` and
`across`; `n` is `delta_cursor_y` after the negation of line 98. -/
def pitch (look up across : RVec) (dpcm M : ℝ) (n : Int) : RVec :=
  if n ≠ 0 then
    rot across look (Real.cos (pitchDeg look up dpcm M n * PI_F / 180))
      (Real.sin (pitchDeg look up dpcm M n * PI_F / 180))
  else look

/-- Real value of `look` on return from `flythrough_camera_update`, for unit
`look` and `up` that are not parallel. -/
def newLook (look up : RVec) (dpcm M : ℝ) (delta_cursor_x delta_cursor_y : Int) : RVec :=
  pitch (yaw look up dpcm delta_cursor_x) up (across look up) dpcm M (wrap32 (-delta_cursor_y))

end RVec

/-- The vector all of whose elements are `nan`. -/
def nan3 : Vec3 := ⟨nan, nan, nan⟩

/-- Value of `eye` on return from `flythrough_camera_update`. -/
def newEye (eye look up : Vec3) (delta_time_seconds eye_speed : Flt)
    (forward_held left_held backward_held right_held jump_held crouch_held : Int) : Vec3 :=
  update_eye_y
    (update_eye_xz eye (update_across look up (len3 look) (len3 up))
      (update_forward look (len3 look))
      eye_speed delta_time_seconds forward_held left_held backward_held right_held)
    up eye_speed delta_time_seconds jump_held crouch_held

/-- The buffer on return from `flythrough_camera_look_to` when no assertion fails. -/
def newView (eye look up : Vec3) (view : Option Mat16) (flags : Nat) : Option Mat16 :=
  view.map fun old => look_to_store old eye (look_to_basis look up flags).1
    (look_to_basis look up flags).2.1 (look_to_basis look up flags).2.2

/-! ## Sequences of updates -/

/-- The per-frame arguments of `flythrough_camera_update`. -/
structure Frame where
  delta_time_seconds : Flt
  eye_speed : Flt
  degrees_per_cursor_move : Flt
  max_pitch_rotation_degrees : Flt
  delta_cursor_x : Int
  delta_cursor_y : Int
  forward_held : Int
  left_held : Int
  backward_held : Int
  right_held : Int
  jump_held : Int
  crouch_held : Int
  flags : Nat

/-- One call of `flythrough_camera_update` on the caller's camera state. -/
def update_frame (up : Vec3) (cam : Camera) (fr : Frame) : Option Camera :=
  flythrough_camera_update cam.eye cam.look up cam.view fr.delta_time_seconds fr.eye_speed
    fr.degrees_per_cursor_move fr.max_pitch_rotation_degrees fr.delta_cursor_x fr.delta_cursor_y
    fr.forward_held fr.left_held fr.backward_held fr.right_held fr.jump_held fr.crouch_held
    fr.flags

/-- The caller's loop: one update per frame, each on the state the previous
one left; `none` as soon as an update fails an assertion. -/
def run_updates (up : Vec3) (cam : Camera) : List Frame → Option Camera
  | [] => some cam
  | fr :: rest =>
    match update_frame up cam fr with
    | some cam2 => run_updates up cam2 rest
    | none => none

/-- Before every update of the run the camera's `look` is a real vector that
is not parallel to `up`. -/
def NonParallelRun (up : RVec) (cam : Camera) : List Frame → Prop
  | [] => True
  | fr :: rest =>
    (∃ l : RVec, cam.look = l.toF ∧ ¬ RVec.Parallel l up) ∧
      ∀ cam2, update_frame up.toF cam fr = some cam2 → NonParallelRun up cam2 rest

/-! ## Concrete inputs -/

/-- The origin, as a `float[3]`. -/
def origin : Vec3 := ⟨val 0, val 0, val 0⟩

/-- The direction `(0, 0, -1)`. -/
def minusZ : RVec := ⟨0, 0, -1⟩

/-- The direction `(0, 1, 0)`. -/
def plusY : RVec := ⟨0, 1, 0⟩

/-- A pitch-only frame: no key held, `delta_cursor_x = 0`, one degree per
cursor unit. -/
def pitchFrame (M : ℝ) (delta_cursor_y : Int) : Frame :=
  ⟨val 0, val 0, val 1, val M, 0, delta_cursor_y, 0, 0, 0, 0, 0, 0, 0⟩

/-- The unit direction `(0, -5/13, -12/13)`: 67.4 degrees away from `-plusY`. -/
def lookLow : RVec := ⟨0, -5 / 13, -12 / 13⟩

/-- The position `(0, 0, 1)`. -/
def plusZ : RVec := ⟨0, 0, 1⟩

/-- A view buffer holding zeros. -/
def zero16 : Mat16 := fun _ => val 0

/-- Value of `look` on return from `flythrough_camera_update`: the yaw block
and then the pitch block, about the `across` of the incoming `look`. -/
def newLookF (look up : Vec3) (degrees_per_cursor_move max_pitch_rotation_degrees : Flt)
    (delta_cursor_x delta_cursor_y : Int) : Vec3 :=
  update_pitch (update_yaw look up (len3 up) degrees_per_cursor_move delta_cursor_x) up
    (update_across look up (len3 look) (len3 up)) degrees_per_cursor_move
    max_pitch_rotation_degrees (wrap32 (-delta_cursor_y))

/-- The unit direction `(0, 3/5, -4/5)`: 53.1 degrees away from `plusY`. -/
def lookHigh : RVec := ⟨0, 3 / 5, -4 / 5⟩

/-- Real value of `(k ? 1.0f : 0.0f)`. -/
def ind (k : Int) : ℝ := if held k then 1 else 0

namespace RVec

/-- The combination `a * x + f * z` of two vectors: `xz_movement`. -/
def comb (a f : RVec) (x z : ℝ) : RVec :=
  ⟨a.x * x + f.x * z, a.y * x + f.y * z, a.z * x + f.z * z⟩

/-- The vector times a number: `y_movement`. -/
def scale (v : RVec) (r : ℝ) : RVec := ⟨v.x * r, v.y * r, v.z * r⟩

/-- The eye moved along `m / len` by `eye_speed * delta_time_seconds`. -/
def moved (e m : RVec) (len s t : ℝ) : RVec :=
  ⟨e.x + m.x / len * s * t, e.y + m.y / len * s * t, e.z + m.z / len * s * t⟩

/-- The distance between two points. -/
def dist (a b : RVec) : ℝ := norm ⟨a.x - b.x, a.y - b.y, a.z - b.z⟩

/-- The planar movement direction before normalisation, for unit `look` and
`up`: `across * (right - left) + look * (forward - backward)`. -/
def planar (look up : RVec) (forward_held left_held backward_held right_held : Int) : RVec :=
  comb (across look up) look (ind right_held - ind left_held)
    (ind forward_held - ind backward_held)

end RVec

/-- The condition of line 126: a planar key is held and not cancelled. -/
def planar_active (forward_held left_held backward_held right_held : Int) : Prop :=
  (held right_held ∧ ¬ held left_held) ∨ (¬ held right_held ∧ held left_held) ∨
    (held forward_held ∧ ¬ held backward_held) ∨ (¬ held forward_held ∧ held backward_held)

namespace RVec

/-- The rotation formula of Rodrigues, as the specification writes it for the
yaw: `cos a * v + sin a * (k × v) + (1 - cos a) * (k . v) * k`. -/
def rodrigues (k v : RVec) (a : ℝ) : RVec :=
  ⟨Real.cos a * v.x + Real.sin a * (cross k v).x + (1 - Real.cos a) * dot k v * k.x,
   Real.cos a * v.y + Real.sin a * (cross k v).y + (1 - Real.cos a) * dot k v * k.y,
   Real.cos a * v.z + Real.sin a * (cross k v).z + (1 - Real.cos a) * dot k v * k.z⟩

end RVec

/-- The yaw angle in radians: `-delta_cursor_x * degrees_per_cursor_move`
degrees, converted with the constant of the source. -/
def yaw_radians (delta_cursor_x : Int) (dpcm : ℝ) : ℝ :=
  -(delta_cursor_x : ℝ) * dpcm * PI_F / 180

namespace RVec

/-- The angle between two unit vectors in degrees, the way lines 199 to 203
compute it: the arc cosine of the dot product, divided by the constant of the
source and multiplied by 180. -/
def degs (a b : RVec) : ℝ := Real.arccos (dot a b) / PI_F * 180

/-- The pitch of the specification: `-delta_cursor_y * degrees_per_cursor_move`
clamped to `[-min_pitch, max_pitch]`, with
`max_pitch = max 0 (angle to up - (90 - M))` and
`min_pitch = max 0 (angle to -up - (90 - M))`. -/
def specPitch (look up : RVec) (dpcm M : ℝ) (delta_cursor_y : Int) : ℝ :=
  max (-(max 0 (degs look (neg up) - (90 - M))))
    (min (-(delta_cursor_y : ℝ) * dpcm) (max 0 (degs look up - (90 - M))))

end RVec

/-! ## Arithmetic of floats on real values -/

namespace Flt

@[simp] theorem val_add (a b : ℝ) : val a + val b = val (a + b) := rfl
@[simp] theorem val_sub (a b : ℝ) : val a - val b = val (a - b) := rfl
@[simp] theorem val_mul (a b : ℝ) : val a * val b = val (a * b) := rfl
@[simp] theorem val_neg (a : ℝ) : -val a = val (-a) := rfl
@[simp] theorem val_lt (a b : ℝ) : (val a < val b) ↔ a < b := Iff.rfl
@[simp] theorem fabsf_val (a : ℝ) : fabsf (val a) = val |a| := rfl
@[simp] theorem cosf_val (a : ℝ) : cosf (val a) = val (Real.cos a) := rfl
@[simp] theorem sinf_val (a : ℝ) : sinf (val a) = val (Real.sin a) := rfl
@[simp] theorem ofInt_eq (n : Int) : ofInt n = val (n : ℝ) := rfl

theorem val_div (a b : ℝ) : val a / val b = if b = 0 then nan else val (a / b) := rfl

theorem val_div_of_ne (a : ℝ) {b : ℝ} (h : b ≠ 0) : val a / val b = val (a / b) := by
  rw [val_div, if_neg h]

@[simp] theorem val_div_one (a : ℝ) : val a / val 1 = val a := by
  rw [val_div_of_ne a one_ne_zero, div_one]

theorem val_div_zero (a : ℝ) : val a / val 0 = nan := by
  rw [val_div, if_pos rfl]

theorem sqrtf_val (a : ℝ) : sqrtf (val a) = if a < 0 then nan else val (Real.sqrt a) := rfl

theorem sqrtf_val_of_nonneg {a : ℝ} (h : 0 ≤ a) : sqrtf (val a) = val (Real.sqrt a) := by
  rw [sqrtf_val, if_neg (not_lt.mpr h)]

theorem acosf_val (a : ℝ) :
    acosf (val a) = if a < -1 ∨ 1 < a then nan else val (Real.arccos a) := rfl

theorem acosf_val_of_mem {a : ℝ} (h1 : -1 ≤ a) (h2 : a ≤ 1) :
    acosf (val a) = val (Real.arccos a) := by
  rw [acosf_val, if_neg]
  rintro (h | h) <;> linarith

@[simp] theorem nan_add (a : Flt) : nan + a = nan := rfl
@[simp] theorem add_nan (a : Flt) : a + nan = nan := by cases a <;> rfl
@[simp] theorem nan_sub (a : Flt) : nan - a = nan := rfl
@[simp] theorem sub_nan (a : Flt) : a - nan = nan := by cases a <;> rfl
@[simp] theorem nan_mul (a : Flt) : nan * a = nan := rfl
@[simp] theorem mul_nan (a : Flt) : a * nan = nan := by cases a <;> rfl
@[simp] theorem nan_div (a : Flt) : nan / a = nan := rfl
@[simp] theorem div_nan (a : Flt) : a / nan = nan := by cases a <;> rfl
@[simp] theorem neg_nan : -nan = nan := rfl
@[simp] theorem not_nan_lt (a : Flt) : ¬ (nan < a) := fun h => h
@[simp] theorem not_lt_nan (a : Flt) : ¬ (a < nan) := by cases a <;> exact fun h => h
@[simp] theorem sqrtf_nan : sqrtf nan = nan := rfl
@[simp] theorem fabsf_nan : fabsf nan = nan := rfl
@[simp] theorem cosf_nan : cosf nan = nan := rfl
@[simp] theorem sinf_nan : sinf nan = nan := rfl
@[simp] theorem acosf_nan : acosf nan = nan := rfl

end Flt

/-! ## Lengths and normalisation on real values -/

theorem RVec.sumsq_nonneg (v : RVec) : 0 ≤ v.x * v.x + v.y * v.y + v.z * v.z := by
  nlinarith [mul_self_nonneg v.x, mul_self_nonneg v.y, mul_self_nonneg v.z]

theorem len3_toF (v : RVec) : len3 v.toF = val v.norm := by
  show sqrtf (val (v.x * v.x + v.y * v.y + v.z * v.z)) = _
  rw [sqrtf_val_of_nonneg v.sumsq_nonneg]
  rfl

theorem div3_toF (v : RVec) {r : ℝ} (h : r ≠ 0) : div3 v.toF (val r) = (v.divs r).toF := by
  simp only [div3, RVec.toF, RVec.divs, val_div_of_ne _ h]

theorem div3_toF_one (v : RVec) : div3 v.toF (val 1) = v.toF := by
  simp [div3, RVec.toF]

theorem div3_toF_zero (v : RVec) : div3 v.toF (val 0) = nan3 := by
  simp [div3, RVec.toF, val_div_zero, nan3]

theorem RVec.norm_sq (v : RVec) : v.norm * v.norm = v.x * v.x + v.y * v.y + v.z * v.z :=
  Real.mul_self_sqrt v.sumsq_nonneg

theorem RVec.norm_nonneg (v : RVec) : 0 ≤ v.norm := Real.sqrt_nonneg _

theorem RVec.norm_eq_one_iff (v : RVec) :
    v.norm = 1 ↔ v.x * v.x + v.y * v.y + v.z * v.z = 1 := by
  unfold RVec.norm
  rw [Real.sqrt_eq_one]

theorem RVec.norm_eq_zero_iff (v : RVec) : v.norm = 0 ↔ v = ⟨0, 0, 0⟩ := by
  unfold RVec.norm
  rw [Real.sqrt_eq_zero v.sumsq_nonneg]
  constructor
  · intro h
    have hx : v.x = 0 := by nlinarith [mul_self_nonneg v.x, mul_self_nonneg v.y, mul_self_nonneg v.z]
    have hy : v.y = 0 := by nlinarith [mul_self_nonneg v.x, mul_self_nonneg v.y, mul_self_nonneg v.z]
    have hz : v.z = 0 := by nlinarith [mul_self_nonneg v.x, mul_self_nonneg v.y, mul_self_nonneg v.z]
    ext <;> assumption
  · intro h
    rw [h]
    simp

theorem RVec.toF_injective {a b : RVec} (h : a.toF = b.toF) : a = b := by
  cases a; cases b
  simp only [RVec.toF, Vec3.mk.injEq, Flt.val.injEq] at h
  ext <;> simp [h.1, h.2.1, h.2.2]

/-! ## Algebra of real vectors -/

namespace RVec

theorem norm_eq_sqrt (v : RVec) : v.norm = Real.sqrt v.normSq := rfl

theorem normSq_nonneg (v : RVec) : 0 ≤ v.normSq := v.sumsq_nonneg

theorem norm_eq_one_iff_normSq (v : RVec) : v.norm = 1 ↔ v.normSq = 1 := v.norm_eq_one_iff

theorem norm_ne_zero_iff (v : RVec) : v.norm ≠ 0 ↔ v.normSq ≠ 0 := by
  rw [norm_eq_sqrt, Ne, Real.sqrt_eq_zero v.normSq_nonneg]

theorem normSq_divs (v : RVec) (r : ℝ) : (v.divs r).normSq = v.normSq / (r * r) := by
  simp only [normSq, divs]
  by_cases h : r = 0
  · subst h
    simp
  · field_simp

theorem norm_divs_self (v : RVec) (h : v.norm ≠ 0) : (v.divs v.norm).norm = 1 := by
  rw [norm_eq_one_iff_normSq, normSq_divs, v.norm_sq]
  have h2 : v.normSq ≠ 0 := (v.norm_ne_zero_iff).mp h
  exact div_self h2

theorem divs_one (v : RVec) : v.divs 1 = v := by
  ext <;> simp [divs]

theorem normSq_cross (a b : RVec) :
    (cross a b).normSq = a.normSq * b.normSq - dot a b * dot a b := by
  simp only [normSq, cross, dot]
  ring

theorem dot_cross_left (a b : RVec) : dot (cross a b) a = 0 := by
  simp only [cross, dot]
  ring

theorem dot_cross_right (a b : RVec) : dot (cross a b) b = 0 := by
  simp only [cross, dot]
  ring

theorem dot_comm (a b : RVec) : dot a b = dot b a := by
  simp only [dot]
  ring

theorem dot_divs_left (a b : RVec) (r : ℝ) : dot (a.divs r) b = dot a b / r := by
  simp only [dot, divs]
  ring

theorem dot_self (a : RVec) : dot a a = a.normSq := rfl

/-- The rotation block preserves the squared length when the axis is a unit
vector and `c`, `s` are a cosine and sine. -/
theorem normSq_rot (k v : RVec) (c s : ℝ) (hk : k.normSq = 1) (hcs : c * c + s * s = 1) :
    (rot k v c s).normSq = v.normSq := by
  simp only [normSq, rot] at *
  linear_combination
    (v.x * v.x + v.y * v.y + v.z * v.z - (k.x * v.x + k.y * v.y + k.z * v.z) ^ 2) * hcs +
    (s * s * (v.x * v.x + v.y * v.y + v.z * v.z) +
      (1 - c) ^ 2 * (k.x * v.x + k.y * v.y + k.z * v.z) ^ 2) * hk

theorem cos_sin_sq (r : ℝ) : Real.cos r * Real.cos r + Real.sin r * Real.sin r = 1 := by
  have := Real.cos_sq_add_sin_sq r
  nlinarith [this]

/-- The rotation block leaves the component along the axis unchanged. -/
theorem dot_rot_axis (k v : RVec) (c s : ℝ) (hk : k.normSq = 1) :
    dot (rot k v c s) k = dot v k := by
  simp only [normSq, rot, dot] at *
  linear_combination (1 - c) * (k.x * v.x + k.y * v.y + k.z * v.z) * hk

end RVec

/-! ## The blocks of the update on real values -/

theorem PI_F_pos : 0 < PI_F := by
  unfold PI_F
  norm_num

theorem PI_F_ne_zero : PI_F ≠ 0 := ne_of_gt PI_F_pos

theorem ite_val (c : Prop) [Decidable c] (a b : ℝ) :
    (if c then val a else val b) = val (if c then a else b) := by
  split <;> rfl

theorem rotate_look_toF (k v : RVec) (r : ℝ) :
    rotate_look k.toF v.toF (val r) =
      div3 (RVec.rot k v (Real.cos r) (Real.sin r)).toF
        (val (RVec.rot k v (Real.cos r) (Real.sin r)).norm) := by
  rw [← len3_toF]
  rfl

theorem rotate_look_unit (k v : RVec) (r : ℝ) (hk : k.norm = 1) (hv : v.norm = 1) :
    rotate_look k.toF v.toF (val r) = (RVec.rot k v (Real.cos r) (Real.sin r)).toF ∧
      (RVec.rot k v (Real.cos r) (Real.sin r)).norm = 1 := by
  have hn : (RVec.rot k v (Real.cos r) (Real.sin r)).norm = 1 := by
    rw [RVec.norm_eq_one_iff_normSq,
      RVec.normSq_rot k v _ _ ((RVec.norm_eq_one_iff_normSq k).mp hk) (RVec.cos_sin_sq r)]
    exact (RVec.norm_eq_one_iff_normSq v).mp hv
  refine ⟨?_, hn⟩
  rw [rotate_look_toF, hn, div3_toF_one]

theorem RVec.cross_norm_ne_zero {l u : RVec} (h : ¬ RVec.Parallel l u) :
    (RVec.cross l u).norm ≠ 0 := by
  intro h0
  exact h ((RVec.norm_eq_zero_iff _).mp h0)

theorem RVec.across_norm {l u : RVec} (h : ¬ RVec.Parallel l u) : (RVec.across l u).norm = 1 :=
  RVec.norm_divs_self _ (RVec.cross_norm_ne_zero h)

theorem update_across_unit (l u : RVec) (h : ¬ RVec.Parallel l u) :
    update_across l.toF u.toF (val 1) (val 1) = (RVec.across l u).toF := by
  have e : update_across l.toF u.toF (val 1) (val 1) =
      div3 (RVec.cross l u).toF (len3 (RVec.cross l u).toF) := by
    simp [update_across, RVec.toF, RVec.cross]
  rw [e, len3_toF, div3_toF _ (RVec.cross_norm_ne_zero h)]
  rfl

theorem update_across_parallel (l u : RVec) (h : RVec.Parallel l u) :
    update_across l.toF u.toF (val 1) (val 1) = nan3 := by
  have e : update_across l.toF u.toF (val 1) (val 1) =
      div3 (RVec.cross l u).toF (len3 (RVec.cross l u).toF) := by
    simp [update_across, RVec.toF, RVec.cross]
  rw [e, len3_toF, (RVec.norm_eq_zero_iff _).mpr h, div3_toF_zero]

theorem update_yaw_unit (l u : RVec) (dpcm : ℝ) (dx : Int) (hl : l.norm = 1) (hu : u.norm = 1) :
    update_yaw l.toF u.toF (val 1) (val dpcm) dx = (RVec.yaw l u dpcm dx).toF ∧
      (RVec.yaw l u dpcm dx).norm = 1 := by
  unfold update_yaw RVec.yaw
  by_cases h : dx = 0
  · simp [h, hl]
  · simp only [ne_eq, h, not_false_eq_true, if_true]
    have e : div3 u.toF (val 1) = u.toF := div3_toF_one u
    have e2 : ofInt (wrap32 (-dx)) * val dpcm * val PI_F / val 180 =
        val (((wrap32 (-dx) : Int) : ℝ) * dpcm * PI_F / 180) := by
      simp only [ofInt_eq, val_mul]
      rw [val_div_of_ne _ (by norm_num : (180 : ℝ) ≠ 0)]
    simp only [e, e2]
    exact rotate_look_unit u l _ hu hl

theorem RVec.dot_sq_le {l u : RVec} (hl : l.norm = 1) (hu : u.norm = 1) :
    RVec.dot l u * RVec.dot l u ≤ 1 := by
  have h := RVec.normSq_cross l u
  rw [(RVec.norm_eq_one_iff_normSq l).mp hl, (RVec.norm_eq_one_iff_normSq u).mp hu] at h
  nlinarith [RVec.normSq_nonneg (RVec.cross l u)]

theorem RVec.dot_le_one {l u : RVec} (hl : l.norm = 1) (hu : u.norm = 1) :
    RVec.dot l u ≤ 1 := by
  nlinarith [RVec.dot_sq_le hl hu]

theorem RVec.neg_one_le_dot {l u : RVec} (hl : l.norm = 1) (hu : u.norm = 1) :
    -1 ≤ RVec.dot l u := by
  nlinarith [RVec.dot_sq_le hl hu]

theorem pitch_degrees_unit (l u : RVec) (dpcm M : ℝ) (n : Int) (hl : l.norm = 1)
    (hu : u.norm = 1) :
    pitch_degrees l.toF u.toF (val dpcm) (val M) n = val (RVec.pitchDeg l u dpcm M n) := by
  have h1 := RVec.dot_le_one hl hu
  have h2 := RVec.neg_one_le_dot hl hu
  have eu : acosf ((RVec.toF l).x * (RVec.toF u).x + (RVec.toF l).y * (RVec.toF u).y +
      (RVec.toF l).z * (RVec.toF u).z) = val (Real.arccos (RVec.dot l u)) := by
    show acosf (val (RVec.dot l u)) = _
    exact acosf_val_of_mem h2 h1
  have ed : acosf ((RVec.toF l).x * -(RVec.toF u).x + (RVec.toF l).y * -(RVec.toF u).y +
      (RVec.toF l).z * -(RVec.toF u).z) = val (Real.arccos (-RVec.dot l u)) := by
    have : (RVec.toF l).x * -(RVec.toF u).x + (RVec.toF l).y * -(RVec.toF u).y +
        (RVec.toF l).z * -(RVec.toF u).z = val (-RVec.dot l u) := by
      simp only [RVec.toF, val_neg, val_mul, val_add, RVec.dot]
      congr 1
      ring
    rw [this]
    exact acosf_val_of_mem (by linarith) (by linarith)
  unfold pitch_degrees RVec.pitchDeg
  simp only [eu, ed, fun a => val_div_of_ne a PI_F_ne_zero, val_mul, val_sub, val_neg, val_lt,
    ite_val, ofInt_eq, gt_iff_lt]

theorem update_pitch_unit (l u a : RVec) (dpcm M : ℝ) (n : Int) (hl : l.norm = 1)
    (hu : u.norm = 1) (ha : a.norm = 1) :
    update_pitch l.toF u.toF a.toF (val dpcm) (val M) n = (RVec.pitch l u a dpcm M n).toF ∧
      (RVec.pitch l u a dpcm M n).norm = 1 := by
  unfold update_pitch RVec.pitch
  by_cases h : n = 0
  · simp [h, hl]
  · simp only [ne_eq, h, not_false_eq_true, if_true]
    rw [pitch_degrees_unit l u dpcm M n hl hu]
    have e2 : val (RVec.pitchDeg l u dpcm M n) * val PI_F / val 180 =
        val (RVec.pitchDeg l u dpcm M n * PI_F / 180) := by
      simp only [val_mul]
      rw [val_div_of_ne _ (by norm_num : (180 : ℝ) ≠ 0)]
    simp only [e2]
    exact rotate_look_unit a l _ ha hl

theorem assert_unit (v : RVec) (h : v.norm = 1) :
    fabsf (len3 v.toF - val 1) < val 0.000001 := by
  rw [len3_toF, h]
  simp only [val_sub, fabsf_val, val_lt]
  norm_num

theorem look_to_unit (eye : Vec3) (l u : RVec) (view : Option Mat16) (flags : Nat)
    (hl : l.norm = 1) (hu : u.norm = 1) :
    flythrough_camera_look_to eye l.toF u.toF view flags =
      some (newView eye l.toF u.toF view flags) := by
  cases view with
  | none => rfl
  | some old =>
    simp only [flythrough_camera_look_to, assert_unit l hl, assert_unit u hu, if_true, newView,
      Option.map_some']

theorem RVec.newLook_norm (l u : RVec) (dpcm M : ℝ) (dx dy : Int) (hl : l.norm = 1)
    (hu : u.norm = 1) (hnp : ¬ RVec.Parallel l u) : (RVec.newLook l u dpcm M dx dy).norm = 1 :=
  (update_pitch_unit _ u _ dpcm M _ (update_yaw_unit l u dpcm dx hl hu).2 hu
    (RVec.across_norm hnp)).2

/-- For unit `look` and `up` that are not parallel the update returns, with
the eye of `newEye`, the look direction of `RVec.newLook` and the view of
`newView`. -/
theorem update_unit (eye : Vec3) (l u : RVec) (view : Option Mat16) (dt speed : Flt)
    (dpcm M : ℝ) (dx dy fwd left back right jump crouch : Int) (flags : Nat)
    (hl : l.norm = 1) (hu : u.norm = 1) (hnp : ¬ RVec.Parallel l u) :
    flythrough_camera_update eye l.toF u.toF view dt speed (val dpcm) (val M) dx dy
        fwd left back right jump crouch flags =
      some ⟨newEye eye l.toF u.toF dt speed fwd left back right jump crouch,
        (RVec.newLook l u dpcm M dx dy).toF,
        newView (newEye eye l.toF u.toF dt speed fwd left back right jump crouch)
          (RVec.newLook l u dpcm M dx dy).toF u.toF view flags⟩ := by
  have hy := update_yaw_unit l u dpcm dx hl hu
  have hp := update_pitch_unit (RVec.yaw l u dpcm dx) u (RVec.across l u) dpcm M
    (wrap32 (-dy)) hy.2 hu (RVec.across_norm hnp)
  unfold flythrough_camera_update
  simp only [assert_unit l hl, assert_unit u hu, if_true]
  rw [len3_toF, len3_toF, hl, hu, hy.1, update_across_unit l u hnp, hp.1]
  rw [look_to_unit _ _ u view flags hp.2 hu]
  simp only [newEye, len3_toF, hl, hu, update_across_unit l u hnp]
  rfl

/-! ## The pitch block: the angle to `up` after the rotation -/

namespace RVec

theorem dot_rot (k v w : RVec) (c s : ℝ) :
    dot (rot k v c s) w = c * dot v w + s * dot (cross k v) w + (1 - c) * dot k v * dot k w := by
  simp only [rot, dot, cross]
  ring

theorem dot_cross_swap (a l u : RVec) : dot (cross a l) u = dot a (cross l u) := by
  simp only [dot, cross]
  ring

theorem dot_neg_right (a b : RVec) : dot a (neg b) = -dot a b := by
  simp only [dot, neg]
  ring

theorem norm_neg (a : RVec) : (neg a).norm = a.norm := by
  simp only [norm, neg]
  congr 1
  ring

theorem cross_norm_unit {l u : RVec} (hl : l.norm = 1) (hu : u.norm = 1) :
    (cross l u).norm = Real.sqrt (1 - dot l u ^ 2) := by
  rw [norm_eq_sqrt, normSq_cross, (norm_eq_one_iff_normSq l).mp hl,
    (norm_eq_one_iff_normSq u).mp hu]
  congr 1
  ring

theorem dot_across_look {l u : RVec} : dot (across l u) l = 0 := by
  rw [across, dot_divs_left, dot_cross_left, zero_div]

theorem dot_across_up {l u : RVec} : dot (across l u) u = 0 := by
  rw [across, dot_divs_left, dot_cross_right, zero_div]

theorem dot_across_cross (l u : RVec) :
    dot (across l u) (cross l u) = (cross l u).norm := by
  have h2 : (cross l u).normSq = (cross l u).norm * (cross l u).norm := (norm_sq _).symm
  rw [across, dot_divs_left, dot_self, h2]
  exact mul_self_div_self _

/-- Rotating a unit `look` about `across` by the angle `p` moves it by `p`
towards `up`: the cosine of the new angle to `up` is `cos (θ - p)`. -/
theorem dot_rot_across {l u : RVec} (hl : l.norm = 1) (hu : u.norm = 1) (p : ℝ) :
    dot (rot (across l u) l (Real.cos p) (Real.sin p)) u =
      Real.cos (Real.arccos (dot l u) - p) := by
  rw [dot_rot, dot_across_look, dot_across_up, dot_cross_swap, dot_across_cross,
    cross_norm_unit hl hu, Real.cos_sub, Real.sin_arccos,
    Real.cos_arccos (neg_one_le_dot hl hu) (dot_le_one hl hu)]
  ring

theorem clamp_bounds (D maxp minp : ℝ) (h1 : 0 ≤ maxp) (h2 : 0 ≤ minp) :
    -minp ≤ (if (if 0 < D ∧ maxp < D then maxp else D) < 0 ∧
        minp < -(if 0 < D ∧ maxp < D then maxp else D) then -minp
        else (if 0 < D ∧ maxp < D then maxp else D)) ∧
      (if (if 0 < D ∧ maxp < D then maxp else D) < 0 ∧
        minp < -(if 0 < D ∧ maxp < D then maxp else D) then -minp
        else (if 0 < D ∧ maxp < D then maxp else D)) ≤ maxp := by
  by_cases hD : 0 < D
  · by_cases hm : maxp < D
    · rw [if_pos (⟨hD, hm⟩ : 0 < D ∧ maxp < D)]
      rw [if_neg (fun h => by linarith [h.1] : ¬ (maxp < 0 ∧ minp < -maxp))]
      constructor <;> linarith
    · rw [if_neg (fun h => hm h.2 : ¬ (0 < D ∧ maxp < D))]
      rw [if_neg (fun h => by linarith [h.1] : ¬ (D < 0 ∧ minp < -D))]
      constructor <;> linarith
  · rw [if_neg (fun h => hD h.1 : ¬ (0 < D ∧ maxp < D))]
    by_cases h3 : D < 0 ∧ minp < -D
    · rw [if_pos h3]
      constructor <;> linarith [h3.1]
    · rw [if_neg h3]
      have hD2 : D ≤ 0 := not_lt.mp hD
      constructor
      · by_cases h4 : D < 0
        · have : ¬ minp < -D := fun h5 => h3 ⟨h4, h5⟩
          linarith
        · linarith
      · linarith

theorem pitchDeg_bounds (l u : RVec) (dpcm M : ℝ) (n : Int) :
    (-(if Real.arccos (-dot l u) / PI_F * 180 - (90 - M) < 0 then 0
        else Real.arccos (-dot l u) / PI_F * 180 - (90 - M)) ≤ pitchDeg l u dpcm M n) ∧
    (pitchDeg l u dpcm M n ≤ (if Real.arccos (dot l u) / PI_F * 180 - (90 - M) < 0 then 0
        else Real.arccos (dot l u) / PI_F * 180 - (90 - M))) := by
  apply clamp_bounds
  · split_ifs with h
    · exact le_refl _
    · exact not_lt.mp h
  · split_ifs with h
    · exact le_refl _
    · exact not_lt.mp h

end RVec

theorem pi_le_PI_F : Real.pi ≤ PI_F := by
  unfold PI_F
  have := Real.pi_lt_d20
  linarith

/-- The clamped pitch in radians keeps the angle `θ` to `up` inside
`[b, π - b]`, where `b` is `90 - M` degrees. -/
theorem pitch_clamp_angle (l u : RVec) (dpcm M : ℝ) (n : Int) (hM : M ≤ 90)
    (hup : (90 - M) * Real.pi / 180 ≤ Real.arccos (RVec.dot l u))
    (hdown : (90 - M) * Real.pi / 180 ≤ Real.pi - Real.arccos (RVec.dot l u)) :
    (90 - M) * Real.pi / 180 ≤
        Real.arccos (RVec.dot l u) - RVec.pitchDeg l u dpcm M n * PI_F / 180 ∧
      Real.arccos (RVec.dot l u) - RVec.pitchDeg l u dpcm M n * PI_F / 180 ≤
        Real.pi - (90 - M) * Real.pi / 180 := by
  obtain ⟨hlo, hhi⟩ := RVec.pitchDeg_bounds l u dpcm M n
  rw [Real.arccos_neg] at hlo
  have hc := PI_F_pos
  have hpc := pi_le_PI_F
  have hb : (90 - M) * Real.pi ≤ (90 - M) * PI_F :=
    mul_le_mul_of_nonneg_left hpc (by linarith)
  have e1 : (Real.arccos (RVec.dot l u) / PI_F * 180 - (90 - M)) * PI_F / 180 =
      Real.arccos (RVec.dot l u) - (90 - M) * PI_F / 180 := by
    field_simp
    ring
  have e2 : ((Real.pi - Real.arccos (RVec.dot l u)) / PI_F * 180 - (90 - M)) * PI_F / 180 =
      Real.pi - Real.arccos (RVec.dot l u) - (90 - M) * PI_F / 180 := by
    field_simp
    ring
  have hhi2 := mul_le_mul_of_nonneg_right hhi (le_of_lt hc)
  have hlo2 := mul_le_mul_of_nonneg_right hlo (le_of_lt hc)
  constructor
  · split_ifs at hhi2 with hneg
    · linarith
    · linarith
  · split_ifs at hlo2 with hneg
    · linarith
    · linarith

namespace RVec

theorem angle_degrees_unit {a b : RVec} (ha : a.norm = 1) (hb : b.norm = 1) :
    angle_degrees a b = Real.arccos (dot a b) * 180 / Real.pi := by
  rw [angle_degrees, ha, hb, mul_one, div_one]

theorem le_angle_iff (b x : ℝ) : b ≤ x * 180 / Real.pi ↔ b * Real.pi / 180 ≤ x := by
  rw [le_div_iff₀ Real.pi_pos, div_le_iff₀ (by norm_num : (0 : ℝ) < 180)]

theorem yaw_zero (l u : RVec) (dpcm : ℝ) : yaw l u dpcm 0 = l := by
  simp [yaw]

/-- A unit `look` whose angles to `up` and to `-up` are both positive is not
parallel to `up`. -/
theorem not_parallel_of_angles {l u : RVec} (hl : l.norm = 1) (hu : u.norm = 1)
    (h1 : 0 < Real.arccos (dot l u)) (h2 : 0 < Real.arccos (-dot l u)) : ¬ Parallel l u := by
  intro hp
  have hn : (cross l u).normSq = 0 := by
    rw [show cross l u = ⟨0, 0, 0⟩ from hp]
    simp [normSq]
  rw [normSq_cross, (norm_eq_one_iff_normSq l).mp hl, (norm_eq_one_iff_normSq u).mp hu] at hn
  have h3 : (dot l u - 1) * (dot l u + 1) = 0 := by linarith
  rcases mul_eq_zero.mp h3 with h | h
  · have : dot l u = 1 := by linarith
    rw [this, Real.arccos_one] at h1
    exact lt_irrefl _ h1
  · have : -dot l u = 1 := by linarith
    rw [this, Real.arccos_one] at h2
    exact lt_irrefl _ h2

/-- The pitch block keeps the angles of a unit `look` to `up` and to `-up` at
or above `90 - M` degrees. -/
theorem pitch_angles {l u : RVec} (dpcm M : ℝ) (n : Int) (hl : l.norm = 1) (hu : u.norm = 1)
    (hnp : ¬ Parallel l u) (hM : M ≤ 90)
    (hup : 90 - M ≤ angle_degrees l u) (hdown : 90 - M ≤ angle_degrees l (neg u)) :
    90 - M ≤ angle_degrees (pitch l u (across l u) dpcm M n) u ∧
      90 - M ≤ angle_degrees (pitch l u (across l u) dpcm M n) (neg u) := by
  unfold pitch
  by_cases hn : n = 0
  · simp only [ne_eq, hn, not_true_eq_false, if_false]
    exact ⟨hup, hdown⟩
  · simp only [ne_eq, hn, not_false_eq_true, if_true]
    have hnu : (neg u).norm = 1 := by rw [norm_neg, hu]
    rw [angle_degrees_unit hl hu, le_angle_iff] at hup
    rw [angle_degrees_unit hl hnu, le_angle_iff, dot_neg_right, Real.arccos_neg] at hdown
    obtain ⟨h1, h2⟩ := pitch_clamp_angle l u dpcm M n hM hup hdown
    have hr : (rot (across l u) l (Real.cos (pitchDeg l u dpcm M n * PI_F / 180))
        (Real.sin (pitchDeg l u dpcm M n * PI_F / 180))).norm = 1 := by
      rw [norm_eq_one_iff_normSq, normSq_rot _ _ _ _ _ (cos_sin_sq _)]
      · exact (norm_eq_one_iff_normSq l).mp hl
      · exact (norm_eq_one_iff_normSq _).mp (across_norm hnp)
    have hb : 0 ≤ (90 - M) * Real.pi / 180 := by
      have := Real.pi_pos
      have : 0 ≤ (90 - M) * Real.pi := mul_nonneg (by linarith) (le_of_lt Real.pi_pos)
      linarith
    have hacos : Real.arccos (Real.cos (Real.arccos (dot l u) -
        pitchDeg l u dpcm M n * PI_F / 180)) =
        Real.arccos (dot l u) - pitchDeg l u dpcm M n * PI_F / 180 :=
      Real.arccos_cos (by linarith) (by linarith)
    rw [angle_degrees_unit hr hu, angle_degrees_unit hr hnu, dot_neg_right,
      dot_rot_across hl hu, Real.arccos_neg, hacos, le_angle_iff, le_angle_iff]
    constructor <;> linarith

end RVec

theorem RVec.arccos_pos_of_bound {M x : ℝ} (hM : M < 90) (h : 90 - M ≤ x * 180 / Real.pi) :
    0 < x := by
  rw [RVec.le_angle_iff] at h
  have : 0 < (90 - M) * Real.pi := mul_pos (by linarith) Real.pi_pos
  linarith

/-- One pitch-only update from a unit `look` not parallel to a unit `up`. -/
theorem pitch_only_step (eye : Vec3) (l u : RVec) (view : Option Mat16) (fr : Frame)
    (M d : ℝ) (hx : fr.delta_cursor_x = 0) (hm : fr.max_pitch_rotation_degrees = val M)
    (hd : fr.degrees_per_cursor_move = val d)
    (hl : l.norm = 1) (hu : u.norm = 1) (hnp : ¬ RVec.Parallel l u) (hM : M ≤ 90)
    (hup : 90 - M ≤ RVec.angle_degrees l u)
    (hdown : 90 - M ≤ RVec.angle_degrees l (RVec.neg u)) :
    ∃ cam l2, update_frame u.toF ⟨eye, l.toF, view⟩ fr = some cam ∧ cam.look = RVec.toF l2 ∧
      l2.norm = 1 ∧ 90 - M ≤ RVec.angle_degrees l2 u ∧
      90 - M ≤ RVec.angle_degrees l2 (RVec.neg u) ∧ (M < 90 → ¬ RVec.Parallel l2 u) := by
  obtain ⟨dt, sp, dp, mp, dx, dy, k1, k2, k3, k4, k5, k6, fl⟩ := fr
  simp only at hx hm hd
  subst hx hm hd
  have hstep := update_unit eye l u view dt sp d M 0
    dy k1 k2 k3 k4 k5
    k6 fl hl hu hnp
  have hnorm := RVec.newLook_norm l u d M 0 dy hl hu hnp
  have hang := RVec.pitch_angles d M (wrap32 (-dy)) hl hu hnp hM hup hdown
  have hnl : RVec.newLook l u d M 0 dy =
      RVec.pitch l u (RVec.across l u) d M (wrap32 (-dy)) := by
    rw [RVec.newLook, RVec.yaw_zero]
  rw [← hnl] at hang
  refine ⟨_, _, hstep, rfl, hnorm, hang.1, hang.2, ?_⟩
  · intro hlt
    have hnu : (RVec.neg u).norm = 1 := by rw [RVec.norm_neg, hu]
    have h1 := hang.1
    have h2 := hang.2
    rw [RVec.angle_degrees_unit hnorm hu] at h1
    rw [RVec.angle_degrees_unit hnorm hnu, RVec.dot_neg_right] at h2
    exact RVec.not_parallel_of_angles hnorm hu (RVec.arccos_pos_of_bound hlt h1)
      (RVec.arccos_pos_of_bound hlt h2)

/-- A sequence of pitch-only updates, by induction on the frames. -/
theorem pitch_only_run (u : RVec) (M : ℝ) (hu : u.norm = 1) (hM : M ≤ 90)
    (frames : List Frame) :
    ∀ (eye : Vec3) (l : RVec) (view : Option Mat16),
      (∀ fr ∈ frames, fr.delta_cursor_x = 0 ∧ fr.max_pitch_rotation_degrees = val M ∧
        ∃ d : ℝ, fr.degrees_per_cursor_move = val d) →
      (frames.length ≤ 1 ∨ M < 90) →
      l.norm = 1 → ¬ RVec.Parallel l u →
      90 - M ≤ RVec.angle_degrees l u → 90 - M ≤ RVec.angle_degrees l (RVec.neg u) →
      ∃ cam l2, run_updates u.toF ⟨eye, l.toF, view⟩ frames = some cam ∧
        cam.look = RVec.toF l2 ∧ 90 - M ≤ RVec.angle_degrees l2 u ∧
        90 - M ≤ RVec.angle_degrees l2 (RVec.neg u) := by
  induction frames with
  | nil =>
    intro eye l view _ _ _ _ hup hdown
    exact ⟨_, l, rfl, rfl, hup, hdown⟩
  | cons fr rest ih =>
    intro eye l view hfr hseq hl hnp hup hdown
    obtain ⟨hx, hm, d, hd⟩ := hfr fr (List.mem_cons_self _ _)
    obtain ⟨cam, l2, hcam, hlook, hn2, hup2, hdown2, hnp2⟩ :=
      pitch_only_step eye l u view fr M d hx hm hd hl hu hnp hM hup hdown
    have hrun : run_updates u.toF ⟨eye, l.toF, view⟩ (fr :: rest) =
        run_updates u.toF cam rest := by
      simp only [run_updates, hcam]
    rw [hrun]
    cases rest with
    | nil => exact ⟨cam, l2, rfl, hlook, hup2, hdown2⟩
    | cons fr2 rest2 =>
      have hlt : M < 90 := by
        rcases hseq with h | h
        · simp at h
        · exact h
      have hcam2 : cam = ⟨cam.eye, l2.toF, cam.view⟩ := by
        rw [← hlook]
      rw [hcam2]
      exact ih cam.eye l2 cam.view (fun f hf => hfr f (List.mem_cons_of_mem _ hf)) (Or.inr hlt)
        hn2 (hnp2 hlt) hup2 hdown2

/-! ## Facts about the concrete inputs -/

theorem minusZ_norm : minusZ.norm = 1 := by
  rw [RVec.norm_eq_one_iff]
  norm_num [minusZ]

theorem plusY_norm : plusY.norm = 1 := by
  rw [RVec.norm_eq_one_iff]
  norm_num [plusY]

theorem minusZ_plusY_not_parallel : ¬ RVec.Parallel minusZ plusY := by
  simp [RVec.Parallel, RVec.cross, minusZ, plusY]

theorem plusY_plusY_parallel : RVec.Parallel plusY plusY := by
  simp [RVec.Parallel, RVec.cross, plusY]

theorem angle_minusZ_plusY : RVec.angle_degrees minusZ plusY = 90 := by
  rw [RVec.angle_degrees_unit minusZ_norm plusY_norm]
  have : RVec.dot minusZ plusY = 0 := by norm_num [RVec.dot, minusZ, plusY]
  rw [this, Real.arccos_zero]
  field_simp
  ring

theorem angle_minusZ_neg_plusY : RVec.angle_degrees minusZ (RVec.neg plusY) = 90 := by
  rw [RVec.angle_degrees_unit minusZ_norm (by rw [RVec.norm_neg, plusY_norm])]
  have : RVec.dot minusZ (RVec.neg plusY) = 0 := by norm_num [RVec.dot, RVec.neg, minusZ, plusY]
  rw [this, Real.arccos_zero]
  field_simp
  ring

theorem angle_plusY_plusY : RVec.angle_degrees plusY plusY = 0 := by
  rw [RVec.angle_degrees_unit plusY_norm plusY_norm]
  have : RVec.dot plusY plusY = 1 := by norm_num [RVec.dot, plusY]
  rw [this, Real.arccos_one]
  simp

theorem angle_plusY_neg_plusY : RVec.angle_degrees plusY (RVec.neg plusY) = 180 := by
  rw [RVec.angle_degrees_unit plusY_norm (by rw [RVec.norm_neg, plusY_norm])]
  have : RVec.dot plusY (RVec.neg plusY) = -1 := by norm_num [RVec.dot, RVec.neg, plusY]
  rw [this, Real.arccos_neg_one]
  field_simp

theorem rotate_look_nan3 (v : Vec3) (r : Flt) : rotate_look nan3 v r = nan3 := by
  simp [rotate_look, nan3, len3, div3]

theorem nan3_ne_toF (v : RVec) : nan3 ≠ v.toF := by
  intro h
  simp [nan3, RVec.toF] at h

/-! ## Lemmas: the pitch clamp after a yaw in the same call -/

theorem lookLow_norm : lookLow.norm = 1 := by
  rw [RVec.norm_eq_one_iff]
  norm_num [lookLow]

theorem lookLow_not_parallel : ¬ RVec.Parallel lookLow plusY := by
  simp [RVec.Parallel, RVec.cross, lookLow, plusY]

theorem arccos_half : Real.arccos (1 / 2) = Real.pi / 3 := by
  rw [← Real.cos_pi_div_three]
  exact Real.arccos_cos (by positivity) (by linarith [Real.pi_pos])

theorem angle_lookLow_plusY : 60 ≤ RVec.angle_degrees lookLow plusY := by
  rw [RVec.angle_degrees_unit lookLow_norm plusY_norm, RVec.le_angle_iff]
  have hd : RVec.dot lookLow plusY = -5 / 13 := by norm_num [RVec.dot, lookLow, plusY]
  rw [hd]
  have h : ¬ Real.arccos (-5 / 13) < Real.pi / 2 := by
    rw [Real.arccos_lt_pi_div_two]
    norm_num
  linarith [Real.pi_pos]

theorem angle_lookLow_neg_plusY : 60 ≤ RVec.angle_degrees lookLow (RVec.neg plusY) := by
  rw [RVec.angle_degrees_unit lookLow_norm (by rw [RVec.norm_neg, plusY_norm]),
    RVec.le_angle_iff]
  have hd : RVec.dot lookLow (RVec.neg plusY) = 5 / 13 := by
    norm_num [RVec.dot, RVec.neg, lookLow, plusY]
  rw [hd]
  have h : Real.arccos (1 / 2) ≤ Real.arccos (5 / 13) :=
    Real.strictAntiOn_arccos.antitoneOn (by constructor <;> norm_num)
      (by constructor <;> norm_num) (by norm_num)
  rw [arccos_half] at h
  linarith

theorem RVec.pitchDeg_unclamped (l u : RVec) (dpcm M : ℝ) (n : Int) (h0 : 0 < (n : ℝ) * dpcm)
    (h1 : (n : ℝ) * dpcm ≤ Real.arccos (RVec.dot l u) / PI_F * 180 - (90 - M)) :
    RVec.pitchDeg l u dpcm M n = (n : ℝ) * dpcm := by
  unfold RVec.pitchDeg
  simp only
  have hA : ¬ (Real.arccos (RVec.dot l u) / PI_F * 180 - (90 - M) < 0) := by linarith
  have hB : ¬ (0 < (n : ℝ) * dpcm ∧
      Real.arccos (RVec.dot l u) / PI_F * 180 - (90 - M) < (n : ℝ) * dpcm) :=
    fun h => by linarith [h.2]
  simp only [if_neg hA, if_neg hB]
  exact if_neg (fun h => by linarith [h.1])

theorem cos_yaw_half_turn : Real.cos (-PI_F) ≤ -0.999 := by
  have e : -PI_F = -(PI_F - Real.pi) - Real.pi := by ring
  rw [e, Real.cos_sub_pi, Real.cos_neg]
  have h := Real.one_sub_sq_div_two_le_cos (x := PI_F - Real.pi)
  have h1 : PI_F - Real.pi ≤ 0.001 := by
    unfold PI_F
    linarith [Real.pi_gt_d6]
  have h2 : 0 ≤ PI_F - Real.pi := by linarith [pi_le_PI_F]
  have h3 : (PI_F - Real.pi) ^ 2 ≤ 0.001 ^ 2 := pow_le_pow_left₀ h2 h1 2
  norm_num at h3
  linarith

/-! ## Lemmas: opposite keys cancel -/

theorem cond01_of_ne {k : Int} (h : k ≠ 0) : cond01 k = val 1 := by
  simp [cond01, held, h]

theorem cond01_zero : cond01 0 = val 0 := by
  simp [cond01, held]

theorem update_eye_xz_forward_backward (eye across forward : Vec3) (speed dt : Flt)
    (f l b r : Int) (hf : f ≠ 0) (hb : b ≠ 0) :
    update_eye_xz eye across forward speed dt f l b r =
      update_eye_xz eye across forward speed dt 0 l 0 r := by
  simp [update_eye_xz, held, hf, hb, cond01_of_ne hf, cond01_of_ne hb, cond01_zero]

theorem update_eye_xz_left_right (eye across forward : Vec3) (speed dt : Flt)
    (f l b r : Int) (hl : l ≠ 0) (hr : r ≠ 0) :
    update_eye_xz eye across forward speed dt f l b r =
      update_eye_xz eye across forward speed dt f 0 b 0 := by
  simp [update_eye_xz, held, hl, hr, cond01_of_ne hl, cond01_of_ne hr, cond01_zero]

theorem update_eye_y_jump_crouch (eye up : Vec3) (speed dt : Flt) (j c : Int)
    (hj : j ≠ 0) (hc : c ≠ 0) :
    update_eye_y eye up speed dt j c = eye := by
  simp [update_eye_y, held, hj, hc]

theorem update_eye_xz_none (eye across forward : Vec3) (speed dt : Flt) :
    update_eye_xz eye across forward speed dt 0 0 0 0 = eye := by
  simp [update_eye_xz, held]

theorem update_eye_y_none (eye up : Vec3) (speed dt : Flt) :
    update_eye_y eye up speed dt 0 0 = eye := by
  simp [update_eye_y, held]

theorem newEye_forward_backward (eye look up : Vec3) (dt speed : Flt) (a b : Int)
    (ha : a ≠ 0) (hb : b ≠ 0) : newEye eye look up dt speed a 0 b 0 0 0 = eye := by
  rw [newEye, update_eye_xz_forward_backward _ _ _ _ _ a 0 b 0 ha hb, update_eye_xz_none,
    update_eye_y_none]

theorem newEye_left_right (eye look up : Vec3) (dt speed : Flt) (a b : Int)
    (ha : a ≠ 0) (hb : b ≠ 0) : newEye eye look up dt speed 0 a 0 b 0 0 = eye := by
  rw [newEye, update_eye_xz_left_right _ _ _ _ _ 0 a 0 b ha hb, update_eye_xz_none,
    update_eye_y_none]

theorem newEye_jump_crouch (eye look up : Vec3) (dt speed : Flt) (a b : Int)
    (ha : a ≠ 0) (hb : b ≠ 0) : newEye eye look up dt speed 0 0 0 0 a b = eye := by
  rw [newEye, update_eye_xz_none, update_eye_y_jump_crouch _ _ _ _ a b ha hb]

/-! ## Lemmas: the two bases are orthonormal -/

theorem cross3_toF (a b : RVec) : cross3 a.toF b.toF = (RVec.cross a b).toF := rfl

theorem div3_len3_toF (v : RVec) (h : v.norm ≠ 0) :
    div3 v.toF (len3 v.toF) = (v.divs v.norm).toF := by
  rw [len3_toF, div3_toF _ h]

namespace RVec

theorem cross_divs (l u : RVec) (a b : ℝ) :
    cross (l.divs a) (u.divs b) = (cross l u).divs (a * b) := by
  ext <;> simp only [cross, divs] <;> ring

theorem norm_ne_zero_of_ne {v : RVec} (h : v ≠ ⟨0, 0, 0⟩) : v.norm ≠ 0 :=
  fun h0 => h ((norm_eq_zero_iff v).mp h0)

theorem not_parallel_divs {l u : RVec} {a b : ℝ} (h : ¬ Parallel l u) (ha : a ≠ 0)
    (hb : b ≠ 0) : ¬ Parallel (l.divs a) (u.divs b) := by
  intro hp
  apply h
  unfold Parallel at hp ⊢
  rw [cross_divs] at hp
  have hab : a * b ≠ 0 := mul_ne_zero ha hb
  have hx := congrArg RVec.x hp
  have hy := congrArg RVec.y hp
  have hz := congrArg RVec.z hp
  simp only [divs, div_eq_zero_iff, hab, or_false] at hx hy hz
  ext <;> assumption

theorem normSq_eq_one_of_norm {v : RVec} (h : v.norm = 1) : v.normSq = 1 :=
  (norm_eq_one_iff_normSq v).mp h

/-- The frame built from a unit `f` and a unit `n` that are not parallel:
`s = normalize (f × n)` and `s × f` are unit vectors, and `s`, `s × f`, `f`
are pairwise orthogonal. -/
theorem frame_orthonormal {f n : RVec} (hf : f.norm = 1) (hnp : ¬ Parallel f n) :
    (across f n).norm = 1 ∧ (cross (across f n) f).norm = 1 ∧
      dot (across f n) f = 0 ∧ dot (across f n) (cross (across f n) f) = 0 ∧
      dot f (cross (across f n) f) = 0 := by
  have hs := across_norm hnp
  have hsf : dot (across f n) f = 0 := dot_across_look
  refine ⟨hs, ?_, hsf, ?_, ?_⟩
  · rw [norm_eq_one_iff_normSq, normSq_cross, normSq_eq_one_of_norm hs,
      normSq_eq_one_of_norm hf, hsf]
    norm_num
  · rw [dot_comm, dot_cross_left]
  · rw [dot_comm, dot_cross_right]

end RVec

theorem update_across_toF (l u : RVec) {ll ul : ℝ} (hll : ll ≠ 0) (hul : ul ≠ 0) :
    update_across l.toF u.toF (val ll) (val ul) =
      div3 (RVec.cross (l.divs ll) (u.divs ul)).toF
        (len3 (RVec.cross (l.divs ll) (u.divs ul)).toF) := by
  have e : (⟨l.toF.y / val ll * u.toF.z / val ul - l.toF.z / val ll * u.toF.y / val ul,
      l.toF.z / val ll * u.toF.x / val ul - l.toF.x / val ll * u.toF.z / val ul,
      l.toF.x / val ll * u.toF.y / val ul - l.toF.y / val ll * u.toF.x / val ul⟩ : Vec3) =
      (RVec.cross (l.divs ll) (u.divs ul)).toF := by
    simp only [RVec.toF, val_div_of_ne _ hll, val_div_of_ne _ hul, val_mul, val_sub,
      RVec.cross, RVec.divs]
    congr 1 <;> (congr 1; ring)
  unfold update_across
  simp only [e]

theorem update_upward_toF (a f : RVec) :
    update_upward a.toF f.toF =
      div3 (RVec.cross a f).toF (len3 (RVec.cross a f).toF) := rfl

theorem neg3_toF (f : RVec) : (⟨-f.toF.x, -f.toF.y, -f.toF.z⟩ : Vec3) = (RVec.neg f).toF := rfl

theorem look_to_basis_toF (l u : RVec) (flags : Nat) (hl : l.norm ≠ 0) (hu : u.norm ≠ 0)
    (hnp : ¬ RVec.Parallel l u) :
    look_to_basis l.toF u.toF flags =
      ((RVec.across (l.divs l.norm) (u.divs u.norm)).toF,
        (RVec.cross (RVec.across (l.divs l.norm) (u.divs u.norm)) (l.divs l.norm)).toF,
        (if flags &&& FLYTHROUGH_CAMERA_LEFT_HANDED_BIT = 0 then RVec.neg (l.divs l.norm)
          else l.divs l.norm).toF) := by
  have hf := RVec.norm_divs_self l hl
  have hnp2 := RVec.not_parallel_divs hnp hl hu
  have hfr := RVec.frame_orthonormal hf hnp2
  unfold look_to_basis
  simp only [div3_len3_toF l hl, div3_len3_toF u hu, cross3_toF,
    div3_len3_toF _ (RVec.cross_norm_ne_zero hnp2)]
  have e : (RVec.cross (l.divs l.norm) (u.divs u.norm)).divs
      (RVec.cross (l.divs l.norm) (u.divs u.norm)).norm =
      RVec.across (l.divs l.norm) (u.divs u.norm) := rfl
  simp only [e, cross3_toF, len3_toF, hfr.2.1, div3_toF_one, neg3_toF]
  split_ifs <;> rfl

/-! ## The sixteen stores of flythrough_camera_look_to -/

theorem look_to_store_apply (old : Mat16) (eye s u f : Vec3) :
    look_to_store old eye s u f 0 = s.x ∧ look_to_store old eye s u f 1 = u.x ∧
    look_to_store old eye s u f 2 = f.x ∧ look_to_store old eye s u f 3 = val 0 ∧
    look_to_store old eye s u f 4 = s.y ∧ look_to_store old eye s u f 5 = u.y ∧
    look_to_store old eye s u f 6 = f.y ∧ look_to_store old eye s u f 7 = val 0 ∧
    look_to_store old eye s u f 8 = s.z ∧ look_to_store old eye s u f 9 = u.z ∧
    look_to_store old eye s u f 10 = f.z ∧ look_to_store old eye s u f 11 = val 0 ∧
    look_to_store old eye s u f 12 = s.x * -eye.x + s.y * -eye.y + s.z * -eye.z ∧
    look_to_store old eye s u f 13 = u.x * -eye.x + u.y * -eye.y + u.z * -eye.z ∧
    look_to_store old eye s u f 14 = f.x * -eye.x + f.y * -eye.y + f.z * -eye.z ∧
    look_to_store old eye s u f 15 = val 1 := by
  refine ⟨rfl, rfl, rfl, rfl, rfl, rfl, rfl, rfl, rfl, rfl, rfl, rfl, rfl, rfl, rfl, rfl⟩

theorem look_to_basis_unit (l u : RVec) (flags : Nat) (hl : l.norm = 1) (hu : u.norm = 1)
    (hnp : ¬ RVec.Parallel l u) :
    look_to_basis l.toF u.toF flags =
      ((RVec.across l u).toF, (RVec.cross (RVec.across l u) l).toF,
        (if flags &&& FLYTHROUGH_CAMERA_LEFT_HANDED_BIT = 0 then RVec.neg l else l).toF) := by
  have h := look_to_basis_toF l u flags (by rw [hl]; exact one_ne_zero)
    (by rw [hu]; exact one_ne_zero) hnp
  rw [hl, hu, RVec.divs_one, RVec.divs_one] at h
  exact h

/-! ## Lemmas: the canonical view is the identity -/

theorem across_minusZ_plusY : RVec.across minusZ plusY = ⟨1, 0, 0⟩ := by
  have hc : RVec.cross minusZ plusY = ⟨1, 0, 0⟩ := by
    ext <;> norm_num [RVec.cross, minusZ, plusY]
  have hcn : (RVec.cross minusZ plusY).norm = 1 := by
    rw [hc, RVec.norm_eq_one_iff]
    norm_num
  rw [RVec.across, hcn, RVec.divs_one, hc]

/-! ## Lemmas: the handedness flag -/

theorem Flt.neg_neg_eq (a : Flt) : - -a = a := by
  cases a
  · simp
  · rfl

theorem Flt.neg_dot_eq (a b c x y z : Flt) :
    a * x + b * y + c * z = -(-a * x + -b * y + -c * z) := by
  cases a <;> cases b <;> cases c <;> cases x <;> cases y <;> cases z <;>
    first
    | rfl
    | (simp only [val_neg, val_mul, val_add, Flt.val.injEq]; ring)

theorem look_to_basis_left (look up : Vec3) (flags : Nat)
    (h : flags &&& FLYTHROUGH_CAMERA_LEFT_HANDED_BIT ≠ 0) :
    look_to_basis look up flags =
      ((look_to_basis look up 0).1, (look_to_basis look up 0).2.1,
        div3 look (len3 look)) := by
  simp [look_to_basis, h]

theorem look_to_basis_right (look up : Vec3) (flags : Nat)
    (h : flags &&& FLYTHROUGH_CAMERA_LEFT_HANDED_BIT = 0) :
    look_to_basis look up flags =
      ((look_to_basis look up 0).1, (look_to_basis look up 0).2.1,
        ⟨-(div3 look (len3 look)).x, -(div3 look (len3 look)).y,
          -(div3 look (len3 look)).z⟩) := by
  simp [look_to_basis, h]

theorem look_to_valid (eye look up : Vec3) (old : Mat16) (flags : Nat)
    (hlook : fabsf (len3 look - val 1) < val 0.000001)
    (hup : fabsf (len3 up - val 1) < val 0.000001) :
    flythrough_camera_look_to eye look up (some old) flags =
      some (some (look_to_store old eye (look_to_basis look up flags).1
        (look_to_basis look up flags).2.1 (look_to_basis look up flags).2.2)) := by
  simp only [flythrough_camera_look_to, hlook, hup, if_true]

/-! ## The update on a camera that passes the assertions -/

theorem assert_toF_iff (v : RVec) :
    fabsf (len3 v.toF - val 1) < val 0.000001 ↔ |v.norm - 1| < 0.000001 := by
  rw [len3_toF]
  simp only [val_sub, fabsf_val, val_lt]

theorem RVec.norm_ne_zero_of_assert {v : RVec} (h : |v.norm - 1| < 0.000001) : v.norm ≠ 0 := by
  intro h0
  rw [h0] at h
  norm_num at h

theorem rotate_look_nonzero (k v : RVec) (r : ℝ) (hk : k.norm = 1) (hv : v.norm ≠ 0) :
    ∃ l2 : RVec, rotate_look k.toF v.toF (val r) = l2.toF ∧ l2.norm = 1 := by
  have hn : (RVec.rot k v (Real.cos r) (Real.sin r)).norm ≠ 0 := by
    rw [RVec.norm_ne_zero_iff,
      RVec.normSq_rot k v _ _ (RVec.normSq_eq_one_of_norm hk) (RVec.cos_sin_sq r)]
    exact (RVec.norm_ne_zero_iff v).mp hv
  refine ⟨_, ?_, RVec.norm_divs_self _ hn⟩
  rw [rotate_look_toF, div3_toF _ hn]

theorem update_yaw_valid (l u : RVec) (dpcm : ℝ) (dx : Int) (hl : l.norm ≠ 0)
    (hu : u.norm ≠ 0) :
    ∃ l1 : RVec, update_yaw l.toF u.toF (val u.norm) (val dpcm) dx = l1.toF ∧
      (l1 = l ∨ l1.norm = 1) := by
  unfold update_yaw
  by_cases h : dx = 0
  · exact ⟨l, by simp [h], Or.inl rfl⟩
  · simp only [ne_eq, h, not_false_eq_true, if_true]
    have e2 : ofInt (wrap32 (-dx)) * val dpcm * val PI_F / val 180 =
        val (((wrap32 (-dx) : Int) : ℝ) * dpcm * PI_F / 180) := by
      simp only [ofInt_eq, val_mul]
      rw [val_div_of_ne _ (by norm_num : (180 : ℝ) ≠ 0)]
    simp only [e2, div3_toF u hu]
    obtain ⟨l1, h1, h2⟩ := rotate_look_nonzero (u.divs u.norm) l
      (((wrap32 (-dx) : Int) : ℝ) * dpcm * PI_F / 180) (RVec.norm_divs_self u hu) hl
    exact ⟨l1, h1, Or.inr h2⟩

theorem pitch_degrees_val (l u : RVec) (dpcm M : ℝ) (n : Int) :
    ∃ P : ℝ, pitch_degrees l.toF u.toF (val dpcm) (val M) n = val P := by
  have eu : (RVec.toF l).x * (RVec.toF u).x + (RVec.toF l).y * (RVec.toF u).y +
      (RVec.toF l).z * (RVec.toF u).z = val (RVec.dot l u) := rfl
  have ed : (RVec.toF l).x * -(RVec.toF u).x + (RVec.toF l).y * -(RVec.toF u).y +
      (RVec.toF l).z * -(RVec.toF u).z = val (-RVec.dot l u) := by
    simp only [RVec.toF, val_neg, val_mul, val_add, RVec.dot]
    congr 1
    ring
  unfold pitch_degrees
  simp only [eu, ed]
  by_cases h : -1 ≤ RVec.dot l u ∧ RVec.dot l u ≤ 1
  · rw [acosf_val_of_mem h.1 h.2, acosf_val_of_mem (by linarith [h.2]) (by linarith [h.1])]
    simp only [fun a => val_div_of_ne a PI_F_ne_zero, val_mul, val_sub, val_neg, val_lt,
      ite_val, ofInt_eq, gt_iff_lt]
    exact ⟨_, rfl⟩
  · have h1 : RVec.dot l u < -1 ∨ 1 < RVec.dot l u := by
      by_contra hc
      push_neg at hc
      exact h ⟨hc.1, hc.2⟩
    have h2 : -RVec.dot l u < -1 ∨ 1 < -RVec.dot l u := by
      rcases h1 with h1 | h1
      · right
        linarith
      · left
        linarith
    rw [acosf_val, if_pos h1, acosf_val, if_pos h2]
    simp only [nan_div, nan_mul, nan_sub, not_nan_lt, not_lt_nan, if_false, ofInt_eq, val_mul,
      gt_iff_lt, and_false, val_lt]
    exact ⟨_, rfl⟩

theorem update_pitch_valid (l u a : RVec) (dpcm M : ℝ) (n : Int) (hl : l.norm ≠ 0)
    (ha : a.norm = 1) :
    ∃ l2 : RVec, update_pitch l.toF u.toF a.toF (val dpcm) (val M) n = l2.toF ∧
      (l2 = l ∨ l2.norm = 1) := by
  unfold update_pitch
  by_cases h : n = 0
  · exact ⟨l, by simp [h], Or.inl rfl⟩
  · simp only [ne_eq, h, not_false_eq_true, if_true]
    obtain ⟨P, hP⟩ := pitch_degrees_val l u dpcm M n
    rw [hP]
    have e2 : val P * val PI_F / val 180 = val (P * PI_F / 180) := by
      simp only [val_mul]
      rw [val_div_of_ne _ (by norm_num : (180 : ℝ) ≠ 0)]
    rw [e2]
    obtain ⟨l2, h1, h2⟩ := rotate_look_nonzero a l (P * PI_F / 180) ha hl
    exact ⟨l2, h1, Or.inr h2⟩

/-- For real `look` and `up` that pass the two entry assertions and are not
parallel, the update returns; the returned `look` is a real vector that
passes the assertion of `flythrough_camera_look_to` again. -/
theorem update_valid (eye : Vec3) (l u : RVec) (dt speed : Flt)
    (dpcm M : ℝ) (dx dy fwd left back right jump crouch : Int)
    (hl : fabsf (len3 l.toF - val 1) < val 0.000001)
    (hu : fabsf (len3 u.toF - val 1) < val 0.000001) (hnp : ¬ RVec.Parallel l u) :
    ∃ l2 : RVec, fabsf (len3 l2.toF - val 1) < val 0.000001 ∧
      ∀ (view : Option Mat16) (flags : Nat),
        flythrough_camera_update eye l.toF u.toF view dt speed (val dpcm) (val M)
          dx dy fwd left back right jump crouch flags =
        some ⟨newEye eye l.toF u.toF dt speed fwd left back right jump crouch, l2.toF,
          newView (newEye eye l.toF u.toF dt speed fwd left back right jump crouch)
            l2.toF u.toF view flags⟩ := by
  have hln := RVec.norm_ne_zero_of_assert ((assert_toF_iff l).mp hl)
  have hun := RVec.norm_ne_zero_of_assert ((assert_toF_iff u).mp hu)
  have hnp2 := RVec.not_parallel_divs hnp hln hun
  have hacross : update_across l.toF u.toF (len3 l.toF) (len3 u.toF) =
      (RVec.across (l.divs l.norm) (u.divs u.norm)).toF := by
    rw [len3_toF, len3_toF, update_across_toF l u hln hun,
      div3_len3_toF _ (RVec.cross_norm_ne_zero hnp2)]
    rfl
  obtain ⟨l1, hy, hy2⟩ := update_yaw_valid l u dpcm dx hln hun
  have hl1 : l1.norm ≠ 0 := by
    rcases hy2 with h | h
    · rw [h]
      exact hln
    · rw [h]
      exact one_ne_zero
  obtain ⟨l2, hp, hp2⟩ := update_pitch_valid l1 u (RVec.across (l.divs l.norm) (u.divs u.norm))
    dpcm M (wrap32 (-dy)) hl1 (RVec.across_norm hnp2)
  have hl2 : fabsf (len3 l2.toF - val 1) < val 0.000001 := by
    rcases hp2 with h | h
    · rw [h]
      rcases hy2 with h3 | h3
      · rw [h3]
        exact hl
      · exact assert_unit l1 h3
    · exact assert_unit l2 h
  refine ⟨l2, hl2, ?_⟩
  intro view flags
  unfold flythrough_camera_update
  simp only [hl, hu, if_true, hacross]
  rw [len3_toF u, hy, hp]
  cases view with
  | none => simp only [flythrough_camera_look_to, newEye, newView, hacross, Option.map_none']
  | some old =>
    rw [look_to_valid _ _ _ old flags hl2 hu]
    simp only [newEye, newView, hacross, Option.map_some']

/-- A run of updates from a unit `look`, when `look` is not parallel to `up`
before any of the updates: by induction on the frames. -/
theorem unit_run (u : RVec) (hu : u.norm = 1) (frames : List Frame) :
    ∀ (eye : Vec3) (l : RVec) (view : Option Mat16),
      (∀ fr ∈ frames, ∃ d m : ℝ, fr.degrees_per_cursor_move = val d ∧
        fr.max_pitch_rotation_degrees = val m) →
      l.norm = 1 → NonParallelRun u ⟨eye, l.toF, view⟩ frames →
      ∃ cam l2, run_updates u.toF ⟨eye, l.toF, view⟩ frames = some cam ∧
        cam.look = RVec.toF l2 ∧ l2.norm = 1 := by
  induction frames with
  | nil =>
    intro eye l view _ hl _
    exact ⟨_, l, rfl, rfl, hl⟩
  | cons fr rest ih =>
    intro eye l view hfr hl hrun
    obtain ⟨⟨l0, hl0, hnp0⟩, hrest⟩ := hrun
    have hll : l = l0 := RVec.toF_injective hl0
    subst hll
    obtain ⟨d, m, hd, hm⟩ := hfr fr (List.mem_cons_self _ _)
    obtain ⟨dt, sp, dp, mp, dx, dy, k1, k2, k3, k4, k5, k6, fl⟩ := fr
    simp only at hd hm
    subst hd hm
    have hstep := update_unit eye l u view dt sp d m dx dy k1 k2 k3 k4 k5 k6 fl hl hu hnp0
    have hrun2 := hrest _ hstep
    have hn := RVec.newLook_norm l u d m dx dy hl hu hnp0
    have hgo : run_updates u.toF ⟨eye, l.toF, view⟩
        (⟨dt, sp, val d, val m, dx, dy, k1, k2, k3, k4, k5, k6, fl⟩ :: rest) =
        run_updates u.toF ⟨newEye eye l.toF u.toF dt sp k1 k2 k3 k4 k5 k6,
          (RVec.newLook l u d m dx dy).toF,
          newView (newEye eye l.toF u.toF dt sp k1 k2 k3 k4 k5 k6)
            (RVec.newLook l u d m dx dy).toF u.toF view fl⟩ rest := by
      simp only [run_updates, update_frame, hstep]
    rw [hgo]
    exact ih _ _ _ (fun f hf => hfr f (List.mem_cons_of_mem _ hf)) hn hrun2

/-! ## Claim C1: the pitch clamp under pitch-only updates -/

/-- C1, as stated, fails: with `look = up = (0, 1, 0)` and
`max_pitch_rotation_degrees = 90` both vectors are unit vectors and both
angles (0 and 180 degrees) are at least `90 - 90 = 0` degrees, yet the
pitch-only update with `delta_cursor_y = 1` returns a `look` whose elements
are all `nan`: `across` is `0/0`. -/
theorem pitch_clamp_parallel_counterexample :
    plusY.norm = 1 ∧ (0 : ℝ) ≤ 90 ∧ (90 : ℝ) ≤ 90 ∧
      90 - 90 ≤ RVec.angle_degrees plusY plusY ∧
      90 - 90 ≤ RVec.angle_degrees plusY (RVec.neg plusY) ∧
      flythrough_camera_update origin plusY.toF plusY.toF none (val 0) (val 0) (val 1) (val 90)
        0 1 0 0 0 0 0 0 0 = some ⟨origin, nan3, none⟩ ∧
      ¬ ∃ l2 : RVec, nan3 = l2.toF := by
  refine ⟨plusY_norm, by norm_num, le_refl _, ?_, ?_, ?_, ?_⟩
  · rw [angle_plusY_plusY]
    norm_num
  · rw [angle_plusY_neg_plusY]
    norm_num
  · have hw : wrap32 (-1) = -1 := by decide
    unfold flythrough_camera_update
    simp only [assert_unit plusY plusY_norm, if_true]
    rw [len3_toF, plusY_norm, update_across_parallel _ _ plusY_plusY_parallel, hw]
    simp [update_eye_xz, update_eye_y, update_yaw, update_pitch, held, rotate_look_nan3,
      flythrough_camera_look_to]
  · rintro ⟨l2, h⟩
    exact nan3_ne_toF l2 h

/-- C1 (amended): start from unit `look` and `up` that are not parallel, with
`0 ≤ M ≤ 90` and both the angle from `look` to `up` and the angle from `look`
to `-up` at least `90 - M` degrees.  A pitch-only update
(`delta_cursor_x = 0`, any `delta_cursor_y`, sensitivity and keys) returns a
`look` for which both angles are still at least `90 - M` degrees; hence, when
`M < 90`, the bound holds after every sequence of pitch-only updates. -/
theorem pitch_clamp_invariant (eye : Vec3) (l u : RVec) (view : Option Mat16) (dt speed : Flt)
    (dpcm M : ℝ) (dy fwd left back right jump crouch : Int) (flags : Nat)
    (hl : l.norm = 1) (hu : u.norm = 1) (hnp : ¬ RVec.Parallel l u)
    (_hM0 : 0 ≤ M) (hM : M ≤ 90)
    (hup : 90 - M ≤ RVec.angle_degrees l u)
    (hdown : 90 - M ≤ RVec.angle_degrees l (RVec.neg u)) :
    (∃ cam l2, flythrough_camera_update eye l.toF u.toF view dt speed (val dpcm) (val M)
        0 dy fwd left back right jump crouch flags = some cam ∧
      cam.look = RVec.toF l2 ∧ 90 - M ≤ RVec.angle_degrees l2 u ∧
      90 - M ≤ RVec.angle_degrees l2 (RVec.neg u)) ∧
    (M < 90 → ∀ frames : List Frame,
      (∀ fr ∈ frames, fr.delta_cursor_x = 0 ∧ fr.max_pitch_rotation_degrees = val M ∧
        ∃ d : ℝ, fr.degrees_per_cursor_move = val d) →
      ∃ cam l2, run_updates u.toF ⟨eye, l.toF, view⟩ frames = some cam ∧
        cam.look = RVec.toF l2 ∧ 90 - M ≤ RVec.angle_degrees l2 u ∧
        90 - M ≤ RVec.angle_degrees l2 (RVec.neg u)) := by
  constructor
  · obtain ⟨cam, l2, h, hlook, -, h1, h2, -⟩ := pitch_only_step eye l u view
      ⟨dt, speed, val dpcm, val M, 0, dy, fwd, left, back, right, jump, crouch, flags⟩
      M dpcm rfl rfl rfl hl hu hnp hM hup hdown
    exact ⟨cam, l2, h, hlook, h1, h2⟩
  · intro hlt frames hframes
    exact pitch_only_run u M hu hM frames eye l view hframes (Or.inr hlt) hl hnp hup hdown

/-- C1 (amended), at a concrete input: large upward pitch requests from the
horizontal direction `(0, 0, -1)` with `up = (0, 1, 0)` and `M = 80`. -/
theorem pitch_clamp_invariant_witness :
    minusZ.norm = 1 ∧ plusY.norm = 1 ∧ ¬ RVec.Parallel minusZ plusY ∧
      90 - 80 ≤ RVec.angle_degrees minusZ plusY ∧
      90 - 80 ≤ RVec.angle_degrees minusZ (RVec.neg plusY) ∧
      (∃ cam l2, flythrough_camera_update origin minusZ.toF plusY.toF none (val 0) (val 0)
          (val 1) (val 80) 0 (-1000) 0 0 0 0 0 0 0 = some cam ∧
        cam.look = RVec.toF l2 ∧ 90 - 80 ≤ RVec.angle_degrees l2 plusY ∧
        90 - 80 ≤ RVec.angle_degrees l2 (RVec.neg plusY)) ∧
      ∃ cam l2, run_updates plusY.toF ⟨origin, minusZ.toF, none⟩
          [pitchFrame 80 (-1000), pitchFrame 80 (-1000)] = some cam ∧
        cam.look = RVec.toF l2 ∧ 90 - 80 ≤ RVec.angle_degrees l2 plusY ∧
        90 - 80 ≤ RVec.angle_degrees l2 (RVec.neg plusY) :=
  have h := pitch_clamp_invariant origin minusZ plusY none (val 0) (val 0) 1 80 (-1000)
    0 0 0 0 0 0 0 minusZ_norm plusY_norm minusZ_plusY_not_parallel (by norm_num) (by norm_num)
    (by rw [angle_minusZ_plusY]; norm_num) (by rw [angle_minusZ_neg_plusY]; norm_num)
  ⟨minusZ_norm, plusY_norm, minusZ_plusY_not_parallel,
    by rw [angle_minusZ_plusY]; norm_num, by rw [angle_minusZ_neg_plusY]; norm_num,
    h.1,
    h.2 (by norm_num) [pitchFrame 80 (-1000), pitchFrame 80 (-1000)]
      (by
        intro fr hfr
        simp only [List.mem_cons, List.mem_singleton, List.not_mem_nil, or_false, or_self] at hfr
        subst hfr
        exact ⟨rfl, rfl, 1, rfl⟩)⟩

/-! ## Claim C2: the pitch clamp after a yaw in the same call -/

/-- C2 fails on the code: a yaw of half a turn and a pitch in the same call.
`look = (0, -5/13, -12/13)` and `up = (0, 1, 0)` are unit vectors, not
parallel, and `look` is more than `90 - 30 = 60` degrees away from both `up`
and `-up`.  The call with `delta_cursor_x = 180`, `delta_cursor_y = -29`, one
degree per cursor unit and `max_pitch_rotation_degrees = 30` returns a `look`
less than 60 degrees away from `-up`: the pitch rotates about the `across`
of the `look` before the yaw. -/
theorem yaw_then_pitch_breaks_clamp :
    lookLow.norm = 1 ∧ plusY.norm = 1 ∧ ¬ RVec.Parallel lookLow plusY ∧
      90 - 30 ≤ RVec.angle_degrees lookLow plusY ∧
      90 - 30 ≤ RVec.angle_degrees lookLow (RVec.neg plusY) ∧
      ∃ cam l2, flythrough_camera_update origin lookLow.toF plusY.toF none (val 0) (val 0)
          (val 1) (val 30) 180 (-29) 0 0 0 0 0 0 0 = some cam ∧
        cam.look = RVec.toF l2 ∧ RVec.angle_degrees l2 (RVec.neg plusY) < 90 - 30 := by
  refine ⟨lookLow_norm, plusY_norm, lookLow_not_parallel,
    by linarith [angle_lookLow_plusY], by linarith [angle_lookLow_neg_plusY],
    _, _, update_unit origin lookLow plusY none (val 0) (val 0) 1 30 180 (-29) 0 0 0 0 0 0 0
      lookLow_norm plusY_norm lookLow_not_parallel, rfl, ?_⟩
  have hn := RVec.newLook_norm lookLow plusY 1 30 180 (-29) lookLow_norm plusY_norm
    lookLow_not_parallel
  have hnu : (RVec.neg plusY).norm = 1 := by rw [RVec.norm_neg, plusY_norm]
  have hw1 : wrap32 (-180) = -180 := by decide
  have hw2 : wrap32 (-(-29)) = 29 := by decide
  -- the look direction after the yaw
  have hyaw : RVec.yaw lookLow plusY 1 180 =
      ⟨Real.sin (-PI_F) * (-12 / 13), -5 / 13, Real.cos (-PI_F) * (-12 / 13)⟩ := by
    have hpsi : (((-180 : Int) : ℝ)) * 1 * PI_F / 180 = -PI_F := by
      push_cast
      ring
    simp only [RVec.yaw, hw1, hpsi]
    rw [if_pos (by decide)]
    ext <;> simp [RVec.rot, lookLow, plusY]
  have hacross : RVec.across lookLow plusY = ⟨1, 0, 0⟩ := by
    have hc : RVec.cross lookLow plusY = ⟨12 / 13, 0, 0⟩ := by
      ext <;> norm_num [RVec.cross, lookLow, plusY]
    have hcn : (RVec.cross lookLow plusY).norm = 12 / 13 := by
      rw [hc, RVec.norm]
      rw [show (12 / 13 : ℝ) * (12 / 13) + 0 * 0 + 0 * 0 = (12 / 13) ^ 2 by ring]
      exact Real.sqrt_sq (by norm_num)
    rw [RVec.across, hcn, hc]
    ext <;> norm_num [RVec.divs]
  have hdot1 : RVec.dot (RVec.yaw lookLow plusY 1 180) plusY = -5 / 13 := by
    rw [hyaw]
    norm_num [RVec.dot, plusY]
  -- the pitch request of 29 degrees is not clamped
  have hP : RVec.pitchDeg (RVec.yaw lookLow plusY 1 180) plusY 1 30 29 = 29 := by
    rw [RVec.pitchDeg_unclamped]
    · norm_num
    · norm_num
    · rw [hdot1]
      have h : ¬ Real.arccos (-5 / 13) < Real.pi / 2 := by
        rw [Real.arccos_lt_pi_div_two]
        norm_num
      have h2 : Real.pi / 2 ≤ Real.arccos (-5 / 13) := not_lt.mp h
      have hc := PI_F_pos
      have h3 : (89 : ℝ) ≤ Real.pi / 2 / PI_F * 180 := by
        have e : Real.pi / 2 / PI_F * 180 = 90 * Real.pi / PI_F := by
          field_simp
          ring
        rw [e, le_div_iff₀ hc]
        unfold PI_F
        linarith [Real.pi_gt_d2]
      have h4 : Real.pi / 2 / PI_F * 180 ≤ Real.arccos (-5 / 13) / PI_F * 180 := by
        gcongr
      linarith
  -- the look direction on return
  have hnl : RVec.newLook lookLow plusY 1 30 180 (-29) =
      RVec.rot ⟨1, 0, 0⟩
        ⟨Real.sin (-PI_F) * (-12 / 13), -5 / 13, Real.cos (-PI_F) * (-12 / 13)⟩
        (Real.cos (29 * PI_F / 180)) (Real.sin (29 * PI_F / 180)) := by
    rw [RVec.newLook, hw2, RVec.pitch, if_pos (by decide), hacross, hP, hyaw]
  have hv : RVec.dot (RVec.newLook lookLow plusY 1 30 180 (-29)) (RVec.neg plusY) =
      Real.cos (29 * PI_F / 180) * (5 / 13) +
        Real.sin (29 * PI_F / 180) * (-Real.cos (-PI_F)) * (12 / 13) := by
    rw [hnl]
    simp only [RVec.rot, RVec.dot, RVec.neg, plusY]
    ring
  -- bounds on the cosine and sine of 29 degrees
  have hp0 : (0 : ℝ) < 29 * PI_F / 180 := by
    unfold PI_F
    norm_num
  have hp1 : 29 * PI_F / 180 ≤ 1 := by
    unfold PI_F
    norm_num
  have hcos : 0.87 ≤ Real.cos (29 * PI_F / 180) := by
    have h := Real.one_sub_sq_div_two_le_cos (x := 29 * PI_F / 180)
    have h2 : (29 * PI_F / 180) ^ 2 / 2 ≤ 0.13 := by
      unfold PI_F
      norm_num
    linarith
  have hsin : 0.47 ≤ Real.sin (29 * PI_F / 180) := by
    have h := Real.sin_gt_sub_cube hp0 hp1
    have h2 : 0.47 ≤ 29 * PI_F / 180 - (29 * PI_F / 180) ^ 3 / 4 := by
      unfold PI_F
      norm_num
    linarith
  have hyc := cos_yaw_half_turn
  have hprod : 0.47 * 0.999 ≤ Real.sin (29 * PI_F / 180) * (-Real.cos (-PI_F)) :=
    mul_le_mul hsin (by linarith) (by norm_num) (by linarith)
  have hvgt : 1 / 2 < RVec.dot (RVec.newLook lookLow plusY 1 30 180 (-29)) (RVec.neg plusY) := by
    rw [hv]
    linarith
  have hvle := RVec.dot_le_one hn hnu
  have hlt : Real.arccos (RVec.dot (RVec.newLook lookLow plusY 1 30 180 (-29))
      (RVec.neg plusY)) < Real.arccos (1 / 2) :=
    Real.strictAntiOn_arccos (by constructor <;> norm_num) ⟨by linarith, hvle⟩ hvgt
  rw [arccos_half] at hlt
  rw [RVec.angle_degrees_unit hn hnu, div_lt_iff₀ Real.pi_pos]
  linarith

/-! ## Claim C3: no input, no change -/

/-- C3: with both cursor deltas zero and no key held, an update whose two
entry assertions pass returns, and leaves `eye` and `look` exactly as they
were, for every `delta_time_seconds`, `eye_speed`, `degrees_per_cursor_move`,
`max_pitch_rotation_degrees`, view buffer and `flags`. -/
theorem update_no_input_unchanged (eye look up : Vec3) (view : Option Mat16)
    (delta_time_seconds eye_speed degrees_per_cursor_move max_pitch_rotation_degrees : Flt)
    (flags : Nat)
    (hlook : fabsf (len3 look - val 1) < val 0.000001)
    (hup : fabsf (len3 up - val 1) < val 0.000001) :
    ∃ cam, flythrough_camera_update eye look up view delta_time_seconds eye_speed
        degrees_per_cursor_move max_pitch_rotation_degrees 0 0 0 0 0 0 0 0 flags = some cam ∧
      cam.eye = eye ∧ cam.look = look := by
  cases view with
  | none =>
    refine ⟨⟨eye, look, none⟩, ?_, rfl, rfl⟩
    simp [flythrough_camera_update, hlook, hup, update_eye_xz, update_eye_y, update_yaw,
      update_pitch, held, wrap32, flythrough_camera_look_to]
  | some v =>
    refine ⟨⟨eye, look, some (look_to_store v eye (look_to_basis look up flags).1
      (look_to_basis look up flags).2.1 (look_to_basis look up flags).2.2)⟩, ?_, rfl, rfl⟩
    simp [flythrough_camera_update, hlook, hup, update_eye_xz, update_eye_y, update_yaw,
      update_pitch, held, wrap32, flythrough_camera_look_to]

/-- C3 at a concrete input: `look = (0, 0, -1)`, `up = (0, 1, 0)`, no view. -/
theorem update_no_input_unchanged_witness :
    fabsf (len3 minusZ.toF - val 1) < val 0.000001 ∧
      fabsf (len3 plusY.toF - val 1) < val 0.000001 ∧
      ∃ cam, flythrough_camera_update origin minusZ.toF plusY.toF none (val 2) (val 3) (val 1)
          (val 80) 0 0 0 0 0 0 0 0 0 = some cam ∧
        cam.eye = origin ∧ cam.look = minusZ.toF :=
  ⟨assert_unit minusZ minusZ_norm, assert_unit plusY plusY_norm,
    update_no_input_unchanged origin minusZ.toF plusY.toF none (val 2) (val 3) (val 1) (val 80) 0
      (assert_unit minusZ minusZ_norm) (assert_unit plusY plusY_norm)⟩

/-! ## Claim C4: opposite keys cancel -/

/-- C4: with both keys of a pair held (`a` and `b` non-zero) and no other key,
the update of a valid camera (`look` and `up` pass the two assertions and are
not parallel) returns with `eye` unchanged, for forward+backward, left+right
and jump+crouch, whatever `delta_time_seconds` and `eye_speed` are; and for
all arguments whatsoever,
holding both keys of a pair gives the same result, hence the same `eye`, as
holding neither key of that pair, whatever the other keys are. -/
theorem opposite_keys_cancel (eye : Vec3) (l u : RVec) (view : Option Mat16) (dt speed : Flt)
    (dpcm M : ℝ) (dx dy : Int) (flags : Nat) (a b : Int) (ha : a ≠ 0) (hb : b ≠ 0)
    (hl : fabsf (len3 l.toF - val 1) < val 0.000001)
    (hu : fabsf (len3 u.toF - val 1) < val 0.000001) (hnp : ¬ RVec.Parallel l u) :
    (∃ cam, flythrough_camera_update eye l.toF u.toF view dt speed (val dpcm) (val M) dx dy
        a 0 b 0 0 0 flags = some cam ∧ cam.eye = eye) ∧
    (∃ cam, flythrough_camera_update eye l.toF u.toF view dt speed (val dpcm) (val M) dx dy
        0 a 0 b 0 0 flags = some cam ∧ cam.eye = eye) ∧
    (∃ cam, flythrough_camera_update eye l.toF u.toF view dt speed (val dpcm) (val M) dx dy
        0 0 0 0 a b flags = some cam ∧ cam.eye = eye) ∧
    (∀ (eye2 look2 up2 : Vec3) (view2 : Option Mat16) (dt2 speed2 dpcm2 M2 : Flt)
        (dx2 dy2 k1 k2 k3 k4 : Int) (flags2 : Nat),
      flythrough_camera_update eye2 look2 up2 view2 dt2 speed2 dpcm2 M2 dx2 dy2
          a k1 b k2 k3 k4 flags2 =
        flythrough_camera_update eye2 look2 up2 view2 dt2 speed2 dpcm2 M2 dx2 dy2
          0 k1 0 k2 k3 k4 flags2 ∧
      flythrough_camera_update eye2 look2 up2 view2 dt2 speed2 dpcm2 M2 dx2 dy2
          k1 a k2 b k3 k4 flags2 =
        flythrough_camera_update eye2 look2 up2 view2 dt2 speed2 dpcm2 M2 dx2 dy2
          k1 0 k2 0 k3 k4 flags2 ∧
      flythrough_camera_update eye2 look2 up2 view2 dt2 speed2 dpcm2 M2 dx2 dy2
          k1 k2 k3 k4 a b flags2 =
        flythrough_camera_update eye2 look2 up2 view2 dt2 speed2 dpcm2 M2 dx2 dy2
          k1 k2 k3 k4 0 0 flags2) := by
  obtain ⟨l1, -, h1⟩ := update_valid eye l u dt speed dpcm M dx dy a 0 b 0 0 0 hl hu hnp
  obtain ⟨l2, -, h2⟩ := update_valid eye l u dt speed dpcm M dx dy 0 a 0 b 0 0 hl hu hnp
  obtain ⟨l3, -, h3⟩ := update_valid eye l u dt speed dpcm M dx dy 0 0 0 0 a b hl hu hnp
  refine ⟨⟨_, h1 view flags, newEye_forward_backward _ _ _ _ _ a b ha hb⟩,
    ⟨_, h2 view flags, newEye_left_right _ _ _ _ _ a b ha hb⟩,
    ⟨_, h3 view flags, newEye_jump_crouch _ _ _ _ _ a b ha hb⟩, ?_⟩
  intro eye2 look2 up2 view2 dt2 speed2 dpcm2 M2 dx2 dy2 k1 k2 k3 k4 flags2
  refine ⟨?_, ?_, ?_⟩
  · simp only [flythrough_camera_update,
      update_eye_xz_forward_backward _ _ _ _ _ a k1 b k2 ha hb]
  · simp only [flythrough_camera_update,
      update_eye_xz_left_right _ _ _ _ _ k1 a k2 b ha hb]
  · simp only [flythrough_camera_update, update_eye_y_jump_crouch _ _ _ _ a b ha hb,
      update_eye_y_none]

/-- C4 at a concrete input: `look = (0, 0, -1)`, `up = (0, 1, 0)`, both keys
of the pair reported as 1. -/
theorem opposite_keys_cancel_witness :
    (1 : Int) ≠ 0 ∧ fabsf (len3 minusZ.toF - val 1) < val 0.000001 ∧
      fabsf (len3 plusY.toF - val 1) < val 0.000001 ∧ ¬ RVec.Parallel minusZ plusY ∧
      ∃ cam, flythrough_camera_update origin minusZ.toF plusY.toF none (val 2) (val 3) (val 1)
        (val 80) 7 (-5) 1 0 1 0 0 0 0 = some cam ∧ cam.eye = origin :=
  ⟨one_ne_zero, assert_unit minusZ minusZ_norm, assert_unit plusY plusY_norm,
    minusZ_plusY_not_parallel,
    (opposite_keys_cancel origin minusZ plusY none (val 2) (val 3) 1 80 7 (-5) 0 1 1
      one_ne_zero one_ne_zero (assert_unit minusZ minusZ_norm) (assert_unit plusY plusY_norm)
      minusZ_plusY_not_parallel).1⟩

/-! ## Claim C5: the look direction stays a unit vector -/

/-- C5: for unit `look` and `up` that are not parallel and any cursor deltas,
keys and parameters, `flythrough_camera_update` returns and the updated
`look` is a real vector of length exactly 1; hence `look` has length 1 after
every sequence of updates before each of which it is not parallel to `up`. -/
theorem update_look_unit (eye : Vec3) (l u : RVec) (view : Option Mat16) (dt speed : Flt)
    (dpcm M : ℝ) (dx dy fwd left back right jump crouch : Int) (flags : Nat)
    (hl : l.norm = 1) (hu : u.norm = 1) (hnp : ¬ RVec.Parallel l u) :
    (∃ cam l2, flythrough_camera_update eye l.toF u.toF view dt speed (val dpcm) (val M) dx dy
        fwd left back right jump crouch flags = some cam ∧
      cam.look = RVec.toF l2 ∧ l2.norm = 1) ∧
    (∀ frames : List Frame,
      (∀ fr ∈ frames, ∃ d m : ℝ, fr.degrees_per_cursor_move = val d ∧
        fr.max_pitch_rotation_degrees = val m) →
      NonParallelRun u ⟨eye, l.toF, view⟩ frames →
      ∃ cam l2, run_updates u.toF ⟨eye, l.toF, view⟩ frames = some cam ∧
        cam.look = RVec.toF l2 ∧ l2.norm = 1) :=
  ⟨⟨_, _, update_unit eye l u view dt speed dpcm M dx dy fwd left back right jump crouch flags
      hl hu hnp, rfl, RVec.newLook_norm l u dpcm M dx dy hl hu hnp⟩,
    fun frames hfr hrun => unit_run u hu frames eye l view hfr hl hrun⟩

/-- C5 at a concrete input: a yaw and a pitch with two keys held. -/
theorem update_look_unit_witness :
    minusZ.norm = 1 ∧ plusY.norm = 1 ∧ ¬ RVec.Parallel minusZ plusY ∧
      ∃ cam l2, flythrough_camera_update origin minusZ.toF plusY.toF none (val 2) (val 3)
          (val 1) (val 80) 7 (-5) 1 0 0 1 0 0 0 = some cam ∧
        cam.look = RVec.toF l2 ∧ l2.norm = 1 :=
  ⟨minusZ_norm, plusY_norm, minusZ_plusY_not_parallel,
    (update_look_unit origin minusZ plusY none (val 2) (val 3) 1 80 7 (-5) 1 0 0 1 0 0 0
      minusZ_norm plusY_norm minusZ_plusY_not_parallel).1⟩

/-! ## Claim C6: the two bases are orthonormal -/

/-- C6: for non-zero `look` and `up` that are not parallel, the vectors
`across`, `forward`, `upward` of `flythrough_camera_update` and the vectors
`s`, `u`, `f` of `flythrough_camera_look_to` (for every value of `flags`) are
real vectors of length 1 whose three pairwise dot products are 0. -/
theorem basis_orthonormal (l u : RVec) (hl0 : l ≠ ⟨0, 0, 0⟩) (hu0 : u ≠ ⟨0, 0, 0⟩)
    (hnp : ¬ RVec.Parallel l u) :
    (∃ a f w : RVec,
      update_across l.toF u.toF (len3 l.toF) (len3 u.toF) = a.toF ∧
      update_forward l.toF (len3 l.toF) = f.toF ∧
      update_upward a.toF f.toF = w.toF ∧
      a.norm = 1 ∧ f.norm = 1 ∧ w.norm = 1 ∧
      RVec.dot a f = 0 ∧ RVec.dot a w = 0 ∧ RVec.dot f w = 0) ∧
    (∀ flags : Nat, ∃ s u2 f : RVec,
      look_to_basis l.toF u.toF flags = (s.toF, u2.toF, f.toF) ∧
      s.norm = 1 ∧ u2.norm = 1 ∧ f.norm = 1 ∧
      RVec.dot s u2 = 0 ∧ RVec.dot s f = 0 ∧ RVec.dot u2 f = 0) := by
  have hl := RVec.norm_ne_zero_of_ne hl0
  have hu := RVec.norm_ne_zero_of_ne hu0
  have hf := RVec.norm_divs_self l hl
  have hnp2 := RVec.not_parallel_divs hnp hl hu
  obtain ⟨h1, h2, h3, h4, h5⟩ := RVec.frame_orthonormal hf hnp2
  constructor
  · refine ⟨RVec.across (l.divs l.norm) (u.divs u.norm), l.divs l.norm,
      RVec.cross (RVec.across (l.divs l.norm) (u.divs u.norm)) (l.divs l.norm),
      ?_, ?_, ?_, h1, hf, h2, h3, h4, h5⟩
    · rw [len3_toF, len3_toF, update_across_toF l u hl hu,
        div3_len3_toF _ (RVec.cross_norm_ne_zero hnp2)]
      rfl
    · rw [len3_toF, update_forward, div3_toF _ hl]
    · rw [update_upward_toF, len3_toF, h2, div3_toF_one]
  · intro flags
    refine ⟨_, _, _, look_to_basis_toF l u flags hl hu hnp, h1, h2, ?_, h4, ?_, ?_⟩
    · split_ifs
      · rw [RVec.norm_neg, hf]
      · exact hf
    · split_ifs
      · rw [RVec.dot_neg_right, h3, neg_zero]
      · exact h3
    · split_ifs
      · rw [RVec.dot_neg_right, RVec.dot_comm, h5, neg_zero]
      · rw [RVec.dot_comm, h5]

/-- C6 at a concrete input: `look = (0, 0, -1)`, `up = (0, 1, 0)`. -/
theorem basis_orthonormal_witness :
    minusZ ≠ ⟨0, 0, 0⟩ ∧ plusY ≠ ⟨0, 0, 0⟩ ∧ ¬ RVec.Parallel minusZ plusY ∧
      ∃ a f w : RVec,
        update_across minusZ.toF plusY.toF (len3 minusZ.toF) (len3 plusY.toF) = a.toF ∧
        update_forward minusZ.toF (len3 minusZ.toF) = f.toF ∧
        update_upward a.toF f.toF = w.toF ∧
        a.norm = 1 ∧ f.norm = 1 ∧ w.norm = 1 ∧
        RVec.dot a f = 0 ∧ RVec.dot a w = 0 ∧ RVec.dot f w = 0 :=
  ⟨by simp [minusZ], by simp [plusY], minusZ_plusY_not_parallel,
    (basis_orthonormal minusZ plusY (by simp [minusZ]) (by simp [plusY])
      minusZ_plusY_not_parallel).1⟩

/-! ## Claim C7: the look-to matrix maps world space to view space -/

/-- C7: for every eye and exactly-unit `look` and `up` that are not parallel,
`flythrough_camera_look_to` returns a buffer `m` which, read as the
column-major matrix with entry `m (4 * c + r)` at row `r` and column `c`,
sends `(eye, 1)` to `(0, 0, 0, 1)` and `(look, 0)` to `(0, 0, -1, 0)` when the
left-handed bit is clear and to `(0, 0, 1, 0)` when it is set. -/
theorem look_to_world_to_view (e l u : RVec) (old : Mat16) (flags : Nat)
    (hl : l.norm = 1) (hu : u.norm = 1) (hnp : ¬ RVec.Parallel l u) :
    ∃ m : Mat16, flythrough_camera_look_to e.toF l.toF u.toF (some old) flags = some (some m) ∧
      m 0 * val e.x + m 4 * val e.y + m 8 * val e.z + m 12 * val 1 = val 0 ∧
      m 1 * val e.x + m 5 * val e.y + m 9 * val e.z + m 13 * val 1 = val 0 ∧
      m 2 * val e.x + m 6 * val e.y + m 10 * val e.z + m 14 * val 1 = val 0 ∧
      m 3 * val e.x + m 7 * val e.y + m 11 * val e.z + m 15 * val 1 = val 1 ∧
      m 0 * val l.x + m 4 * val l.y + m 8 * val l.z + m 12 * val 0 = val 0 ∧
      m 1 * val l.x + m 5 * val l.y + m 9 * val l.z + m 13 * val 0 = val 0 ∧
      m 2 * val l.x + m 6 * val l.y + m 10 * val l.z + m 14 * val 0 =
        val (if flags &&& FLYTHROUGH_CAMERA_LEFT_HANDED_BIT = 0 then -1 else 1) ∧
      m 3 * val l.x + m 7 * val l.y + m 11 * val l.z + m 15 * val 0 = val 0 := by
  have hb := look_to_basis_unit l u flags hl hu hnp
  have hs : RVec.dot (RVec.across l u) l = 0 := RVec.dot_across_look
  have hw : RVec.dot (RVec.cross (RVec.across l u) l) l = 0 := RVec.dot_cross_right _ _
  have hll := (RVec.norm_eq_one_iff l).mp hl
  simp only [RVec.dot] at hs hw
  refine ⟨_, look_to_unit e.toF l u (some old) flags hl hu, ?_⟩
  simp only [hb]
  obtain ⟨h0, h1, h2, h3, h4, h5, h6, h7, h8, h9, h10, h11, h12, h13, h14, h15⟩ :=
    look_to_store_apply old e.toF (RVec.across l u).toF
      (RVec.cross (RVec.across l u) l).toF
      (if flags &&& FLYTHROUGH_CAMERA_LEFT_HANDED_BIT = 0 then RVec.neg l else l).toF
  rw [h0, h1, h2, h3, h4, h5, h6, h7, h8, h9, h10, h11, h12, h13, h14, h15]
  simp only [RVec.toF, val_mul, val_add, val_neg, Flt.val.injEq]
  refine ⟨by ring, by ring, by ring, by ring, by linarith, by linarith, ?_, by ring⟩
  split_ifs
  · simp only [RVec.neg]
    linarith
  · linarith

/-- C7 at a concrete input: the eye at `(0, 0, 1)`, looking down `-z`. -/
theorem look_to_world_to_view_witness :
    minusZ.norm = 1 ∧ plusY.norm = 1 ∧ ¬ RVec.Parallel minusZ plusY ∧
      ∃ m : Mat16, flythrough_camera_look_to plusZ.toF minusZ.toF plusY.toF (some zero16) 0 =
          some (some m) ∧
        m 0 * val plusZ.x + m 4 * val plusZ.y + m 8 * val plusZ.z + m 12 * val 1 = val 0 ∧
        m 1 * val plusZ.x + m 5 * val plusZ.y + m 9 * val plusZ.z + m 13 * val 1 = val 0 ∧
        m 2 * val plusZ.x + m 6 * val plusZ.y + m 10 * val plusZ.z + m 14 * val 1 = val 0 ∧
        m 3 * val plusZ.x + m 7 * val plusZ.y + m 11 * val plusZ.z + m 15 * val 1 = val 1 ∧
        m 0 * val minusZ.x + m 4 * val minusZ.y + m 8 * val minusZ.z + m 12 * val 0 = val 0 ∧
        m 1 * val minusZ.x + m 5 * val minusZ.y + m 9 * val minusZ.z + m 13 * val 0 = val 0 ∧
        m 2 * val minusZ.x + m 6 * val minusZ.y + m 10 * val minusZ.z + m 14 * val 0 =
          val (if 0 &&& FLYTHROUGH_CAMERA_LEFT_HANDED_BIT = 0 then -1 else 1) ∧
        m 3 * val minusZ.x + m 7 * val minusZ.y + m 11 * val minusZ.z + m 15 * val 0 = val 0 :=
  ⟨minusZ_norm, plusY_norm, minusZ_plusY_not_parallel,
    look_to_world_to_view plusZ minusZ plusY zero16 0 minusZ_norm plusY_norm
      minusZ_plusY_not_parallel⟩

/-! ## Claim C8: the canonical view is the identity -/

/-- C8: with `eye = (0, 0, 0)`, `look = (0, 0, -1)`, `up = (0, 1, 0)` and
`flags = 0`, `flythrough_camera_look_to` writes the 4x4 identity, whatever
the buffer held before. -/
theorem look_to_canonical_identity (old : Mat16) :
    ∃ m : Mat16, flythrough_camera_look_to origin minusZ.toF plusY.toF (some old) 0 =
        some (some m) ∧
      m 0 = val 1 ∧ m 1 = val 0 ∧ m 2 = val 0 ∧ m 3 = val 0 ∧
      m 4 = val 0 ∧ m 5 = val 1 ∧ m 6 = val 0 ∧ m 7 = val 0 ∧
      m 8 = val 0 ∧ m 9 = val 0 ∧ m 10 = val 1 ∧ m 11 = val 0 ∧
      m 12 = val 0 ∧ m 13 = val 0 ∧ m 14 = val 0 ∧ m 15 = val 1 := by
  have hb := look_to_basis_unit minusZ plusY 0 minusZ_norm plusY_norm minusZ_plusY_not_parallel
  rw [across_minusZ_plusY] at hb
  refine ⟨_, look_to_unit origin minusZ plusY (some old) 0 minusZ_norm plusY_norm, ?_⟩
  simp only [hb]
  obtain ⟨h0, h1, h2, h3, h4, h5, h6, h7, h8, h9, h10, h11, h12, h13, h14, h15⟩ :=
    look_to_store_apply old origin (RVec.toF ⟨1, 0, 0⟩)
      (RVec.cross ⟨1, 0, 0⟩ minusZ).toF
      (if 0 &&& FLYTHROUGH_CAMERA_LEFT_HANDED_BIT = 0 then RVec.neg minusZ else minusZ).toF
  rw [h0, h1, h2, h3, h4, h5, h6, h7, h8, h9, h10, h11, h12, h13, h14, h15]
  simp [RVec.toF, RVec.cross, RVec.neg, minusZ, origin, FLYTHROUGH_CAMERA_LEFT_HANDED_BIT]

/-! ## Claim C9: the handedness flag -/

/-- C9, as stated, fails: with `eye = (0, 0, 1)`, `look = (0, 0, -1)` and
`up = (0, 1, 0)` the left-handed and the right-handed results differ in the
translation entry `view[14]` (1 against -1). -/
theorem handedness_translation_counterexample :
    minusZ.norm = 1 ∧ plusY.norm = 1 ∧
      ∃ mL mR : Mat16,
        flythrough_camera_look_to plusZ.toF minusZ.toF plusY.toF (some zero16)
          FLYTHROUGH_CAMERA_LEFT_HANDED_BIT = some (some mL) ∧
        flythrough_camera_look_to plusZ.toF minusZ.toF plusY.toF (some zero16) 0 =
          some (some mR) ∧
        mL 14 = val 1 ∧ mR 14 = val (-1) ∧ mL 14 ≠ mR 14 := by
  have hbL := look_to_basis_unit minusZ plusY FLYTHROUGH_CAMERA_LEFT_HANDED_BIT minusZ_norm
    plusY_norm minusZ_plusY_not_parallel
  have hbR := look_to_basis_unit minusZ plusY 0 minusZ_norm plusY_norm
    minusZ_plusY_not_parallel
  refine ⟨minusZ_norm, plusY_norm, _, _,
    look_to_unit plusZ.toF minusZ plusY (some zero16) _ minusZ_norm plusY_norm,
    look_to_unit plusZ.toF minusZ plusY (some zero16) 0 minusZ_norm plusY_norm, ?_⟩
  simp only [hbL, hbR]
  have eL := (look_to_store_apply zero16 plusZ.toF (RVec.across minusZ plusY).toF
    (RVec.cross (RVec.across minusZ plusY) minusZ).toF
    (if FLYTHROUGH_CAMERA_LEFT_HANDED_BIT &&& FLYTHROUGH_CAMERA_LEFT_HANDED_BIT = 0
      then RVec.neg minusZ else minusZ).toF).2.2.2.2.2.2.2.2.2.2.2.2.2.2.1
  have eR := (look_to_store_apply zero16 plusZ.toF (RVec.across minusZ plusY).toF
    (RVec.cross (RVec.across minusZ plusY) minusZ).toF
    (if 0 &&& FLYTHROUGH_CAMERA_LEFT_HANDED_BIT = 0
      then RVec.neg minusZ else minusZ).toF).2.2.2.2.2.2.2.2.2.2.2.2.2.2.1
  rw [eL, eR]
  simp [RVec.toF, RVec.neg, minusZ, plusZ, FLYTHROUGH_CAMERA_LEFT_HANDED_BIT]
  norm_num

/-- C9 (amended): for every eye and every `look` and `up` that pass the two
assertions, the result with the left-handed bit set equals the result with the
bit clear with the `f` entries `view[2]`, `view[6]`, `view[10]` negated and
the translation entry `view[14]` negated as well; the `s` entries `view[0]`,
`view[4]`, `view[8]`, the `u` entries `view[1]`, `view[5]`, `view[9]`, the
translation entries `view[12]`, `view[13]`, and `view[3]`, `view[7]`,
`view[11]`, `view[15]` are equal in both results. -/
theorem handedness_flip (eye look up : Vec3) (old : Mat16) (flagsL flagsR : Nat)
    (hlook : fabsf (len3 look - val 1) < val 0.000001)
    (hup : fabsf (len3 up - val 1) < val 0.000001)
    (hL : flagsL &&& FLYTHROUGH_CAMERA_LEFT_HANDED_BIT ≠ 0)
    (hR : flagsR &&& FLYTHROUGH_CAMERA_LEFT_HANDED_BIT = 0) :
    ∃ mL mR : Mat16,
      flythrough_camera_look_to eye look up (some old) flagsL = some (some mL) ∧
      flythrough_camera_look_to eye look up (some old) flagsR = some (some mR) ∧
      mL 2 = -mR 2 ∧ mL 6 = -mR 6 ∧ mL 10 = -mR 10 ∧ mL 14 = -mR 14 ∧
      mL 0 = mR 0 ∧ mL 4 = mR 4 ∧ mL 8 = mR 8 ∧
      mL 1 = mR 1 ∧ mL 5 = mR 5 ∧ mL 9 = mR 9 ∧
      mL 12 = mR 12 ∧ mL 13 = mR 13 ∧
      mL 3 = mR 3 ∧ mL 7 = mR 7 ∧ mL 11 = mR 11 ∧ mL 15 = mR 15 := by
  refine ⟨_, _, look_to_valid eye look up old flagsL hlook hup,
    look_to_valid eye look up old flagsR hlook hup, ?_⟩
  rw [look_to_basis_left look up flagsL hL, look_to_basis_right look up flagsR hR]
  simp only
  generalize (look_to_basis look up 0).1 = s
  generalize (look_to_basis look up 0).2.1 = w
  generalize div3 look (len3 look) = f
  obtain ⟨a0, a1, a2, a3, a4, a5, a6, a7, a8, a9, a10, a11, a12, a13, a14, a15⟩ :=
    look_to_store_apply old eye s w f
  obtain ⟨b0, b1, b2, b3, b4, b5, b6, b7, b8, b9, b10, b11, b12, b13, b14, b15⟩ :=
    look_to_store_apply old eye s w ⟨-f.x, -f.y, -f.z⟩
  rw [a0, a1, a2, a3, a4, a5, a6, a7, a8, a9, a10, a11, a12, a13, a14, a15,
    b0, b1, b2, b3, b4, b5, b6, b7, b8, b9, b10, b11, b12, b13, b14, b15]
  refine ⟨?_, ?_, ?_, ?_, rfl, rfl, rfl, rfl, rfl, rfl, rfl, rfl, rfl, rfl, rfl, rfl⟩
  · exact (Flt.neg_neg_eq _).symm
  · exact (Flt.neg_neg_eq _).symm
  · exact (Flt.neg_neg_eq _).symm
  · exact Flt.neg_dot_eq _ _ _ _ _ _

/-- C9 (amended) at a concrete input. -/
theorem handedness_flip_witness :
    fabsf (len3 minusZ.toF - val 1) < val 0.000001 ∧
      fabsf (len3 plusY.toF - val 1) < val 0.000001 ∧
      ∃ mL mR : Mat16,
        flythrough_camera_look_to plusZ.toF minusZ.toF plusY.toF (some zero16) 1 =
          some (some mL) ∧
        flythrough_camera_look_to plusZ.toF minusZ.toF plusY.toF (some zero16) 0 =
          some (some mR) ∧
        mL 2 = -mR 2 ∧ mL 6 = -mR 6 ∧ mL 10 = -mR 10 ∧ mL 14 = -mR 14 ∧
        mL 0 = mR 0 ∧ mL 4 = mR 4 ∧ mL 8 = mR 8 ∧
        mL 1 = mR 1 ∧ mL 5 = mR 5 ∧ mL 9 = mR 9 ∧
        mL 12 = mR 12 ∧ mL 13 = mR 13 ∧
        mL 3 = mR 3 ∧ mL 7 = mR 7 ∧ mL 11 = mR 11 ∧ mL 15 = mR 15 :=
  ⟨assert_unit minusZ minusZ_norm, assert_unit plusY plusY_norm,
    handedness_flip plusZ.toF minusZ.toF plusY.toF zero16 1 0
      (assert_unit minusZ minusZ_norm) (assert_unit plusY plusY_norm) (by decide) (by decide)⟩

/-! ## Claim C10: an absent view -/

/-- C10: `flythrough_camera_look_to` with an absent view returns without an
assertion and without a buffer, for every eye, look, up and flags; and for a
valid camera (`look` and `up` pass the two assertions and are not parallel)
`flythrough_camera_update` returns for every view argument and every `flags`,
with the `eye` and `look` of the call with an absent view, which leaves the
view absent. -/
theorem null_view_tolerated (eye : Vec3) (l u : RVec) (dt speed : Flt) (dpcm M : ℝ)
    (dx dy fwd left back right jump crouch : Int)
    (hl : fabsf (len3 l.toF - val 1) < val 0.000001)
    (hu : fabsf (len3 u.toF - val 1) < val 0.000001) (hnp : ¬ RVec.Parallel l u) :
    (∀ (eye2 look2 up2 : Vec3) (flags : Nat),
      flythrough_camera_look_to eye2 look2 up2 none flags = some none) ∧
    ∃ cam0, flythrough_camera_update eye l.toF u.toF none dt speed (val dpcm) (val M) dx dy
        fwd left back right jump crouch 0 = some cam0 ∧ cam0.view = none ∧
      ∀ (view : Option Mat16) (flags : Nat),
        ∃ cam, flythrough_camera_update eye l.toF u.toF view dt speed (val dpcm) (val M) dx dy
            fwd left back right jump crouch flags = some cam ∧
          cam.eye = cam0.eye ∧ cam.look = cam0.look ∧ (view = none → cam.view = none) := by
  obtain ⟨l2, -, h⟩ := update_valid eye l u dt speed dpcm M dx dy fwd left back right jump
    crouch hl hu hnp
  refine ⟨fun _ _ _ _ => rfl, _, h none 0, rfl, ?_⟩
  intro view flags
  refine ⟨_, h view flags, rfl, rfl, ?_⟩
  intro hv
  subst hv
  rfl

/-- C10 at a concrete input. -/
theorem null_view_tolerated_witness :
    fabsf (len3 minusZ.toF - val 1) < val 0.000001 ∧
      fabsf (len3 plusY.toF - val 1) < val 0.000001 ∧ ¬ RVec.Parallel minusZ plusY ∧
      ∃ cam0, flythrough_camera_update origin minusZ.toF plusY.toF none (val 2) (val 3) (val 1)
          (val 80) 7 (-5) 1 0 0 1 0 0 0 = some cam0 ∧ cam0.view = none ∧
        ∀ (view : Option Mat16) (flags : Nat),
          ∃ cam, flythrough_camera_update origin minusZ.toF plusY.toF view (val 2) (val 3)
              (val 1) (val 80) 7 (-5) 1 0 0 1 0 0 flags = some cam ∧
            cam.eye = cam0.eye ∧ cam.look = cam0.look ∧ (view = none → cam.view = none) :=
  ⟨assert_unit minusZ minusZ_norm, assert_unit plusY plusY_norm, minusZ_plusY_not_parallel,
    (null_view_tolerated origin minusZ plusY (val 2) (val 3) 1 80 7 (-5) 1 0 0 1 0 0
      (assert_unit minusZ minusZ_norm) (assert_unit plusY plusY_norm)
      minusZ_plusY_not_parallel).2⟩

/-! ## The update as a function of its arguments -/

/-- When the two entry assertions pass, the update is the final
`flythrough_camera_look_to` on `newEye` and `newLookF`. -/
theorem update_eq (eye look up : Vec3) (view : Option Mat16) (dt speed dpcm M : Flt)
    (dx dy fwd left back right jump crouch : Int) (flags : Nat)
    (hl : fabsf (len3 look - val 1) < val 0.000001)
    (hu : fabsf (len3 up - val 1) < val 0.000001) :
    flythrough_camera_update eye look up view dt speed dpcm M dx dy fwd left back right jump
        crouch flags =
      match flythrough_camera_look_to (newEye eye look up dt speed fwd left back right jump crouch)
          (newLookF look up dpcm M dx dy) up view flags with
      | some v => some ⟨newEye eye look up dt speed fwd left back right jump crouch,
          newLookF look up dpcm M dx dy, v⟩
      | none => none := by
  simp only [flythrough_camera_update, hl, hu, if_true, newEye, newLookF]

/-- When an entry assertion fails, the update fails. -/
theorem update_abort (eye look up : Vec3) (view : Option Mat16) (dt speed dpcm M : Flt)
    (dx dy fwd left back right jump crouch : Int) (flags : Nat)
    (h : ¬ fabsf (len3 look - val 1) < val 0.000001 ∨
      ¬ fabsf (len3 up - val 1) < val 0.000001) :
    flythrough_camera_update eye look up view dt speed dpcm M dx dy fwd left back right jump
        crouch flags = none := by
  unfold flythrough_camera_update
  rcases h with h | h
  · simp only [h, if_false]
  · simp only [h, if_false, ite_self]

/-- For real `look` and `up` that pass the assertions and are not parallel,
`newLookF` is a real vector that passes the assertion again. -/
theorem newLookF_valid (l u : RVec) (dpcm M : ℝ) (dx dy : Int)
    (hl : fabsf (len3 l.toF - val 1) < val 0.000001)
    (hu : fabsf (len3 u.toF - val 1) < val 0.000001) (hnp : ¬ RVec.Parallel l u) :
    ∃ l2 : RVec, newLookF l.toF u.toF (val dpcm) (val M) dx dy = l2.toF ∧
      fabsf (len3 l2.toF - val 1) < val 0.000001 := by
  have hln := RVec.norm_ne_zero_of_assert ((assert_toF_iff l).mp hl)
  have hun := RVec.norm_ne_zero_of_assert ((assert_toF_iff u).mp hu)
  have hnp2 := RVec.not_parallel_divs hnp hln hun
  have hacross : update_across l.toF u.toF (len3 l.toF) (len3 u.toF) =
      (RVec.across (l.divs l.norm) (u.divs u.norm)).toF := by
    rw [len3_toF, len3_toF, update_across_toF l u hln hun,
      div3_len3_toF _ (RVec.cross_norm_ne_zero hnp2)]
    rfl
  obtain ⟨l1, hy, hy2⟩ := update_yaw_valid l u dpcm dx hln hun
  have hl1 : l1.norm ≠ 0 := by
    rcases hy2 with h | h
    · rw [h]
      exact hln
    · rw [h]
      exact one_ne_zero
  obtain ⟨l2, hp, hp2⟩ := update_pitch_valid l1 u (RVec.across (l.divs l.norm) (u.divs u.norm))
    dpcm M (wrap32 (-dy)) hl1 (RVec.across_norm hnp2)
  refine ⟨l2, ?_, ?_⟩
  · rw [newLookF, hacross, len3_toF u, hy, hp]
  · rcases hp2 with h | h
    · rw [h]
      rcases hy2 with h3 | h3
      · rw [h3]
        exact hl
      · exact assert_unit l1 h3
    · exact assert_unit l2 h

/-- The final `flythrough_camera_look_to` returns `newView` when its two
assertions pass. -/
theorem look_to_newView (eye look up : Vec3) (view : Option Mat16) (flags : Nat)
    (hl : fabsf (len3 look - val 1) < val 0.000001)
    (hu : fabsf (len3 up - val 1) < val 0.000001) :
    flythrough_camera_look_to eye look up view flags = some (newView eye look up view flags) := by
  cases view with
  | none => rfl
  | some old => rw [look_to_valid eye look up old flags hl hu]; rfl

/-- For real `look` and `up` that pass the assertions and are not parallel the
update returns `newEye`, `newLookF` and `newView`. -/
theorem update_valid_eq (eye : Vec3) (l u : RVec) (view : Option Mat16) (dt speed : Flt)
    (dpcm M : ℝ) (dx dy fwd left back right jump crouch : Int) (flags : Nat)
    (hl : fabsf (len3 l.toF - val 1) < val 0.000001)
    (hu : fabsf (len3 u.toF - val 1) < val 0.000001) (hnp : ¬ RVec.Parallel l u) :
    flythrough_camera_update eye l.toF u.toF view dt speed (val dpcm) (val M) dx dy
        fwd left back right jump crouch flags =
      some ⟨newEye eye l.toF u.toF dt speed fwd left back right jump crouch,
        newLookF l.toF u.toF (val dpcm) (val M) dx dy,
        newView (newEye eye l.toF u.toF dt speed fwd left back right jump crouch)
          (newLookF l.toF u.toF (val dpcm) (val M) dx dy) u.toF view flags⟩ := by
  obtain ⟨l2, h2, ha⟩ := newLookF_valid l u dpcm M dx dy hl hu hnp
  rw [update_eq _ _ _ _ _ _ _ _ _ _ _ _ _ _ _ _ _ hl hu, h2, look_to_newView _ _ _ _ _ ha hu]

/-! ## Claim C11: the sole failure mode -/

/-- With `look = up` the axis `across` is `0/0`, and a pitch about it leaves a
`look` of `nan`s. -/
theorem newLookF_parallel_pitch :
    newLookF plusY.toF plusY.toF (val 1) (val 90) 0 1 = nan3 := by
  have hw : wrap32 (-1) = -1 := by decide
  rw [newLookF, len3_toF, plusY_norm, update_across_parallel _ _ plusY_plusY_parallel, hw]
  simp [update_yaw, update_pitch, rotate_look_nan3]

/-- C11, as stated, fails: `look = up = (0, 1, 0)` both have length exactly 1,
yet the update with a view supplied and `delta_cursor_y = 1` fails: the pitch
about `across = 0/0` leaves a `look` of `nan`s, and the assertion on its
length in the final `flythrough_camera_look_to` fires. -/
theorem parallel_look_fails_counterexample :
    |plusY.norm - 1| < 0.000001 ∧
      flythrough_camera_update origin plusY.toF plusY.toF (some zero16) (val 0) (val 0) (val 1)
        (val 90) 0 1 0 0 0 0 0 0 0 = none := by
  refine ⟨by rw [plusY_norm]; norm_num, ?_⟩
  rw [update_eq _ _ _ _ _ _ _ _ _ _ _ _ _ _ _ _ _ (assert_unit plusY plusY_norm)
    (assert_unit plusY plusY_norm), newLookF_parallel_pitch]
  simp [flythrough_camera_look_to, nan3, len3]

/-- C11 (amended): for real `look` and `up` that are not parallel, and any
view argument, cursor deltas, keys and parameters, `flythrough_camera_update`
fails if and only if the length of `look` or the length of `up` differs from
1 by `0.000001` or more; when both entry assertions pass it returns a `look`
that passes the length assertion of `flythrough_camera_look_to`. -/
theorem sole_failure_mode (eye : Vec3) (l u : RVec) (view : Option Mat16) (dt speed : Flt)
    (dpcm M : ℝ) (dx dy fwd left back right jump crouch : Int) (flags : Nat)
    (hnp : ¬ RVec.Parallel l u) :
    (flythrough_camera_update eye l.toF u.toF view dt speed (val dpcm) (val M) dx dy
        fwd left back right jump crouch flags = none ↔
      (0.000001 ≤ |l.norm - 1| ∨ 0.000001 ≤ |u.norm - 1|)) ∧
    (|l.norm - 1| < 0.000001 → |u.norm - 1| < 0.000001 →
      ∃ cam, flythrough_camera_update eye l.toF u.toF view dt speed (val dpcm) (val M) dx dy
          fwd left back right jump crouch flags = some cam ∧
        fabsf (len3 cam.look - val 1) < val 0.000001) := by
  have hret : |l.norm - 1| < 0.000001 → |u.norm - 1| < 0.000001 →
      ∃ cam, flythrough_camera_update eye l.toF u.toF view dt speed (val dpcm) (val M) dx dy
          fwd left back right jump crouch flags = some cam ∧
        fabsf (len3 cam.look - val 1) < val 0.000001 := by
    intro hl hu
    have hl2 := (assert_toF_iff l).mpr hl
    have hu2 := (assert_toF_iff u).mpr hu
    obtain ⟨l2, h2, ha⟩ := newLookF_valid l u dpcm M dx dy hl2 hu2 hnp
    refine ⟨_, update_valid_eq eye l u view dt speed dpcm M dx dy fwd left back right jump
      crouch flags hl2 hu2 hnp, ?_⟩
    simp only [h2]
    exact ha
  refine ⟨⟨?_, ?_⟩, hret⟩
  · intro hnone
    by_contra hc
    push_neg at hc
    obtain ⟨cam, hcam, -⟩ := hret hc.1 hc.2
    rw [hnone] at hcam
    exact Option.noConfusion hcam
  · intro h
    apply update_abort
    rcases h with h | h
    · left
      rw [assert_toF_iff]
      exact not_lt.mpr h
    · right
      rw [assert_toF_iff]
      exact not_lt.mpr h

/-- C11 (amended) at a concrete input: `look = (0, 0, -1)`, `up = (0, 1, 0)`,
a view supplied, a yaw and a pitch with two keys held. -/
theorem sole_failure_mode_witness :
    ¬ RVec.Parallel minusZ plusY ∧
      (flythrough_camera_update origin minusZ.toF plusY.toF (some zero16) (val 2) (val 3)
          (val 1) (val 80) 7 (-5) 1 0 0 1 0 0 0 = none ↔
        (0.000001 ≤ |minusZ.norm - 1| ∨ 0.000001 ≤ |plusY.norm - 1|)) ∧
      (|minusZ.norm - 1| < 0.000001 → |plusY.norm - 1| < 0.000001 →
        ∃ cam, flythrough_camera_update origin minusZ.toF plusY.toF (some zero16) (val 2)
            (val 3) (val 1) (val 80) 7 (-5) 1 0 0 1 0 0 0 = some cam ∧
          fabsf (len3 cam.look - val 1) < val 0.000001) :=
  ⟨minusZ_plusY_not_parallel,
    sole_failure_mode origin minusZ plusY (some zero16) (val 2) (val 3) 1 80 7 (-5) 1 0 0 1 0 0 0
      minusZ_plusY_not_parallel⟩

/-! ## Lemmas: a zero pitch allowance -/

theorem RVec.rot_zero_angle (k v : RVec) : RVec.rot k v 1 0 = v := by
  ext <;> simp [RVec.rot]

theorem RVec.not_parallel_of_dot_zero {l u : RVec} (hl : l.norm = 1) (hu : u.norm = 1)
    (hd : RVec.dot l u = 0) : ¬ RVec.Parallel l u := by
  intro hp
  have hn : (RVec.cross l u).normSq = 0 := by
    rw [show RVec.cross l u = ⟨0, 0, 0⟩ from hp]
    simp [RVec.normSq]
  rw [RVec.normSq_cross, RVec.normSq_eq_one_of_norm hl, RVec.normSq_eq_one_of_norm hu, hd] at hn
  norm_num at hn

/-- With `max_pitch_rotation_degrees = 0` and `look` at a right angle to `up`
the clamped pitch is 0 degrees. -/
theorem RVec.pitchDeg_zero_allowance (l u : RVec) (dpcm : ℝ) (n : Int)
    (hd : RVec.dot l u = 0) : RVec.pitchDeg l u dpcm 0 n = 0 := by
  have hx : Real.arccos 0 / PI_F * 180 - (90 - 0) ≤ 0 := by
    rw [Real.arccos_zero]
    have hc := PI_F_pos
    have hp := pi_le_PI_F
    have e : Real.pi / 2 / PI_F * 180 = 90 * (Real.pi / PI_F) := by
      field_simp
      ring
    have h1 : Real.pi / PI_F ≤ 1 := (div_le_one hc).mpr hp
    rw [e]
    linarith
  have hm : (if Real.arccos 0 / PI_F * 180 - (90 - 0) < 0 then (0 : ℝ)
      else Real.arccos 0 / PI_F * 180 - (90 - 0)) = 0 := by
    split_ifs with h
    · rfl
    · exact le_antisymm hx (not_lt.mp h)
  obtain ⟨h1, h2⟩ := RVec.pitchDeg_bounds l u dpcm 0 n
  simp only [hd, neg_zero, hm] at h1 h2
  linarith

theorem RVec.newLook_zero_allowance (l u : RVec) (dpcm : ℝ) (dy : Int)
    (hd : RVec.dot l u = 0) : RVec.newLook l u dpcm 0 0 dy = l := by
  rw [RVec.newLook, RVec.yaw_zero, RVec.pitch, RVec.pitchDeg_zero_allowance l u dpcm _ hd]
  split_ifs
  · simp only [zero_mul, zero_div, Real.cos_zero, Real.sin_zero]
    exact RVec.rot_zero_angle _ _
  · rfl

theorem RVec.pitchDeg_unclamped_neg (l u : RVec) (dpcm M : ℝ) (n : Int)
    (h0 : (n : ℝ) * dpcm < 0)
    (h1 : -((n : ℝ) * dpcm) ≤ Real.arccos (-RVec.dot l u) / PI_F * 180 - (90 - M)) :
    RVec.pitchDeg l u dpcm M n = (n : ℝ) * dpcm := by
  unfold RVec.pitchDeg
  simp only
  have hA : ¬ (Real.arccos (-RVec.dot l u) / PI_F * 180 - (90 - M) < 0) := by linarith
  rw [if_neg hA]
  by_cases hc : Real.arccos (RVec.dot l u) / PI_F * 180 - (90 - M) < 0
  · rw [if_pos hc]
    have hB : ¬ (0 < (n : ℝ) * dpcm ∧ (0 : ℝ) < (n : ℝ) * dpcm) := fun h => by linarith [h.1]
    rw [if_neg hB]
    exact if_neg (fun h => by linarith [h.2])
  · rw [if_neg hc]
    have hB : ¬ (0 < (n : ℝ) * dpcm ∧
        Real.arccos (RVec.dot l u) / PI_F * 180 - (90 - M) < (n : ℝ) * dpcm) :=
      fun h => by linarith [h.1]
    rw [if_neg hB]
    exact if_neg (fun h => by linarith [h.2])

theorem lookHigh_norm : lookHigh.norm = 1 := by
  rw [RVec.norm_eq_one_iff]
  norm_num [lookHigh]

theorem lookHigh_not_parallel : ¬ RVec.Parallel lookHigh plusY := by
  simp [RVec.Parallel, RVec.cross, lookHigh, plusY]

theorem arccos_three_fifths_le : Real.arccos (3 / 5) ≤ Real.pi / 3 := by
  have h : Real.arccos (3 / 5) ≤ Real.arccos (1 / 2) :=
    Real.strictAntiOn_arccos.antitoneOn (by constructor <;> norm_num)
      (by constructor <;> norm_num) (by norm_num)
  rw [arccos_half] at h
  exact h

/-! ## Claim C12: a zero pitch allowance -/

/-- C12, as stated, fails: `look = (0, 3/5, -4/5)` and `up = (0, 1, 0)` are
unit vectors and not parallel, and with `max_pitch_rotation_degrees = 0`,
`delta_cursor_x = 0` and `delta_cursor_y = 1` the update pitches `look` one
degree back towards the horizontal: the returned `look` has a smaller
component along `up` and differs from the input. -/
theorem zero_allowance_counterexample :
    lookHigh.norm = 1 ∧ plusY.norm = 1 ∧ ¬ RVec.Parallel lookHigh plusY ∧
      ∃ cam l2, flythrough_camera_update origin lookHigh.toF plusY.toF none (val 0) (val 0)
          (val 1) (val 0) 0 1 0 0 0 0 0 0 0 = some cam ∧
        cam.look = RVec.toF l2 ∧ RVec.dot l2 plusY < RVec.dot lookHigh plusY ∧
        cam.look ≠ lookHigh.toF := by
  have hw : wrap32 (-1) = -1 := by decide
  have hd : RVec.dot lookHigh plusY = 3 / 5 := by norm_num [RVec.dot, lookHigh, plusY]
  have hc := PI_F_pos
  have hP : RVec.pitchDeg lookHigh plusY 1 0 (-1) = -1 := by
    rw [RVec.pitchDeg_unclamped_neg]
    · norm_num
    · norm_num
    · rw [hd, Real.arccos_neg]
      have h1 := arccos_three_fifths_le
      have h2 : (91 : ℝ) ≤ (2 * Real.pi / 3) / PI_F * 180 := by
        have e : (2 * Real.pi / 3) / PI_F * 180 = 120 * Real.pi / PI_F := by
          field_simp
          ring
        rw [e, le_div_iff₀ hc]
        unfold PI_F
        linarith [Real.pi_gt_d2]
      have h3 : (2 * Real.pi / 3) / PI_F * 180 ≤
          (Real.pi - Real.arccos (3 / 5)) / PI_F * 180 := by
        have h4 : 2 * Real.pi / 3 ≤ Real.pi - Real.arccos (3 / 5) := by linarith
        gcongr
      norm_num
      linarith
  have hnl : RVec.newLook lookHigh plusY 1 0 0 1 =
      RVec.rot (RVec.across lookHigh plusY) lookHigh (Real.cos (-1 * PI_F / 180))
        (Real.sin (-1 * PI_F / 180)) := by
    rw [RVec.newLook, RVec.yaw_zero, hw, RVec.pitch, if_pos (by decide), hP]
  have hdot : RVec.dot (RVec.newLook lookHigh plusY 1 0 0 1) plusY <
      RVec.dot lookHigh plusY := by
    rw [hnl, RVec.dot_rot_across lookHigh_norm plusY_norm, hd]
    have ha0 := Real.arccos_nonneg (3 / 5)
    have ha1 : Real.arccos (3 / 5) ≤ Real.pi / 3 := arccos_three_fifths_le
    have hdelta : (0 : ℝ) < PI_F / 180 := by positivity
    have hdelta2 : PI_F / 180 ≤ 1 := by
      unfold PI_F
      norm_num
    have hlt := Real.strictAntiOn_cos
      (a := Real.arccos (3 / 5)) (b := Real.arccos (3 / 5) - -1 * PI_F / 180)
      ⟨ha0, by linarith [Real.pi_pos]⟩
      ⟨by linarith, by linarith [Real.pi_gt_three]⟩ (by linarith)
    rw [Real.cos_arccos (by norm_num) (by norm_num)] at hlt
    exact hlt
  refine ⟨lookHigh_norm, plusY_norm, lookHigh_not_parallel, _, _,
    update_unit origin lookHigh plusY none (val 0) (val 0) 1 0 0 1 0 0 0 0 0 0 0
      lookHigh_norm plusY_norm lookHigh_not_parallel, rfl, hdot, ?_⟩
  intro h
  have h2 := RVec.toF_injective h
  rw [h2] at hdot
  exact lt_irrefl _ hdot

/-- C12 (amended): with `max_pitch_rotation_degrees = 0`, for unit `look` and
`up` at a right angle (the only directions the zero allowance admits), every
`degrees_per_cursor_move` and every `delta_cursor_y`, an update with
`delta_cursor_x = 0` returns and leaves `look` unchanged. -/
theorem zero_allowance_locks_pitch (eye : Vec3) (l u : RVec) (view : Option Mat16)
    (dt speed : Flt) (dpcm : ℝ) (dy fwd left back right jump crouch : Int) (flags : Nat)
    (hl : l.norm = 1) (hu : u.norm = 1) (hd : RVec.dot l u = 0) :
    ∃ cam, flythrough_camera_update eye l.toF u.toF view dt speed (val dpcm) (val 0) 0 dy
        fwd left back right jump crouch flags = some cam ∧ cam.look = l.toF := by
  have hnp := RVec.not_parallel_of_dot_zero hl hu hd
  refine ⟨_, update_unit eye l u view dt speed dpcm 0 0 dy fwd left back right jump crouch flags
    hl hu hnp, ?_⟩
  simp only [RVec.newLook_zero_allowance l u dpcm dy hd]

/-- C12 (amended) at a concrete input: `look = (0, 0, -1)`, `up = (0, 1, 0)`. -/
theorem zero_allowance_locks_pitch_witness :
    minusZ.norm = 1 ∧ plusY.norm = 1 ∧ RVec.dot minusZ plusY = 0 ∧
      ∃ cam, flythrough_camera_update origin minusZ.toF plusY.toF none (val 0) (val 0) (val 1)
        (val 0) 0 (-1000) 0 0 0 0 0 0 0 = some cam ∧ cam.look = minusZ.toF :=
  ⟨minusZ_norm, plusY_norm, by norm_num [RVec.dot, minusZ, plusY],
    zero_allowance_locks_pitch origin minusZ plusY none (val 0) (val 0) 1 (-1000) 0 0 0 0 0 0 0
      minusZ_norm plusY_norm (by norm_num [RVec.dot, minusZ, plusY])⟩

/-! ## Claim C13: the view written by the update -/

/-- The sixteen stores overwrite the whole buffer. -/
theorem look_to_store_indep (old old2 : Mat16) (eye s u f : Vec3) :
    look_to_store old eye s u f = look_to_store old2 eye s u f := by
  funext i
  fin_cases i <;> rfl

theorem newView_indep (eye look up : Vec3) (old old2 : Mat16) (flags : Nat) :
    newView eye look up (some old) flags = newView eye look up (some old2) flags := by
  simp only [newView, Option.map_some']
  rw [look_to_store_indep old old2]

/-- C13: for real `look` and `up` that pass the assertions and are not
parallel, with a view supplied, the update returns a view `m` that is the
result of `flythrough_camera_look_to` on the updated eye, the updated look,
the same `up` and the same `flags`, whatever buffer that call is given; and
the update writes the same `m` whatever the buffer held before. -/
theorem update_view_is_look_to (eye : Vec3) (l u : RVec) (old : Mat16) (dt speed : Flt)
    (dpcm M : ℝ) (dx dy fwd left back right jump crouch : Int) (flags : Nat)
    (hl : fabsf (len3 l.toF - val 1) < val 0.000001)
    (hu : fabsf (len3 u.toF - val 1) < val 0.000001) (hnp : ¬ RVec.Parallel l u) :
    ∃ cam m, flythrough_camera_update eye l.toF u.toF (some old) dt speed (val dpcm) (val M)
        dx dy fwd left back right jump crouch flags = some cam ∧
      cam.view = some m ∧
      (∀ old2 : Mat16,
        flythrough_camera_look_to cam.eye cam.look u.toF (some old2) flags = some (some m)) ∧
      (∀ old2 : Mat16, ∃ cam2,
        flythrough_camera_update eye l.toF u.toF (some old2) dt speed (val dpcm) (val M)
          dx dy fwd left back right jump crouch flags = some cam2 ∧ cam2.view = some m) := by
  obtain ⟨l2, h2, ha⟩ := newLookF_valid l u dpcm M dx dy hl hu hnp
  refine ⟨_, _, update_valid_eq eye l u (some old) dt speed dpcm M dx dy fwd left back right
    jump crouch flags hl hu hnp, rfl, ?_, ?_⟩
  · intro old2
    simp only
    rw [look_to_newView _ _ _ _ _ (by rw [h2]; exact ha) hu, newView_indep _ _ _ old2 old]
    rfl
  · intro old2
    refine ⟨_, update_valid_eq eye l u (some old2) dt speed dpcm M dx dy fwd left back right
      jump crouch flags hl hu hnp, ?_⟩
    simp only
    rw [newView_indep _ _ _ old2 old]
    rfl

/-- C13 at a concrete input. -/
theorem update_view_is_look_to_witness :
    fabsf (len3 minusZ.toF - val 1) < val 0.000001 ∧
      fabsf (len3 plusY.toF - val 1) < val 0.000001 ∧ ¬ RVec.Parallel minusZ plusY ∧
      ∃ cam m, flythrough_camera_update origin minusZ.toF plusY.toF (some zero16) (val 2)
          (val 3) (val 1) (val 80) 7 (-5) 1 0 0 1 0 0 0 = some cam ∧
        cam.view = some m ∧
        (∀ old2 : Mat16,
          flythrough_camera_look_to cam.eye cam.look plusY.toF (some old2) 0 = some (some m)) ∧
        (∀ old2 : Mat16, ∃ cam2,
          flythrough_camera_update origin minusZ.toF plusY.toF (some old2) (val 2) (val 3)
            (val 1) (val 80) 7 (-5) 1 0 0 1 0 0 0 = some cam2 ∧ cam2.view = some m) :=
  ⟨assert_unit minusZ minusZ_norm, assert_unit plusY plusY_norm, minusZ_plusY_not_parallel,
    update_view_is_look_to origin minusZ plusY zero16 (val 2) (val 3) 1 80 7 (-5) 1 0 0 1 0 0 0
      (assert_unit minusZ minusZ_norm) (assert_unit plusY plusY_norm)
      minusZ_plusY_not_parallel⟩

/-! ## Lemmas: the translation of the eye on real values -/

theorem cond01_eq_ind (k : Int) : cond01 k = val (ind k) := by
  unfold cond01 ind
  split_ifs <;> rfl

theorem advance_toF (e m : RVec) {len : ℝ} (s t : ℝ) (h : len ≠ 0) :
    advance e.toF m.toF (val len) (val s) (val t) = (RVec.moved e m len s t).toF := by
  simp only [advance, RVec.toF, RVec.moved, val_div_of_ne _ h, val_mul, val_add]

theorem update_eye_xz_active (e a f : RVec) (s t : ℝ) (fwd left back right : Int)
    (hact : planar_active fwd left back right)
    (hm : (RVec.comb a f (ind right - ind left) (ind fwd - ind back)).norm ≠ 0) :
    update_eye_xz e.toF a.toF f.toF (val s) (val t) fwd left back right =
      (RVec.moved e (RVec.comb a f (ind right - ind left) (ind fwd - ind back))
        (RVec.comb a f (ind right - ind left) (ind fwd - ind back)).norm s t).toF := by
  unfold update_eye_xz
  have hact2 : (held right ∧ ¬ held left) ∨ (¬ held right ∧ held left) ∨
      (held fwd ∧ ¬ held back) ∨ (¬ held fwd ∧ held back) := hact
  rw [if_pos hact2]
  simp only [cond01_eq_ind, val_sub]
  rw [← advance_toF e _ s t hm, ← len3_toF]
  rfl

theorem update_eye_xz_inactive (eye across forward : Vec3) (speed dt : Flt)
    (fwd left back right : Int) (h : ¬ planar_active fwd left back right) :
    update_eye_xz eye across forward speed dt fwd left back right = eye := by
  unfold update_eye_xz
  exact if_neg h

theorem update_eye_y_active (e u : RVec) (s t : ℝ) (jump crouch : Int)
    (hact : (held jump ∧ ¬ held crouch) ∨ (¬ held jump ∧ held crouch))
    (hm : (RVec.scale u (ind jump - ind crouch)).norm ≠ 0) :
    update_eye_y e.toF u.toF (val s) (val t) jump crouch =
      (RVec.moved e (RVec.scale u (ind jump - ind crouch))
        (RVec.scale u (ind jump - ind crouch)).norm s t).toF := by
  unfold update_eye_y
  rw [if_pos hact]
  simp only [cond01_eq_ind, val_sub]
  rw [← advance_toF e _ s t hm, ← len3_toF]
  rfl

namespace RVec

theorem normSq_comb (a f : RVec) (x z : ℝ) (ha : a.normSq = 1) (hf : f.normSq = 1)
    (haf : dot a f = 0) : (comb a f x z).normSq = x * x + z * z := by
  simp only [normSq, comb, dot] at *
  linear_combination (x * x) * ha + (z * z) * hf + (2 * x * z) * haf

theorem scale_one (v : RVec) : scale v 1 = v := by
  ext <;> simp [scale]

theorem scale_neg_one (v : RVec) : scale v (-1) = neg v := by
  ext <;> simp [scale, neg]

/-- A displacement along a normalised vector has length `|s * t|`. -/
theorem dist_moved (e m : RVec) (s t : ℝ) (hm : m.norm ≠ 0) :
    dist (moved e m m.norm s t) e = |s * t| := by
  have hsq : m.normSq = m.norm * m.norm := (norm_sq m).symm
  have e1 : (e.x + m.x / m.norm * s * t - e.x) * (e.x + m.x / m.norm * s * t - e.x) +
      (e.y + m.y / m.norm * s * t - e.y) * (e.y + m.y / m.norm * s * t - e.y) +
      (e.z + m.z / m.norm * s * t - e.z) * (e.z + m.z / m.norm * s * t - e.z) =
      (s * t) ^ 2 := by
    have h2 : m.x * m.x + m.y * m.y + m.z * m.z = m.norm * m.norm := hsq
    field_simp
    linear_combination (s * t) ^ 2 * h2
  show Real.sqrt ((e.x + m.x / m.norm * s * t - e.x) * (e.x + m.x / m.norm * s * t - e.x) +
      (e.y + m.y / m.norm * s * t - e.y) * (e.y + m.y / m.norm * s * t - e.y) +
      (e.z + m.z / m.norm * s * t - e.z) * (e.z + m.z / m.norm * s * t - e.z)) = |s * t|
  rw [e1]
  exact Real.sqrt_sq_eq_abs _

theorem ind_sq_ge_one (fwd left back right : Int) (h : planar_active fwd left back right) :
    1 ≤ (ind right - ind left) * (ind right - ind left) +
      (ind fwd - ind back) * (ind fwd - ind back) := by
  unfold planar_active at h
  unfold ind
  by_cases h1 : held right <;> by_cases h2 : held left <;> by_cases h3 : held fwd <;>
    by_cases h4 : held back <;> simp [h1, h2, h3, h4] at h ⊢

/-- The planar movement vector is not zero when a planar key is active. -/
theorem planar_norm_ne_zero {l u : RVec} (hl : l.norm = 1) (hnp : ¬ Parallel l u)
    (fwd left back right : Int) (h : planar_active fwd left back right) :
    (planar l u fwd left back right).norm ≠ 0 := by
  rw [norm_ne_zero_iff, planar,
    normSq_comb _ _ _ _ (normSq_eq_one_of_norm (across_norm hnp)) (normSq_eq_one_of_norm hl)
      dot_across_look]
  have := ind_sq_ge_one fwd left back right h
  linarith

end RVec

theorem newEye_unit (eye : Vec3) (l u : RVec) (dt speed : Flt)
    (fwd left back right jump crouch : Int) (hl : l.norm = 1) (hu : u.norm = 1)
    (hnp : ¬ RVec.Parallel l u) :
    newEye eye l.toF u.toF dt speed fwd left back right jump crouch =
      update_eye_y (update_eye_xz eye (RVec.across l u).toF l.toF speed dt fwd left back right)
        u.toF speed dt jump crouch := by
  simp only [newEye, len3_toF, hl, hu, update_across_unit l u hnp, update_forward,
    div3_toF_one]

theorem ind_of_ne {k : Int} (h : k ≠ 0) : ind k = 1 := by
  simp [ind, held, h]

theorem ind_zero : ind 0 = 0 := by
  simp [ind, held]

theorem not_held_zero : ¬ held 0 := by
  simp [held]

/-! ## Claim C15: planar translation -/

/-- C15: for unit `look` and `up` that are not parallel, with jump and crouch
not held and a planar key held un-cancelled, the update adds to `eye` the
vector `normalize (x * across + z * look) * eye_speed * delta_time_seconds`
with `x = right - left` and `z = forward - backward` in `{-1, 0, 1}`; the
length that divides is not zero, the displacement has length
`|eye_speed * delta_time_seconds|` in every case, and forward alone gives
`eye + look * eye_speed * delta_time_seconds`. -/
theorem planar_translation_normalized (e l u : RVec) (view : Option Mat16) (s t dpcm M : ℝ)
    (dx dy fwd left back right : Int) (flags : Nat)
    (hl : l.norm = 1) (hu : u.norm = 1) (hnp : ¬ RVec.Parallel l u)
    (hact : planar_active fwd left back right) :
    (RVec.planar l u fwd left back right).norm ≠ 0 ∧
    (∃ cam, flythrough_camera_update e.toF l.toF u.toF view (val t) (val s) (val dpcm) (val M)
        dx dy fwd left back right 0 0 flags = some cam ∧
      cam.eye = (RVec.moved e (RVec.planar l u fwd left back right)
        (RVec.planar l u fwd left back right).norm s t).toF) ∧
    RVec.dist (RVec.moved e (RVec.planar l u fwd left back right)
      (RVec.planar l u fwd left back right).norm s t) e = |s * t| ∧
    ((ind right - ind left = -1 ∨ ind right - ind left = 0 ∨ ind right - ind left = 1) ∧
      (ind fwd - ind back = -1 ∨ ind fwd - ind back = 0 ∨ ind fwd - ind back = 1)) ∧
    (fwd ≠ 0 → left = 0 → back = 0 → right = 0 →
      RVec.moved e (RVec.planar l u fwd left back right)
        (RVec.planar l u fwd left back right).norm s t =
      ⟨e.x + l.x * s * t, e.y + l.y * s * t, e.z + l.z * s * t⟩) := by
  have hm := RVec.planar_norm_ne_zero hl hnp fwd left back right hact
  refine ⟨hm, ⟨_, update_unit e.toF l u view (val t) (val s) dpcm M dx dy fwd left back right
    0 0 flags hl hu hnp, ?_⟩, RVec.dist_moved e _ s t hm, ?_, ?_⟩
  · simp only
    rw [newEye_unit _ _ _ _ _ _ _ _ _ _ _ hl hu hnp, update_eye_y_none,
      update_eye_xz_active e _ l s t fwd left back right hact hm]
    rfl
  · unfold ind
    constructor <;> split_ifs <;> norm_num
  · intro hf hle hb hr
    subst hle hb hr
    have hp : RVec.planar l u fwd 0 0 0 = l := by
      simp only [RVec.planar, ind_of_ne hf, ind_zero, RVec.comb]
      ext <;> simp
    rw [hp, hl]
    ext <;> simp [RVec.moved]

/-- C15 at a concrete input: forward and right held, looking down `-z`. -/
theorem planar_translation_normalized_witness :
    minusZ.norm = 1 ∧ plusY.norm = 1 ∧ ¬ RVec.Parallel minusZ plusY ∧
      planar_active 1 0 0 1 ∧
      (RVec.planar minusZ plusY 1 0 0 1).norm ≠ 0 ∧
      (∃ cam, flythrough_camera_update plusZ.toF minusZ.toF plusY.toF none (val 2) (val 3)
          (val 1) (val 80) 7 (-5) 1 0 0 1 0 0 0 = some cam ∧
        cam.eye = (RVec.moved plusZ (RVec.planar minusZ plusY 1 0 0 1)
          (RVec.planar minusZ plusY 1 0 0 1).norm 3 2).toF) ∧
      RVec.dist (RVec.moved plusZ (RVec.planar minusZ plusY 1 0 0 1)
        (RVec.planar minusZ plusY 1 0 0 1).norm 3 2) plusZ = |(3 : ℝ) * 2| :=
  have hact : planar_active 1 0 0 1 := by
    simp [planar_active, held]
  have h := planar_translation_normalized plusZ minusZ plusY none 3 2 1 80 7 (-5) 1 0 0 1 0
    minusZ_norm plusY_norm minusZ_plusY_not_parallel hact
  ⟨minusZ_norm, plusY_norm, minusZ_plusY_not_parallel, hact, h.1, h.2.1, h.2.2.1⟩

/-! ## Claim C16: vertical translation -/

/-- C16: for real `look` and `up` that pass the assertions and are not
parallel, with no planar key held un-cancelled, the update with jump held
alone returns `eye + up / |up| * eye_speed * delta_time_seconds` and with
crouch held alone `eye - up / |up| * eye_speed * delta_time_seconds`: the
displacement is along the caller's `up` and does not involve `look`. -/
theorem vertical_translation_raw_up (e l u : RVec) (view : Option Mat16) (s t dpcm M : ℝ)
    (dx dy fwd left back right k : Int) (flags : Nat)
    (hl : fabsf (len3 l.toF - val 1) < val 0.000001)
    (hu : fabsf (len3 u.toF - val 1) < val 0.000001) (hnp : ¬ RVec.Parallel l u)
    (hin : ¬ planar_active fwd left back right) (hk : k ≠ 0) :
    (∃ cam, flythrough_camera_update e.toF l.toF u.toF view (val t) (val s) (val dpcm) (val M)
        dx dy fwd left back right k 0 flags = some cam ∧
      cam.eye = RVec.toF ⟨e.x + u.x / u.norm * s * t, e.y + u.y / u.norm * s * t,
        e.z + u.z / u.norm * s * t⟩) ∧
    (∃ cam, flythrough_camera_update e.toF l.toF u.toF view (val t) (val s) (val dpcm) (val M)
        dx dy fwd left back right 0 k flags = some cam ∧
      cam.eye = RVec.toF ⟨e.x - u.x / u.norm * s * t, e.y - u.y / u.norm * s * t,
        e.z - u.z / u.norm * s * t⟩) := by
  have hun := RVec.norm_ne_zero_of_assert ((assert_toF_iff u).mp hu)
  have hkh : held k := hk
  constructor
  · refine ⟨_, update_valid_eq e.toF l u view (val t) (val s) dpcm M dx dy fwd left back right
      k 0 flags hl hu hnp, ?_⟩
    simp only [newEye]
    rw [update_eye_xz_inactive _ _ _ _ _ _ _ _ _ hin]
    have hs : RVec.scale u (ind k - ind 0) = u := by
      rw [ind_of_ne hk, ind_zero, sub_zero, RVec.scale_one]
    rw [update_eye_y_active e u s t k 0 (Or.inl ⟨hkh, not_held_zero⟩) (by rw [hs]; exact hun), hs]
    rfl
  · refine ⟨_, update_valid_eq e.toF l u view (val t) (val s) dpcm M dx dy fwd left back right
      0 k flags hl hu hnp, ?_⟩
    simp only [newEye]
    rw [update_eye_xz_inactive _ _ _ _ _ _ _ _ _ hin]
    have hs : RVec.scale u (ind 0 - ind k) = RVec.neg u := by
      rw [ind_of_ne hk, ind_zero, zero_sub, RVec.scale_neg_one]
    rw [update_eye_y_active e u s t 0 k (Or.inr ⟨not_held_zero, hkh⟩)
      (by rw [hs, RVec.norm_neg]; exact hun), hs, RVec.norm_neg]
    congr 1
    ext <;> simp only [RVec.moved, RVec.neg] <;> ring

/-- C16 at a concrete input: jump, or crouch, held alone. -/
theorem vertical_translation_raw_up_witness :
    fabsf (len3 minusZ.toF - val 1) < val 0.000001 ∧
      fabsf (len3 plusY.toF - val 1) < val 0.000001 ∧ ¬ RVec.Parallel minusZ plusY ∧
      ¬ planar_active 0 0 0 0 ∧ (1 : Int) ≠ 0 ∧
      (∃ cam, flythrough_camera_update plusZ.toF minusZ.toF plusY.toF none (val 2) (val 3)
          (val 1) (val 80) 7 (-5) 0 0 0 0 1 0 0 = some cam ∧
        cam.eye = RVec.toF ⟨plusZ.x + plusY.x / plusY.norm * 3 * 2,
          plusZ.y + plusY.y / plusY.norm * 3 * 2, plusZ.z + plusY.z / plusY.norm * 3 * 2⟩) :=
  have hin : ¬ planar_active 0 0 0 0 := by
    simp [planar_active, held]
  ⟨assert_unit minusZ minusZ_norm, assert_unit plusY plusY_norm, minusZ_plusY_not_parallel,
    hin, one_ne_zero,
    (vertical_translation_raw_up plusZ minusZ plusY none 3 2 1 80 7 (-5) 0 0 0 0 1 0
      (assert_unit minusZ minusZ_norm) (assert_unit plusY plusY_norm)
      minusZ_plusY_not_parallel hin one_ne_zero).1⟩

/-! ## Claim C14: the speed of the eye -/

/-- C14 fails on the code: forward and jump held together.  With
`eye = (0, 0, 0)`, `look = (0, 0, -1)`, `up = (0, 1, 0)`,
`delta_time_seconds = 1` and `eye_speed = 1` the update returns
`eye = (0, 1, -1)`: the planar block and the vertical block each add a
displacement of length 1, and the eye ends `√2` away, not
`eye_speed * delta_time_seconds = 1`. -/
theorem forward_and_jump_speed :
    minusZ.norm = 1 ∧ plusY.norm = 1 ∧ ¬ RVec.Parallel minusZ plusY ∧
      ∃ cam, flythrough_camera_update origin minusZ.toF plusY.toF none (val 1) (val 1) (val 1)
          (val 80) 0 0 1 0 0 0 1 0 0 = some cam ∧
        cam.eye = RVec.toF ⟨0, 1, -1⟩ ∧
        RVec.dist ⟨0, 1, -1⟩ ⟨0, 0, 0⟩ = Real.sqrt 2 ∧
        RVec.dist ⟨0, 1, -1⟩ ⟨0, 0, 0⟩ ≠ 1 * 1 := by
  have hd : RVec.dist ⟨0, 1, -1⟩ ⟨0, 0, 0⟩ = Real.sqrt 2 := by
    unfold RVec.dist RVec.norm
    norm_num
  refine ⟨minusZ_norm, plusY_norm, minusZ_plusY_not_parallel, _,
    update_unit origin minusZ plusY none (val 1) (val 1) 1 80 0 0 1 0 0 0 1 0 0
      minusZ_norm plusY_norm minusZ_plusY_not_parallel, ?_, hd, ?_⟩
  · simp only
    have hact : planar_active 1 0 0 0 := by
      simp [planar_active, held]
    have hc : RVec.comb (RVec.across minusZ plusY) minusZ (ind 0 - ind 0) (ind 1 - ind 0) =
        minusZ := by
      rw [ind_of_ne one_ne_zero, ind_zero]
      ext <;> simp [RVec.comb]
    have hs : RVec.scale plusY (ind 1 - ind 0) = plusY := by
      rw [ind_of_ne one_ne_zero, ind_zero, sub_zero, RVec.scale_one]
    have ho : origin = RVec.toF ⟨0, 0, 0⟩ := rfl
    rw [newEye_unit _ _ _ _ _ _ _ _ _ _ _ minusZ_norm plusY_norm minusZ_plusY_not_parallel, ho,
      update_eye_xz_active ⟨0, 0, 0⟩ _ minusZ 1 1 1 0 0 0 hact
        (by rw [hc, minusZ_norm]; exact one_ne_zero), hc, minusZ_norm,
      update_eye_y_active _ plusY 1 1 1 0 (Or.inl ⟨one_ne_zero, not_held_zero⟩)
        (by rw [hs, plusY_norm]; exact one_ne_zero), hs, plusY_norm]
    congr 1
    ext <;> simp [RVec.moved, minusZ, plusY]
  · rw [hd, mul_one]
    intro h
    have h2 : Real.sqrt 2 * Real.sqrt 2 = 2 := Real.mul_self_sqrt (by norm_num)
    rw [h] at h2
    norm_num at h2

/-! ## Lemmas: the yaw block -/

theorem wrap32_neg {n : Int} (h1 : -2147483648 < n) (h2 : n < 2147483648) :
    wrap32 (-n) = -n := by
  unfold wrap32
  omega

theorem update_pitch_zero (look up across : Vec3) (dpcm M : Flt) :
    update_pitch look up across dpcm M 0 = look := by
  simp [update_pitch]

/-- A yaw-only update from unit `look` and `up`, parallel or not: the update
returns the `look` of the yaw block. -/
theorem update_yaw_only (eye : Vec3) (l u : RVec) (view : Option Mat16) (dt speed M : Flt)
    (dpcm : ℝ) (dx fwd left back right jump crouch : Int) (flags : Nat)
    (hl : l.norm = 1) (hu : u.norm = 1) :
    flythrough_camera_update eye l.toF u.toF view dt speed (val dpcm) M dx 0
        fwd left back right jump crouch flags =
      some ⟨newEye eye l.toF u.toF dt speed fwd left back right jump crouch,
        (RVec.yaw l u dpcm dx).toF,
        newView (newEye eye l.toF u.toF dt speed fwd left back right jump crouch)
          (RVec.yaw l u dpcm dx).toF u.toF view flags⟩ := by
  have hy := update_yaw_unit l u dpcm dx hl hu
  have hw : wrap32 (-0) = 0 := by decide
  have hnl : newLookF l.toF u.toF (val dpcm) M dx 0 = (RVec.yaw l u dpcm dx).toF := by
    rw [newLookF, hw, update_pitch_zero, len3_toF, hu, hy.1]
  rw [update_eq _ _ _ _ _ _ _ _ _ _ _ _ _ _ _ _ _ (assert_unit l hl) (assert_unit u hu), hnl,
    look_to_newView _ _ _ _ _ (assert_unit _ hy.2) (assert_unit u hu)]

namespace RVec

theorem rot_eq_rodrigues (k v : RVec) (a : ℝ) :
    rot k v (Real.cos a) (Real.sin a) = rodrigues k v a := by
  ext <;> simp only [rot, rodrigues, cross, dot] <;> ring

theorem yaw_eq_rot (l u : RVec) (dpcm : ℝ) {dx : Int} (hdx : dx ≠ 0)
    (h1 : -2147483648 < dx) (h2 : dx < 2147483648) :
    yaw l u dpcm dx =
      rot u l (Real.cos (yaw_radians dx dpcm)) (Real.sin (yaw_radians dx dpcm)) := by
  have e : ((wrap32 (-dx) : Int) : ℝ) * dpcm * PI_F / 180 = yaw_radians dx dpcm := by
    rw [wrap32_neg h1 h2, yaw_radians]
    push_cast
    ring
  rw [yaw, if_pos hdx, e]

/-- Two rotations about the same unit axis compose to the rotation by the
sum of the angles. -/
theorem rot_rot (k v : RVec) (c1 s1 c2 s2 : ℝ) (hk : k.normSq = 1) :
    rot k (rot k v c1 s1) c2 s2 = rot k v (c1 * c2 - s1 * s2) (s1 * c2 + c1 * s2) := by
  simp only [normSq] at hk
  ext
  · simp only [rot]
    linear_combination (-s1 * s2 * v.x +
      (1 - c1) * (1 - c2) * (k.x * v.x + k.y * v.y + k.z * v.z) * k.x) * hk
  · simp only [rot]
    linear_combination (-s1 * s2 * v.y +
      (1 - c1) * (1 - c2) * (k.x * v.x + k.y * v.y + k.z * v.z) * k.y) * hk
  · simp only [rot]
    linear_combination (-s1 * s2 * v.z +
      (1 - c1) * (1 - c2) * (k.x * v.x + k.y * v.y + k.z * v.z) * k.z) * hk

theorem rot_add (k v : RVec) (a b : ℝ) (hk : k.normSq = 1) :
    rot k (rot k v (Real.cos a) (Real.sin a)) (Real.cos b) (Real.sin b) =
      rot k v (Real.cos (a + b)) (Real.sin (a + b)) := by
  rw [rot_rot k v _ _ _ _ hk, Real.cos_add, Real.sin_add]

theorem yaw_radians_add (dx1 dx2 : Int) (dpcm : ℝ) :
    yaw_radians dx1 dpcm + yaw_radians dx2 dpcm = yaw_radians (dx1 + dx2) dpcm := by
  unfold yaw_radians
  push_cast
  ring

/-- The yaw turns `look` towards `across` when the cursor moves to the right
by less than half a turn. -/
theorem dot_yaw_across {l u : RVec} (hnp : ¬ Parallel l u) (a : ℝ)
    (h1 : -Real.pi < a) (h2 : a < 0) :
    0 < dot (rot u l (Real.cos a) (Real.sin a)) (across l u) := by
  have hN : 0 < (cross l u).norm :=
    lt_of_le_of_ne (norm_nonneg _) (Ne.symm (cross_norm_ne_zero hnp))
  have e1 : dot l (across l u) = 0 := by rw [dot_comm, dot_across_look]
  have e2 : dot u (across l u) = 0 := by rw [dot_comm, dot_across_up]
  have e3 : dot (cross u l) (across l u) = -(cross l u).norm := by
    have h := dot_across_cross l u
    have e : dot (cross u l) (across l u) = -dot (across l u) (cross l u) := by
      simp only [dot, cross]
      ring
    rw [e, h]
  rw [dot_rot, e1, e2, e3]
  have hs : Real.sin a < 0 := Real.sin_neg_of_neg_of_neg_pi_lt h2 h1
  have : 0 < -Real.sin a * (cross l u).norm := mul_pos (by linarith) hN
  linarith

end RVec

/-! ## Claim C18: the yaw is a Rodrigues rotation about up -/

/-- C18: for unit `look` and `up` and an update with `delta_cursor_y = 0` and
`delta_cursor_x = dx ≠ 0` (an `int` whose negation does not overflow), the
returned `look` is `cos a * look + sin a * (up × look) +
(1 - cos a) * (up . look) * up` for `a = -dx * degrees_per_cursor_move`
degrees converted to radians with the constant of the source; `look . up` is
unchanged; and when `look` is not parallel to `up` and
`dx * degrees_per_cursor_move` is positive with `|a|` below half a turn, the
returned `look` has a positive component along `across`, where the incoming
`look` has none. -/
theorem yaw_is_rodrigues (eye : Vec3) (l u : RVec) (view : Option Mat16) (dt speed M : Flt)
    (dpcm : ℝ) (dx fwd left back right jump crouch : Int) (flags : Nat)
    (hl : l.norm = 1) (hu : u.norm = 1) (hdx : dx ≠ 0)
    (h1 : -2147483648 < dx) (h2 : dx < 2147483648) :
    ∃ cam l2, flythrough_camera_update eye l.toF u.toF view dt speed (val dpcm) M dx 0
        fwd left back right jump crouch flags = some cam ∧
      cam.look = RVec.toF l2 ∧
      l2 = RVec.rodrigues u l (yaw_radians dx dpcm) ∧
      RVec.dot l2 u = RVec.dot l u ∧
      (¬ RVec.Parallel l u → 0 < (dx : ℝ) * dpcm → (dx : ℝ) * dpcm * PI_F / 180 < Real.pi →
        RVec.dot l (RVec.across l u) = 0 ∧ 0 < RVec.dot l2 (RVec.across l u)) := by
  have hy := RVec.yaw_eq_rot l u dpcm hdx h1 h2
  refine ⟨_, RVec.yaw l u dpcm dx, update_yaw_only eye l u view dt speed M dpcm dx fwd left back
    right jump crouch flags hl hu, rfl, ?_, ?_, ?_⟩
  · rw [hy, RVec.rot_eq_rodrigues]
  · rw [hy, RVec.dot_rot_axis _ _ _ _ (RVec.normSq_eq_one_of_norm hu)]
  · intro hnp hpos hlt
    refine ⟨by rw [RVec.dot_comm, RVec.dot_across_look], ?_⟩
    rw [hy]
    have ha : yaw_radians dx dpcm = -((dx : ℝ) * dpcm * PI_F / 180) := by
      unfold yaw_radians
      ring
    have hc := PI_F_pos
    have hp : 0 < (dx : ℝ) * dpcm * PI_F / 180 := by positivity
    exact RVec.dot_yaw_across hnp _ (by rw [ha]; linarith) (by rw [ha]; linarith)

/-- C18 at a concrete input: a yaw of 7 cursor units. -/
theorem yaw_is_rodrigues_witness :
    minusZ.norm = 1 ∧ plusY.norm = 1 ∧ (7 : Int) ≠ 0 ∧
      ∃ cam l2, flythrough_camera_update origin minusZ.toF plusY.toF none (val 2) (val 3)
          (val 1) (val 80) 7 0 1 0 0 1 0 0 0 = some cam ∧
        cam.look = RVec.toF l2 ∧
        l2 = RVec.rodrigues plusY minusZ (yaw_radians 7 1) ∧
        RVec.dot l2 plusY = RVec.dot minusZ plusY ∧
        (¬ RVec.Parallel minusZ plusY → 0 < ((7 : Int) : ℝ) * 1 →
          ((7 : Int) : ℝ) * 1 * PI_F / 180 < Real.pi →
          RVec.dot minusZ (RVec.across minusZ plusY) = 0 ∧
            0 < RVec.dot l2 (RVec.across minusZ plusY)) :=
  ⟨minusZ_norm, plusY_norm, by decide,
    yaw_is_rodrigues origin minusZ plusY none (val 2) (val 3) (val 80) 1 7 1 0 0 1 0 0 0
      minusZ_norm plusY_norm (by decide) (by decide) (by decide)⟩

/-! ## Claim C20: yaw is additive across frames -/

/-- C20: for unit `look` and `up`, every `degrees_per_cursor_move` and
non-zero `dx1`, `dx2` (with `dx1`, `dx2` and `dx1 + dx2` inside the range in
which an `int` can be negated), two successive yaw-only updates with no key
held, by `dx1` and then by `dx2`, return the `look` of the single yaw-only
update by `dx1 + dx2` when `dx1 + dx2 ≠ 0`, and the original `look` when
`dx1 + dx2 = 0`. -/
theorem yaw_additive (eye : Vec3) (l u : RVec) (view : Option Mat16)
    (dt speed M dt2 speed2 M2 : Flt) (dpcm : ℝ) (dx1 dx2 : Int) (flags : Nat)
    (hl : l.norm = 1) (hu : u.norm = 1) (hdx1 : dx1 ≠ 0) (hdx2 : dx2 ≠ 0)
    (h1lo : -2147483648 < dx1) (h1hi : dx1 < 2147483648)
    (h2lo : -2147483648 < dx2) (h2hi : dx2 < 2147483648)
    (h3lo : -2147483648 < dx1 + dx2) (h3hi : dx1 + dx2 < 2147483648) :
    ∃ cam1 cam2,
      flythrough_camera_update eye l.toF u.toF view dt speed (val dpcm) M dx1 0
        0 0 0 0 0 0 flags = some cam1 ∧
      flythrough_camera_update cam1.eye cam1.look u.toF cam1.view dt2 speed2 (val dpcm) M2 dx2 0
        0 0 0 0 0 0 flags = some cam2 ∧
      (dx1 + dx2 ≠ 0 → ∃ cam3,
        flythrough_camera_update eye l.toF u.toF view dt speed (val dpcm) M (dx1 + dx2) 0
          0 0 0 0 0 0 flags = some cam3 ∧ cam2.look = cam3.look) ∧
      (dx1 + dx2 = 0 → cam2.look = l.toF) := by
  have hk := RVec.normSq_eq_one_of_norm hu
  have hy1 := update_yaw_unit l u dpcm dx1 hl hu
  have e1 := RVec.yaw_eq_rot l u dpcm hdx1 h1lo h1hi
  have e2 := RVec.yaw_eq_rot (RVec.yaw l u dpcm dx1) u dpcm hdx2 h2lo h2hi
  have hcomp : RVec.yaw (RVec.yaw l u dpcm dx1) u dpcm dx2 =
      RVec.rot u l (Real.cos (yaw_radians (dx1 + dx2) dpcm))
        (Real.sin (yaw_radians (dx1 + dx2) dpcm)) := by
    rw [e2, e1, RVec.rot_add _ _ _ _ hk, RVec.yaw_radians_add]
  refine ⟨_, _, update_yaw_only eye l u view dt speed M dpcm dx1 0 0 0 0 0 0 flags hl hu,
    update_yaw_only _ (RVec.yaw l u dpcm dx1) u _ dt2 speed2 M2 dpcm dx2 0 0 0 0 0 0 flags
      hy1.2 hu, ?_, ?_⟩
  · intro hne
    refine ⟨_, update_yaw_only eye l u view dt speed M dpcm (dx1 + dx2) 0 0 0 0 0 0 flags hl hu,
      ?_⟩
    simp only
    rw [hcomp, RVec.yaw_eq_rot l u dpcm hne h3lo h3hi]
  · intro h0
    simp only
    rw [hcomp, h0]
    have hz : yaw_radians 0 dpcm = 0 := by
      simp [yaw_radians]
    rw [hz, Real.cos_zero, Real.sin_zero, RVec.rot_zero_angle]

/-- C20 at a concrete input: yaws by 7 and by -3 cursor units. -/
theorem yaw_additive_witness :
    minusZ.norm = 1 ∧ plusY.norm = 1 ∧ (7 : Int) ≠ 0 ∧ (-3 : Int) ≠ 0 ∧
      ∃ cam1 cam2,
        flythrough_camera_update origin minusZ.toF plusY.toF none (val 2) (val 3) (val 1)
          (val 80) 7 0 0 0 0 0 0 0 0 = some cam1 ∧
        flythrough_camera_update cam1.eye cam1.look plusY.toF cam1.view (val 2) (val 3) (val 1)
          (val 80) (-3) 0 0 0 0 0 0 0 0 = some cam2 ∧
        (7 + -3 ≠ (0 : Int) → ∃ cam3,
          flythrough_camera_update origin minusZ.toF plusY.toF none (val 2) (val 3) (val 1)
            (val 80) (7 + -3) 0 0 0 0 0 0 0 0 = some cam3 ∧ cam2.look = cam3.look) ∧
        (7 + -3 = (0 : Int) → cam2.look = minusZ.toF) :=
  ⟨minusZ_norm, plusY_norm, by decide, by decide,
    yaw_additive origin minusZ plusY none (val 2) (val 3) (val 80) (val 2) (val 3) (val 80) 1
      7 (-3) 0 minusZ_norm plusY_norm (by decide) (by decide) (by decide) (by decide)
      (by decide) (by decide) (by decide) (by decide)⟩

/-! ## Lemmas: the exact pitch -/

theorem ite_neg_eq_max (x : ℝ) : (if x < 0 then 0 else x) = max 0 x := by
  split_ifs with h
  · exact (max_eq_left (le_of_lt h)).symm
  · exact (max_eq_right (not_lt.mp h)).symm

/-- The two conditional assignments of lines 216 to 220 clamp the request. -/
theorem clamp_eq_max_min (D maxp minp : ℝ) (h1 : 0 ≤ maxp) (h2 : 0 ≤ minp) :
    (if (if 0 < D ∧ maxp < D then maxp else D) < 0 ∧
        minp < -(if 0 < D ∧ maxp < D then maxp else D) then -minp
        else (if 0 < D ∧ maxp < D then maxp else D)) = max (-minp) (min D maxp) := by
  by_cases hD : 0 < D
  · by_cases hm : maxp < D
    · rw [if_pos (⟨hD, hm⟩ : 0 < D ∧ maxp < D)]
      rw [if_neg (fun h => by linarith [h.1] : ¬ (maxp < 0 ∧ minp < -maxp))]
      rw [min_eq_right (le_of_lt hm), max_eq_right (by linarith)]
    · rw [if_neg (fun h => hm h.2 : ¬ (0 < D ∧ maxp < D))]
      rw [if_neg (fun h => by linarith [h.1] : ¬ (D < 0 ∧ minp < -D))]
      rw [min_eq_left (not_lt.mp hm), max_eq_right (by linarith)]
  · rw [if_neg (fun h => hD h.1 : ¬ (0 < D ∧ maxp < D))]
    have hD2 : D ≤ 0 := not_lt.mp hD
    rw [min_eq_left (by linarith : D ≤ maxp)]
    by_cases h3 : D < 0 ∧ minp < -D
    · rw [if_pos h3, max_eq_left (by linarith [h3.2])]
    · rw [if_neg h3]
      have h4 : -minp ≤ D := by
        by_cases h5 : D < 0
        · have : ¬ minp < -D := fun h6 => h3 ⟨h5, h6⟩
          linarith
        · linarith
      rw [max_eq_right h4]

namespace RVec

theorem pitchDeg_eq_specPitch (l u : RVec) (dpcm M : ℝ) (dy : Int) :
    pitchDeg l u dpcm M (-dy) = specPitch l u dpcm M dy := by
  unfold pitchDeg specPitch degs
  simp only [dot_neg_right, ite_neg_eq_max, Int.cast_neg]
  exact clamp_eq_max_min _ _ _ (le_max_left _ _) (le_max_left _ _)

/-- The clamped pitch never turns `look` past `up` or past `-up`. -/
theorem pitch_angle_range (l u : RVec) (dpcm M : ℝ) (n : Int) (hM : M ≤ 90) :
    0 ≤ Real.arccos (dot l u) - pitchDeg l u dpcm M n * PI_F / 180 ∧
      Real.arccos (dot l u) - pitchDeg l u dpcm M n * PI_F / 180 ≤ Real.pi := by
  obtain ⟨hlo, hhi⟩ := pitchDeg_bounds l u dpcm M n
  rw [Real.arccos_neg] at hlo
  have hc := PI_F_pos
  have h0 := Real.arccos_nonneg (dot l u)
  have hpi := Real.arccos_le_pi (dot l u)
  have hb : 0 ≤ (90 - M) * PI_F / 180 := by
    have : 0 ≤ (90 - M) * PI_F := mul_nonneg (by linarith) (le_of_lt hc)
    linarith
  have e1 : (Real.arccos (dot l u) / PI_F * 180 - (90 - M)) * PI_F / 180 =
      Real.arccos (dot l u) - (90 - M) * PI_F / 180 := by
    field_simp
    ring
  have e2 : ((Real.pi - Real.arccos (dot l u)) / PI_F * 180 - (90 - M)) * PI_F / 180 =
      Real.pi - Real.arccos (dot l u) - (90 - M) * PI_F / 180 := by
    field_simp
    ring
  have hhi2 := mul_le_mul_of_nonneg_right hhi (le_of_lt hc)
  have hlo2 := mul_le_mul_of_nonneg_right hlo (le_of_lt hc)
  constructor
  · split_ifs at hhi2 with hneg
    · linarith
    · linarith
  · split_ifs at hlo2 with hneg
    · linarith
    · linarith

/-- The angle to `up` after the pitch block, in the degrees of the source. -/
theorem degs_pitch {l u : RVec} (dpcm M : ℝ) (n : Int) (hl : l.norm = 1) (hu : u.norm = 1)
    (hn : n ≠ 0) (hM : M ≤ 90) :
    degs (pitch l u (across l u) dpcm M n) u = degs l u - pitchDeg l u dpcm M n := by
  obtain ⟨h1, h2⟩ := pitch_angle_range l u dpcm M n hM
  have hc := PI_F_ne_zero
  rw [pitch, if_pos hn, degs, degs, dot_rot_across hl hu, Real.arccos_cos h1 h2]
  field_simp
  ring

end RVec

namespace RVec

theorem degs_neg (a b : RVec) : degs a (neg b) = Real.pi / PI_F * 180 - degs a b := by
  unfold degs
  rw [dot_neg_right, Real.arccos_neg]
  ring

/-- A request toward `up` is never answered by a turn away from it. -/
theorem specPitch_nonneg (l u : RVec) (dpcm M : ℝ) (dy : Int)
    (h : 0 ≤ -(dy : ℝ) * dpcm) : 0 ≤ specPitch l u dpcm M dy :=
  le_max_of_le_right (le_min h (le_max_left _ _))

/-- A request toward `up` beyond the headroom is cut to the headroom. -/
theorem specPitch_up_clamped (l u : RVec) (dpcm M : ℝ) (dy : Int)
    (h0 : 90 - M ≤ degs l u) (h : degs l u - (90 - M) ≤ -(dy : ℝ) * dpcm) :
    specPitch l u dpcm M dy = degs l u - (90 - M) := by
  have hx : 0 ≤ degs l u - (90 - M) := by linarith
  unfold specPitch
  rw [max_eq_right hx, min_eq_right h]
  exact max_eq_right (le_trans (neg_nonpos.mpr (le_max_left _ _)) hx)

/-- A request toward `-up` beyond the headroom is cut to the headroom. -/
theorem specPitch_down_clamped (l u : RVec) (dpcm M : ℝ) (dy : Int)
    (h0 : 90 - M ≤ degs l (neg u)) (h : degs l (neg u) - (90 - M) ≤ (dy : ℝ) * dpcm) :
    specPitch l u dpcm M dy = -(degs l (neg u) - (90 - M)) := by
  have hx : 0 ≤ degs l (neg u) - (90 - M) := by linarith
  have hD : -(dy : ℝ) * dpcm ≤ -(degs l (neg u) - (90 - M)) := by linarith
  unfold specPitch
  rw [max_eq_right hx, min_eq_left (le_trans (le_trans hD (neg_nonpos.mpr hx)) (le_max_left _ _))]
  exact max_eq_left hD

end RVec

/-! ## Claim C17: the exact pitch with clamping -/

/-- C17: for unit `look` and `up` that are not parallel, an allowance
`M <= 90` and a call with `delta_cursor_x = 0` and `delta_cursor_y = dy != 0`
(a value that line 98 can negate), the update returns, and the angle from the
returned `look` to `up`, in the degrees of lines 199 to 203, is the old angle
minus `RVec.specPitch`, the request `-dy * degrees_per_cursor_move` clamped to
`[-min_pitch, max_pitch]`.  So with `dy < 0` and a positive sensitivity the
angle to `up` does not grow, and a request beyond the headroom, toward `up` or
toward `-up`, ends at exactly `90 - M` from that pole. -/
theorem exact_pitch_with_clamp (eye : Vec3) (l u : RVec) (view : Option Mat16) (dt speed : Flt)
    (dpcm M : ℝ) (dy fwd left back right jump crouch : Int) (flags : Nat)
    (hl : l.norm = 1) (hu : u.norm = 1) (hnp : ¬ RVec.Parallel l u) (hM : M ≤ 90)
    (hdy : dy ≠ 0) (h1 : -2147483648 < dy) (h2 : dy < 2147483648) :
    ∃ cam l2, flythrough_camera_update eye l.toF u.toF view dt speed (val dpcm) (val M) 0 dy
        fwd left back right jump crouch flags = some cam ∧
      cam.look = RVec.toF l2 ∧
      RVec.degs l2 u = RVec.degs l u - RVec.specPitch l u dpcm M dy ∧
      (dy < 0 → 0 < dpcm → RVec.degs l2 u ≤ RVec.degs l u) ∧
      (90 - M ≤ RVec.degs l u → RVec.degs l u - (90 - M) ≤ -(dy : ℝ) * dpcm →
        RVec.degs l2 u = 90 - M) ∧
      (90 - M ≤ RVec.degs l (RVec.neg u) →
        RVec.degs l (RVec.neg u) - (90 - M) ≤ (dy : ℝ) * dpcm →
        RVec.degs l2 (RVec.neg u) = 90 - M) := by
  have hn : -dy ≠ 0 := neg_ne_zero.mpr hdy
  have hlook : RVec.newLook l u dpcm M 0 dy =
      RVec.pitch l u (RVec.across l u) dpcm M (-dy) := by
    rw [RVec.newLook, RVec.yaw_zero, wrap32_neg h1 h2]
  have hd : RVec.degs (RVec.newLook l u dpcm M 0 dy) u =
      RVec.degs l u - RVec.specPitch l u dpcm M dy := by
    rw [hlook, RVec.degs_pitch dpcm M (-dy) hl hu hn hM, RVec.pitchDeg_eq_specPitch]
  refine ⟨_, RVec.newLook l u dpcm M 0 dy,
    update_unit eye l u view dt speed dpcm M 0 dy fwd left back right jump crouch flags
      hl hu hnp, rfl, hd, ?_, ?_, ?_⟩
  · intro hneg hpos
    have hr : (dy : ℝ) < 0 := by exact_mod_cast hneg
    have hD : 0 ≤ -(dy : ℝ) * dpcm := le_of_lt (mul_pos (by linarith) hpos)
    have := RVec.specPitch_nonneg l u dpcm M dy hD
    linarith
  · intro h0 h
    rw [hd, RVec.specPitch_up_clamped l u dpcm M dy h0 h]
    ring
  · intro h0 h
    rw [RVec.degs_neg, hd, RVec.specPitch_down_clamped l u dpcm M dy h0 h, RVec.degs_neg]
    ring

/-- C17 at a concrete input: from the horizon with `M = 80`, thirty degrees
toward `up`. -/
theorem exact_pitch_with_clamp_witness :
    minusZ.norm = 1 ∧ plusY.norm = 1 ∧ ¬ RVec.Parallel minusZ plusY ∧ (80 : ℝ) ≤ 90 ∧
      (-30 : Int) ≠ 0 ∧ (-2147483648 : Int) < -30 ∧ (-30 : Int) < 2147483648 ∧
      ∃ cam l2, flythrough_camera_update origin minusZ.toF plusY.toF none (val 1) (val 1)
          (val 1) (val 80) 0 (-30) 0 0 0 0 0 0 0 = some cam ∧
        cam.look = RVec.toF l2 ∧
        RVec.degs l2 plusY = RVec.degs minusZ plusY - RVec.specPitch minusZ plusY 1 80 (-30) :=
  have h := exact_pitch_with_clamp origin minusZ plusY none (val 1) (val 1) 1 80 (-30)
    0 0 0 0 0 0 0 minusZ_norm plusY_norm minusZ_plusY_not_parallel (by norm_num) (by decide)
    (by decide) (by decide)
  ⟨minusZ_norm, plusY_norm, minusZ_plusY_not_parallel, by norm_num, by decide, by decide,
    by decide,
    h.elim fun cam h2 => h2.elim fun l2 h3 => ⟨cam, l2, h3.1, h3.2.1, h3.2.2.1⟩⟩

/-! ## Lemmas: translation and rotation -/

/-- When the entry assertions pass and the update returns, the returned eye is
`newEye` and the returned look is `newLookF`. -/
theorem update_some_fields (eye look up : Vec3) (view : Option Mat16) (dt speed dpcm M : Flt)
    (dx dy fwd left back right jump crouch : Int) (flags : Nat) (cam : Camera)
    (hl : fabsf (len3 look - val 1) < val 0.000001)
    (hu : fabsf (len3 up - val 1) < val 0.000001)
    (h : flythrough_camera_update eye look up view dt speed dpcm M dx dy fwd left back right
      jump crouch flags = some cam) :
    cam.eye = newEye eye look up dt speed fwd left back right jump crouch ∧
      cam.look = newLookF look up dpcm M dx dy := by
  rw [update_eq _ _ _ _ _ _ _ _ _ _ _ _ _ _ _ _ _ hl hu] at h
  cases hv : flythrough_camera_look_to (newEye eye look up dt speed fwd left back right jump
      crouch) (newLookF look up dpcm M dx dy) up view flags with
  | none =>
    rw [hv] at h
    exact absurd h (by simp)
  | some v =>
    rw [hv] at h
    have h2 := Option.some.inj h
    rw [← h2]
    exact ⟨rfl, rfl⟩

theorem newEye_none (eye look up : Vec3) (dt speed : Flt) :
    newEye eye look up dt speed 0 0 0 0 0 0 = eye := by
  rw [newEye, update_eye_xz_none, update_eye_y_none]

theorem newLookF_none (look up : Vec3) (dpcm M : Flt) : newLookF look up dpcm M 0 0 = look := by
  have hw : wrap32 (-0) = 0 := by decide
  rw [newLookF, hw, update_pitch_zero]
  simp [update_yaw]

/-! ## Claim C19: translation and rotation do not interfere -/

/-- C19: for real `look` and `up` that pass the assertions, whenever the
update returns, the returned eye is the same for every `delta_cursor_x`,
`delta_cursor_y`, `degrees_per_cursor_move` and `max_pitch_rotation_degrees`,
and the returned look is the same for every choice of the six keys,
`delta_time_seconds`, `eye_speed` and `eye`; an update with no key held
returns the eye it was given, and an update with no cursor motion returns the
look it was given.  When `look` and `up` are not parallel all these calls
return. -/
theorem translation_rotation_independent (eye eye2 : Vec3) (l u : RVec) (view : Option Mat16)
    (dt speed dt2 speed2 : Flt) (dpcm M dpcm2 M2 : ℝ)
    (dx dy dx2 dy2 fwd left back right jump crouch fwd2 left2 back2 right2 jump2 crouch2 : Int)
    (flags : Nat)
    (hl : fabsf (len3 l.toF - val 1) < val 0.000001)
    (hu : fabsf (len3 u.toF - val 1) < val 0.000001) :
    (∀ cam camE camL,
      flythrough_camera_update eye l.toF u.toF view dt speed (val dpcm) (val M) dx dy
        fwd left back right jump crouch flags = some cam →
      flythrough_camera_update eye l.toF u.toF view dt speed (val dpcm2) (val M2) dx2 dy2
        fwd left back right jump crouch flags = some camE →
      flythrough_camera_update eye2 l.toF u.toF view dt2 speed2 (val dpcm) (val M) dx dy
        fwd2 left2 back2 right2 jump2 crouch2 flags = some camL →
      camE.eye = cam.eye ∧ camL.look = cam.look) ∧
    (∀ cam, flythrough_camera_update eye l.toF u.toF view dt speed (val dpcm) (val M) dx dy
        0 0 0 0 0 0 flags = some cam → cam.eye = eye) ∧
    (∀ cam, flythrough_camera_update eye l.toF u.toF view dt speed (val dpcm) (val M) 0 0
        fwd left back right jump crouch flags = some cam → cam.look = l.toF) ∧
    (¬ RVec.Parallel l u →
      (∃ cam, flythrough_camera_update eye l.toF u.toF view dt speed (val dpcm) (val M) dx dy
        fwd left back right jump crouch flags = some cam) ∧
      (∃ cam, flythrough_camera_update eye l.toF u.toF view dt speed (val dpcm2) (val M2)
        dx2 dy2 fwd left back right jump crouch flags = some cam) ∧
      (∃ cam, flythrough_camera_update eye2 l.toF u.toF view dt2 speed2 (val dpcm) (val M)
        dx dy fwd2 left2 back2 right2 jump2 crouch2 flags = some cam) ∧
      (∃ cam, flythrough_camera_update eye l.toF u.toF view dt speed (val dpcm) (val M) dx dy
        0 0 0 0 0 0 flags = some cam) ∧
      (∃ cam, flythrough_camera_update eye l.toF u.toF view dt speed (val dpcm) (val M) 0 0
        fwd left back right jump crouch flags = some cam)) := by
  refine ⟨?_, ?_, ?_, ?_⟩
  · intro cam camE camL h hE hL
    have f := update_some_fields _ _ _ _ _ _ _ _ _ _ _ _ _ _ _ _ _ cam hl hu h
    have fE := update_some_fields _ _ _ _ _ _ _ _ _ _ _ _ _ _ _ _ _ camE hl hu hE
    have fL := update_some_fields _ _ _ _ _ _ _ _ _ _ _ _ _ _ _ _ _ camL hl hu hL
    exact ⟨fE.1.trans f.1.symm, fL.2.trans f.2.symm⟩
  · intro cam h
    rw [(update_some_fields _ _ _ _ _ _ _ _ _ _ _ _ _ _ _ _ _ cam hl hu h).1, newEye_none]
  · intro cam h
    rw [(update_some_fields _ _ _ _ _ _ _ _ _ _ _ _ _ _ _ _ _ cam hl hu h).2, newLookF_none]
  · intro hnp
    exact ⟨⟨_, update_valid_eq _ l u _ _ _ _ _ _ _ _ _ _ _ _ _ _ hl hu hnp⟩,
      ⟨_, update_valid_eq _ l u _ _ _ _ _ _ _ _ _ _ _ _ _ _ hl hu hnp⟩,
      ⟨_, update_valid_eq _ l u _ _ _ _ _ _ _ _ _ _ _ _ _ _ hl hu hnp⟩,
      ⟨_, update_valid_eq _ l u _ _ _ _ _ _ _ _ _ _ _ _ _ _ hl hu hnp⟩,
      ⟨_, update_valid_eq _ l u _ _ _ _ _ _ _ _ _ _ _ _ _ _ hl hu hnp⟩⟩

/-- C19 at a concrete input: a cursor-only update returns and leaves the eye
where it was. -/
theorem translation_rotation_independent_witness :
    fabsf (len3 minusZ.toF - val 1) < val 0.000001 ∧
      fabsf (len3 plusY.toF - val 1) < val 0.000001 ∧
      (∃ cam, flythrough_camera_update origin minusZ.toF plusY.toF (some zero16) (val 1) (val 1)
        (val 1) (val 80) 7 (-5) 0 0 0 0 0 0 0 = some cam) ∧
      (∀ cam, flythrough_camera_update origin minusZ.toF plusY.toF (some zero16) (val 1) (val 1)
        (val 1) (val 80) 7 (-5) 0 0 0 0 0 0 0 = some cam → cam.eye = origin) :=
  have h := translation_rotation_independent origin plusZ.toF minusZ plusY (some zero16)
    (val 1) (val 1) (val 2) (val 3) 1 80 2 45 7 (-5) 3 4 0 0 0 0 0 0 1 0 0 1 1 0 0
    (assert_unit minusZ minusZ_norm) (assert_unit plusY plusY_norm)
  ⟨assert_unit minusZ minusZ_norm, assert_unit plusY plusY_norm,
    (h.2.2.2 minusZ_plusY_not_parallel).2.2.2.1, h.2.1⟩

end

end FlythroughCamera
